import Mathlib

/-!
# Pintos thread scheduler, semaphores and locks with priority donation

A shallow embedding of `threads/thread.c`, `threads/synch.c` and
`devices/timer.c`.

* A thread is named by a handle (`Tid`), standing for the address of its page;
  the kernel state maps handles to thread records, so that several lists may
  hold the same thread, as the intrusive lists of the source do.
* Every operation is one uninterrupted run of the current thread, from the call
  up to its return or up to the point where the CPU is handed to another thread
  (`schedule`).  The result is the state at that point; `none` stands for a
  kernel panic (a failed `ASSERT`, a dereferenced `NULL`).
* Interrupt levels are not tracked: every run below happens with interrupts
  disabled, which is what the `intr_disable`/`intr_set_level` pairs of the source
  arrange.  Whether the code runs inside an external interrupt handler
  (`intr_context`) is part of the state.
* The stack-overflow sentinel (`magic`), the register frame and the user-program
  fields of a thread are left out: no operation below reads them.
* A word that the code reaches through `list_begin` of an empty list (the tail
  sentinel, which is no element) is a field of the state of its own
  (`ready_tail_priority`, `sema_tail_priority`).
* A run (`run`) is a list of such operations, each made by the thread that is
  running when its turn comes; the states reached by runs from an initial state
  are the reachable states.
-/

namespace Pintos

/-! ## Data model -/

/-- Handle of a thread: stands for the address of its page (`struct thread *`). -/
abbrev Tid := Nat

/-- Handle of a lock: stands for its address (`struct lock *`). -/
abbrev LockId := Nat

/-- Modelled from the spec: `PRI_MIN` of `threads/thread.h` (absent), lowest priority. -/
def PRI_MIN : Int := 0

/-- Modelled from the spec: `PRI_DEFAULT` of `threads/thread.h` (absent). -/
def PRI_DEFAULT : Int := 31

/-- Modelled from the spec: `PRI_MAX` of `threads/thread.h` (absent), highest priority. -/
def PRI_MAX : Int := 63

/-- `TIME_SLICE` of `thread.c`: timer ticks given to each thread. -/
def TIME_SLICE : Nat := 4

/-- Modelled from the spec: `enum thread_status` of `threads/thread.h` (absent). -/
inductive thread_status where
  | THREAD_RUNNING
  | THREAD_READY
  | THREAD_BLOCKED
  | THREAD_DYING
  deriving DecidableEq, Repr

/-- Modelled from the spec: `struct thread` of `threads/thread.h` (absent), with the
fields that the scheduler and the synchronisation code read and write.  The
intrusive list elements (`elem`, `donation_elem`, `all_elem`) are the thread's
membership in the lists of the kernel state. -/
structure thread where
  tid : Int
  status : thread_status
  priority : Int
  origin_priority : Int
  wait_on_lock : Option LockId
  donation_list : List Tid
  awake_tick : Int
  nice : Int
  recent_cpu : Int
  deriving DecidableEq, Repr

/-- Modelled from the spec: `struct semaphore` of `threads/synch.h` (absent): an
unsigned value and the list of waiting threads. -/
structure semaphore where
  value : Nat
  waiters : List Tid
  deriving DecidableEq, Repr

/-- Modelled from the spec: `struct lock` of `threads/synch.h` (absent): the holder
(`NULL` when free) and a binary semaphore. -/
structure lock where
  holder : Option Tid
  sema : semaphore
  deriving DecidableEq, Repr

/-- A `struct semaphore *`: either a semaphore of its own or the one inside a lock. -/
inductive SemaRef where
  | standalone (i : Nat)
  | ofLock (l : LockId)
  deriving DecidableEq, Repr

/-- The global state of `thread.c`, `synch.c` and `timer.c`. -/
structure Kernel where
  /-- memory: the thread record at every handle -/
  threads : Tid → thread
  /-- memory: the lock at every lock handle -/
  locks : LockId → lock
  /-- memory: the semaphores that are not part of a lock -/
  semas : Nat → semaphore
  ready_list : List Tid
  sleep_list : List Tid
  all_list : List Tid
  destruction_req : List Tid
  /-- the thread whose stack the CPU is on: `running_thread ()` -/
  current : Tid
  /-- `idle_thread`, `NULL` until the idle thread has started -/
  idle_thread : Option Tid
  initial_thread : Tid
  /-- `thread_ticks`: timer ticks since the last yield -/
  thread_ticks : Nat
  /-- `ticks` of `timer.c`: timer ticks since boot (`int64_t`) -/
  ticks : Int
  load_avg : Int
  thread_mlfqs : Bool
  /-- `intr_context ()`: the code runs inside an external interrupt handler -/
  intr_context : Bool
  /-- `next_tid` of `allocate_tid` -/
  next_tid : Int
  /-- `idle_ticks`: timer ticks spent idle -/
  idle_ticks : Int
  /-- `kernel_ticks`: timer ticks in kernel threads -/
  kernel_ticks : Int
  /-- set by `intr_yield_on_return ()`: the interrupt handler yields on return -/
  yield_on_return : Bool
  /-- memory: the waiter list of every condition variable, a list of
  `struct semaphore_elem`; an element is named by the index of its semaphore
  in `semas` -/
  conds : Nat → List Nat
  /-- What `list_entry (list_begin (&sema->waiters), struct thread, elem)->priority`
  names when the waiter list of semaphore `i` of `semas` is empty: `list_begin`
  is then the tail sentinel of that list, which is no thread, and the word at
  the offset of `priority` from it lies somewhere next to the semaphore. -/
  sema_tail_priority : Nat → Int
  /-- What `list_entry (list_begin (&ready_list), struct thread, elem)->priority`
  reads when the ready list is empty: `list_begin` is then the tail sentinel of
  the list, which is no thread, and the word found at the offset of `priority`
  is whatever lies next to `ready_list` in memory. -/
  ready_tail_priority : Int

/-- The lock that `allocate_tid` takes (`tid_lock`). -/
def tid_lock : LockId := 0

/-- A value stored in an `unsigned`. -/
def to_unsigned (n : Int) : Nat := (n % 2 ^ 32).toNat

/-- A value stored in an `int64_t` (two's complement). -/
def to_int64 (n : Int) : Int := (n + 2 ^ 63) % 2 ^ 64 - 2 ^ 63

/-- Writes to the fields of one thread record. -/
def Kernel.setThread (s : Kernel) (t : Tid) (f : thread → thread) : Kernel :=
  { s with threads := fun k => if k = t then f (s.threads t) else s.threads k }

/-- Writes to the fields of one lock. -/
def Kernel.setLock (s : Kernel) (l : LockId) (f : lock → lock) : Kernel :=
  { s with locks := fun k => if k = l then f (s.locks l) else s.locks k }

/-- Reads through a `struct semaphore *`. -/
def Kernel.getSema (s : Kernel) : SemaRef → semaphore
  | .standalone i => s.semas i
  | .ofLock l => (s.locks l).sema

/-- Writes through a `struct semaphore *`. -/
def Kernel.setSema (s : Kernel) (r : SemaRef) (f : semaphore → semaphore) : Kernel :=
  match r with
  | .standalone i => { s with semas := fun k => if k = i then f (s.semas i) else s.semas k }
  | .ofLock l => s.setLock l (fun lk => { lk with sema := f lk.sema })

/-! ## The list library -/

/-- Modelled from the spec: `list_insert_ordered` of `lib/kernel/list.c` (absent).
Walks the list from the front and puts `elem` just before the first element
`e` with `less elem e`, at the back when there is none; so a new arrival goes
after the entries it is not strictly less than. -/
def list_insert_ordered {α : Type} (less : α → α → Bool) (elem : α) : List α → List α
  | [] => [elem]
  | e :: rest =>
    if less elem e then elem :: e :: rest else e :: list_insert_ordered less elem rest

/-- Puts `a`, which stood in front of the sorted elements `l`, at its place: after
the elements strictly less than it and before all others. -/
def list_sort_place {α : Type} (less : α → α → Bool) (a : α) : List α → List α
  | [] => [a]
  | e :: rest => if less e a then e :: list_sort_place less a rest else a :: e :: rest

/-- Modelled from the spec: `list_sort` of `lib/kernel/list.c` (absent): sorts the
list by `less`; elements of which neither is less than the other keep their
order (the library's sort is a merge sort that moves an element in front of
another only when it is strictly less). -/
def list_sort {α : Type} (less : α → α → Bool) : List α → List α
  | [] => []
  | a :: l => list_sort_place less a (list_sort less l)

/-! ## thread.c -/

/-- `compare_thread_priority`: `a` goes before `b` when its priority is strictly
higher.  The priorities are read from the thread records at call time. -/
def compare_thread_priority (s : Kernel) (a b : Tid) : Bool :=
  decide ((s.threads a).priority > (s.threads b).priority)

/-- `thread_current`: the running thread; asserts that its status is
`THREAD_RUNNING`. -/
def thread_current (s : Kernel) : Option Tid :=
  if (s.threads s.current).status = .THREAD_RUNNING then some s.current else none

/-- `next_thread_to_run`: `idle_thread` when the ready list is empty, else the
front of the ready list, which is popped. -/
def next_thread_to_run (s : Kernel) : Option Tid × Kernel :=
  match s.ready_list with
  | [] => (s.idle_thread, s)
  | t :: rest => (some t, { s with ready_list := rest })

/-- The second half of `schedule`, once `next` is chosen: `next` is marked
running, a new time slice starts and, when `next` is another thread than the
current one, the CPU switches to it; a dying thread that is switched away from
(other than the initial thread) is queued for destruction. -/
def schedule_switch (s : Kernel) (next : Tid) : Kernel :=
  let curr := s.current
  let s2 := s.setThread next (fun t => { t with status := .THREAD_RUNNING })
  let s3 := { s2 with thread_ticks := 0 }
  if curr ≠ next then
    let s4 :=
      if (s3.threads curr).status = .THREAD_DYING ∧ curr ≠ s3.initial_thread then
        { s3 with destruction_req := s3.destruction_req ++ [curr] }
      else s3
    { s4 with current := next }
  else s3

/-- `schedule`: picks the next thread, asserts that the current thread is not
marked running any more and that the next thread exists (`idle_thread` may be
`NULL`), and switches. -/
def schedule (s : Kernel) : Option Kernel :=
  match next_thread_to_run s with
  | (none, _) => none
  | (some next, s1) =>
    if (s1.threads s1.current).status = .THREAD_RUNNING then none
    else some (schedule_switch s1 next)

/-- `do_schedule`: frees the pages queued for destruction, gives the current
thread its new status and schedules. -/
def do_schedule (s : Kernel) (status : thread_status) : Option Kernel :=
  match thread_current s with
  | none => none
  | some cur =>
    let s1 := { s with destruction_req := [] }
    schedule (s1.setThread cur (fun t => { t with status := status }))

/-- `thread_block`: marks the current thread blocked and schedules. -/
def thread_block (s : Kernel) : Option Kernel :=
  if s.intr_context then none
  else
    match thread_current s with
    | none => none
    | some cur => schedule (s.setThread cur (fun t => { t with status := .THREAD_BLOCKED }))

/-- `thread_unblock`: asserts that `t` is blocked, inserts it into the ready list
ordered by priority and marks it ready. -/
def thread_unblock (s : Kernel) (t : Tid) : Option Kernel :=
  if (s.threads t).status ≠ .THREAD_BLOCKED then none
  else
    let s1 := { s with
      ready_list := list_insert_ordered (compare_thread_priority s) t s.ready_list }
    some (s1.setThread t (fun th => { th with status := .THREAD_READY }))

/-- `thread_yield`: puts the current thread (unless it is the idle thread) back
into the ready list, ordered by priority, and schedules. -/
def thread_yield (s : Kernel) : Option Kernel :=
  match thread_current s with
  | none => none
  | some curr =>
    if s.intr_context then none
    else
      let s1 :=
        if some curr ≠ s.idle_thread then
          { s with
            ready_list := list_insert_ordered (compare_thread_priority s) curr s.ready_list }
        else s
      do_schedule s1 .THREAD_READY

/-- The loop of `thread_set_priority` over the donation list: raises the current
thread's priority to that of every donor that has more. -/
def set_priority_loop (cur : Tid) : List Tid → Kernel → Kernel
  | [], s => s
  | e :: rest, s =>
    let s1 :=
      if (s.threads e).priority > (s.threads cur).priority then
        s.setThread cur (fun t => { t with priority := (s.threads e).priority })
      else s
    set_priority_loop cur rest s1

/-- The priority that `thread_set_priority` compares with: that of the entry at
`list_begin (&ready_list)`, read without a test for an empty list. -/
def ready_front_priority (s : Kernel) : Int :=
  match s.ready_list with
  | [] => s.ready_tail_priority
  | t :: _ => (s.threads t).priority

/-- `thread_set_priority`. -/
def thread_set_priority (s : Kernel) (new_priority : Int) : Option Kernel :=
  if s.thread_mlfqs then some s
  else
    match thread_current s with
    | none => none
    | some cur =>
      let donors := (s.threads cur).donation_list
      let s1 := s.setThread cur (fun t => { t with origin_priority := new_priority })
      let s2 := s1.setThread cur (fun t => { t with priority := new_priority })
      let s3 := set_priority_loop cur donors s2
      if (s3.threads cur).priority < ready_front_priority s3 then
        let s4 :=
          if some cur ≠ s3.idle_thread then
            { s3 with
              ready_list := list_insert_ordered (compare_thread_priority s3) cur s3.ready_list }
          else s3
        do_schedule s4 .THREAD_READY
      else some s3

/-- `thread_get_priority`. -/
def thread_get_priority (s : Kernel) : Option Int :=
  match thread_current s with
  | none => none
  | some cur => some (s.threads cur).priority

/-- `init_thread`: asserts that the priority is in range and fills the zeroed
record of a blocked thread. -/
def init_thread (s : Kernel) (t : Tid) (priority : Int) : Option Kernel :=
  if PRI_MIN ≤ priority ∧ priority ≤ PRI_MAX then
    some (s.setThread t (fun _ =>
      { tid := 0
        status := .THREAD_BLOCKED
        priority := priority
        origin_priority := priority
        wait_on_lock := none
        donation_list := []
        awake_tick := 0
        nice := 0
        recent_cpu := 0 }))
  else none

/-- `thread_sleep`: the current thread (unless it is the idle thread) is marked
blocked, gets its wake-up tick and goes to the back of the sleep list; then
`schedule`. -/
def thread_sleep (s : Kernel) (sleep_tick : Int) : Option Kernel :=
  match thread_current s with
  | none => none
  | some cur_thread =>
    let s1 :=
      if some cur_thread ≠ s.idle_thread then
        let s0 := s.setThread cur_thread (fun t => { t with status := .THREAD_BLOCKED })
        let s0 := s0.setThread cur_thread (fun t => { t with awake_tick := sleep_tick })
        { s0 with sleep_list := s0.sleep_list ++ [cur_thread] }
      else s
    schedule s1

/-! ## synch.c -/

/-- What became of a call that may put its caller to sleep. -/
inductive Suspend where
  /-- the call returned; the caller may have lost and regained the CPU on the way -/
  | returned (s : Kernel)
  /-- the caller sits in `thread_block` inside the loop of `sema_down`; when it
  runs again it tests the loop condition again -/
  | blocked (s : Kernel)

/-- `sema_down`, one turn of its loop: with value 0 the current thread enters the
waiter list, ordered by priority, and blocks; otherwise the value is
decremented and the call returns. -/
def sema_down (s : Kernel) (r : SemaRef) : Option Suspend :=
  if s.intr_context then none
  else if (s.getSema r).value = 0 then
    match thread_current s with
    | none => none
    | some cur =>
      let s1 := s.setSema r (fun sm =>
        { sm with waiters := list_insert_ordered (compare_thread_priority s) cur sm.waiters })
      match thread_block s1 with
      | none => none
      | some s2 => some (.blocked s2)
  else some (.returned (s.setSema r (fun sm => { sm with value := sm.value - 1 })))

/-- `sema_try_down`. -/
def sema_try_down (s : Kernel) (r : SemaRef) : Kernel × Bool :=
  if (s.getSema r).value > 0 then
    (s.setSema r (fun sm => { sm with value := sm.value - 1 }), true)
  else (s, false)

/-- `sema_up`: increments the value; with waiters, sorts them by priority, pops
the front one, unblocks it and yields when it has more priority than the
current thread. -/
def sema_up (s : Kernel) (r : SemaRef) : Option Kernel :=
  let s1 := s.setSema r (fun sm => { sm with value := to_unsigned (sm.value + 1) })
  if (s1.getSema r).waiters = [] then some s1
  else
    match list_sort (compare_thread_priority s1) (s1.getSema r).waiters with
    | [] => none
    | temp_thread :: rest =>
      let s2 := s1.setSema r (fun sm => { sm with waiters := rest })
      match thread_unblock s2 temp_thread with
      | none => none
      | some s3 =>
        match thread_current s3 with
        | none => none
        | some cur =>
          if (s3.threads temp_thread).priority > (s3.threads cur).priority then thread_yield s3
          else some s3

/-- `cmp_lock_priority`: order of the donation list, by the donors' priorities. -/
def cmp_lock_priority (s : Kernel) (cur cmp : Tid) : Bool :=
  if (s.threads cur).priority > (s.threads cmp).priority then true else false

/-- How the walk of `donate_priority` ended. -/
inductive Walk where
  /-- the loop ended at a thread that waits for no lock -/
  | done (s : Kernel)
  /-- kernel panic: an `ASSERT` failed, or `cur->wait_on_lock->holder` was `NULL`
  and was dereferenced -/
  | panic
  /-- the loop was still running when the fuel was used up -/
  | out_of_fuel

/-- The loop of `donate_priority`: while `cur` waits for a lock, the holder of
that lock gets `cur`'s priority if it has less, and becomes `cur`.  The source
loop has no bound; `fuel` bounds the turns of the model. -/
def donate_priority_loop : Nat → Kernel → Tid → Walk
  | 0, _, _ => .out_of_fuel
  | fuel + 1, s, cur =>
    match (s.threads cur).wait_on_lock with
    | none => .done s
    | some l =>
      match (s.locks l).holder with
      | none => .panic
      | some holder =>
        let s1 :=
          if (s.threads cur).priority > (s.threads holder).priority then
            s.setThread holder (fun t => { t with priority := (s.threads cur).priority })
          else s
        donate_priority_loop fuel s1 holder

/-- `donate_priority`: the walk, started at the current thread. -/
def donate_priority (fuel : Nat) (s : Kernel) : Walk :=
  match thread_current s with
  | none => .panic
  | some cur => donate_priority_loop fuel s cur

/-- `lock_held_by_current_thread`. -/
def lock_held_by_current_thread (s : Kernel) (l : LockId) : Option Bool :=
  match thread_current s with
  | none => none
  | some cur => some (decide ((s.locks l).holder = some cur))

/-- The first two steps of donation in `lock_acquire`: the current thread records
the lock it waits for and enters the holder's donation list, ordered by
priority. -/
def lock_acquire_enlist (s : Kernel) (l : LockId) (holder : Tid) : Kernel :=
  let cur := s.current
  let s1 := s.setThread cur (fun t => { t with wait_on_lock := some l })
  s1.setThread holder (fun t =>
    { t with donation_list := list_insert_ordered (cmp_lock_priority s1) cur t.donation_list })

/-- `lock_acquire` up to the call of `sema_down`: the assertions, and for a held
lock the three steps of donation: the current thread records the lock it waits
for, enters the holder's donation list and walks the chain of holders. -/
def lock_acquire_donate (fuel : Nat) (s : Kernel) (l : LockId) : Walk :=
  if s.intr_context then .panic
  else
    match lock_held_by_current_thread s l with
    | none => .panic
    | some true => .panic
    | some false =>
      match (s.locks l).holder with
      | none => .done s
      | some holder => donate_priority fuel (lock_acquire_enlist s l holder)

/-- `lock_acquire` from the call of `sema_down` on: when the semaphore is taken
the current thread becomes the holder.  A thread that was blocked in
`sema_down` continues here when it runs again. -/
def lock_acquire_down (s : Kernel) (l : LockId) : Option Suspend :=
  let cur := s.current
  match sema_down s (.ofLock l) with
  | none => none
  | some (.blocked s1) => some (.blocked s1)
  | some (.returned s1) => some (.returned (s1.setLock l (fun lk => { lk with holder := some cur })))

/-- `lock_acquire`. -/
def lock_acquire (fuel : Nat) (s : Kernel) (l : LockId) : Option Suspend :=
  match lock_acquire_donate fuel s l with
  | .done s1 => lock_acquire_down s1 l
  | .panic => none
  | .out_of_fuel => none

/-- `lock_try_acquire`. -/
def lock_try_acquire (s : Kernel) (l : LockId) : Option (Kernel × Bool) :=
  match lock_held_by_current_thread s l with
  | none => none
  | some true => none
  | some false =>
    match sema_try_down s (.ofLock l) with
    | (s1, true) => some (s1.setLock l (fun lk => { lk with holder := some s.current }), true)
    | (s1, false) => some (s1, false)

/-- The loop of `lock_release` over the holder's donation list.  A donor that
waits for `l` is taken out of the list and its `wait_on_lock` is cleared; any
other donor stays and raises `max_priority` to its priority if that is more.
Gives the donors that stay, the state and `max_priority`. -/
def lock_release_loop (l : LockId) : List Tid → Kernel → Int → List Tid × Kernel × Int
  | [], s, max_priority => ([], s, max_priority)
  | e :: rest, s, max_priority =>
    if (s.threads e).wait_on_lock = some l then
      lock_release_loop l rest (s.setThread e (fun t => { t with wait_on_lock := none }))
        max_priority
    else
      let m1 := if (s.threads e).priority > max_priority then (s.threads e).priority
                else max_priority
      match lock_release_loop l rest s m1 with
      | (kept, s1, m2) => (e :: kept, s1, m2)

/-- `lock_release` up to the call of `sema_up`: the assertion, the walk over the
donation list, the holder's new priority, and the lock is free. -/
def lock_release_undonate (s : Kernel) (l : LockId) : Option Kernel :=
  match lock_held_by_current_thread s l with
  | none => none
  | some false => none
  | some true =>
    let holder := s.current
    match lock_release_loop l (s.threads holder).donation_list s
        (s.threads holder).origin_priority with
    | (kept, s1, max_priority) =>
      let s2 := s1.setThread holder (fun t => { t with donation_list := kept })
      let s3 := s2.setThread holder (fun t => { t with priority := max_priority })
      some (s3.setLock l (fun lk => { lk with holder := none }))

/-- `lock_release`. -/
def lock_release (s : Kernel) (l : LockId) : Option Kernel :=
  match lock_release_undonate s l with
  | none => none
  | some s1 => sema_up s1 (.ofLock l)

/-! ## thread_create -/

/-- `thread_create`.  `page` is what `palloc_get_page` returned: the handle of a
zeroed page, or `none`.  The new thread's id is left in its `tid` field.  When
the creator loses the CPU inside `allocate_tid` (it blocks on `tid_lock`, or
yields to a waiter of `tid_lock` on releasing it), the run ends there. -/
def thread_create (fuel : Nat) (s : Kernel) (page : Option Tid) (priority : Int) :
    Option Kernel :=
  match thread_current s with
  | none => none
  | some cur_thread =>
    match page with
    | none => some s
    | some t =>
      match init_thread s t priority with
      | none => none
      | some s1 =>
        match lock_acquire fuel s1 tid_lock with
        | none => none
        | some (.blocked s2) => some s2
        | some (.returned s2) =>
          let tid := s2.next_tid
          let s3 := { s2 with next_tid := s2.next_tid + 1 }
          match lock_release s3 tid_lock with
          | none => none
          | some s4 =>
            if s4.current ≠ cur_thread then some s4
            else
              let s5 := s4.setThread t (fun th => { th with tid := tid })
              let s6 := { s5 with all_list := s5.all_list ++ [t] }
              match thread_unblock s6 t with
              | none => none
              | some s7 =>
                match s7.ready_list with
                | [] => some s7
                | begin_thread :: _ =>
                  if (s7.threads cur_thread).priority ≤ (s7.threads begin_thread).priority then
                    thread_yield s7
                  else some s7

/-! ## timer.c -/

/-- `timer_ticks`. -/
def timer_ticks (s : Kernel) : Int := s.ticks

/-- `timer_elapsed`. -/
def timer_elapsed (s : Kernel) (start : Int) : Int := to_int64 (timer_ticks s - start)

/-- `timer_sleep`.  The test compares the elapsed ticks with `ticks`, which in
this function is the global tick counter (the argument is `ticks_much`). -/
def timer_sleep (s : Kernel) (ticks_much : Int) : Option Kernel :=
  let ticks_now := timer_ticks s
  if timer_elapsed s ticks_now < s.ticks then thread_sleep s (to_int64 (ticks_now + ticks_much))
  else some s

/-! ## Lock-wait chains -/

/-- The chain of holders that the walk of `donate_priority` follows from `t`:
`t`, the holder of the lock `t` waits for, the holder of the lock that one
waits for, and so on up to a thread that waits for no lock.  `none` when the
chain does not end within `fuel` threads (as on a cycle) or meets a lock
without holder. -/
def wait_chain : Nat → Kernel → Tid → Option (List Tid)
  | 0, _, _ => none
  | fuel + 1, s, t =>
    match (s.threads t).wait_on_lock with
    | none => some [t]
    | some l =>
      match (s.locks l).holder with
      | none => none
      | some holder =>
        match wait_chain fuel s holder with
        | none => none
        | some path => some (t :: path)

/-! ## Example states -/

/-- A thread record as `init_thread` leaves it for priority 0. -/
def blank_thread : thread :=
  { tid := 0, status := .THREAD_BLOCKED, priority := 0, origin_priority := 0,
    wait_on_lock := none, donation_list := [], awake_tick := 0, nice := 0, recent_cpu := 0 }

/-- The state once `thread_start` has returned and the idle thread has blocked:
`main` (handle 1) runs at `PRI_DEFAULT`, the idle thread (handle 2) is parked,
every lock is free, every semaphore has value 0, the tick counter is at 100. -/
def booted : Kernel :=
  { threads := fun k =>
      if k = 1 then
        { blank_thread with tid := 1, status := .THREAD_RUNNING, priority := 31,
                            origin_priority := 31 }
      else if k = 2 then { blank_thread with tid := 2 }
      else blank_thread
    locks := fun _ => { holder := none, sema := { value := 1, waiters := [] } }
    semas := fun _ => { value := 0, waiters := [] }
    ready_list := []
    sleep_list := []
    all_list := [1]
    destruction_req := []
    current := 1
    idle_thread := some 2
    initial_thread := 1
    thread_ticks := 0
    ticks := 100
    load_avg := 0
    thread_mlfqs := false
    intr_context := false
    next_tid := 3
    idle_ticks := 0
    kernel_ticks := 0
    yield_on_return := false
    conds := fun _ => []
    sema_tail_priority := fun _ => 0
    ready_tail_priority := 0 }

/-- The donation scenario of the specification just before High asks for L2:
Low (handle 3, base priority 10) holds L1 (lock 1); Med (handle 4, priority 20)
holds L2 (lock 2) and is blocked on L1, having donated 20 to Low; High
(handle 5, priority 40) is running. -/
def chain_state : Kernel :=
  { booted with
    threads := fun k =>
      if k = 3 then
        { blank_thread with tid := 3, status := .THREAD_READY, priority := 20,
                            origin_priority := 10, donation_list := [4] }
      else if k = 4 then
        { blank_thread with tid := 4, priority := 20, origin_priority := 20,
                            wait_on_lock := some 1 }
      else if k = 5 then
        { blank_thread with tid := 5, status := .THREAD_RUNNING, priority := 40,
                            origin_priority := 40 }
      else if k = 1 then { blank_thread with tid := 1, priority := 31, origin_priority := 31 }
      else if k = 2 then { blank_thread with tid := 2 }
      else blank_thread
    locks := fun k =>
      if k = 1 then { holder := some 3, sema := { value := 0, waiters := [4] } }
      else if k = 2 then { holder := some 4, sema := { value := 0, waiters := [] } }
      else { holder := none, sema := { value := 1, waiters := [] } }
    ready_list := [3]
    all_list := [1, 3, 4, 5]
    current := 5
    next_tid := 6 }

/-! ## Frames -/

/-- What the scheduler leaves alone: `s2` has the thread records of `s` up to
their `status`, and every lock has the holder it has in `s`. -/
def SchedFrame (s s2 : Kernel) : Prop :=
  (∀ u, { s2.threads u with status := (s.threads u).status } = s.threads u) ∧
  (∀ l, (s2.locks l).holder = (s.locks l).holder)

/-- The highest of `base` and the priorities that the threads in `ds` have in
state `s`. -/
def max_priority_of (s : Kernel) (base : Int) (ds : List Tid) : Int :=
  ds.foldl (fun acc d => max acc (s.threads d).priority) base

/-- A state in which Low (handle 3, base priority 10) holds lock 1 and lock 2 and
is running; Med (handle 4, priority 20) is blocked on lock 1 and High
(handle 5, priority 40) on lock 2, both being donors of Low. -/
def release_state : Kernel :=
  { booted with
    threads := fun k =>
      if k = 3 then
        { blank_thread with tid := 3, status := .THREAD_RUNNING, priority := 40,
                            origin_priority := 10, donation_list := [5, 4] }
      else if k = 4 then
        { blank_thread with tid := 4, priority := 20, origin_priority := 20,
                            wait_on_lock := some 1 }
      else if k = 5 then
        { blank_thread with tid := 5, priority := 40, origin_priority := 40,
                            wait_on_lock := some 2 }
      else if k = 1 then { blank_thread with tid := 1, priority := 31, origin_priority := 31 }
      else if k = 2 then { blank_thread with tid := 2 }
      else blank_thread
    locks := fun k =>
      if k = 1 then { holder := some 3, sema := { value := 0, waiters := [4] } }
      else if k = 2 then { holder := some 3, sema := { value := 0, waiters := [5] } }
      else { holder := none, sema := { value := 1, waiters := [] } }
    ready_list := []
    all_list := [1, 3, 4, 5]
    current := 3
    next_tid := 6 }

/-! ## Observing who is woken -/

/-- The threads that left the waiter list of `r` between two states. -/
def woken (before after : Kernel) (r : SemaRef) : List Tid :=
  (before.getSema r).waiters.filter (fun t => decide (t ∉ (after.getSema r).waiters))

/-- The threads woken by `n` calls of `sema_up` in a row, each made by the thread
that is running at that point, in the order in which they are woken. -/
def sema_up_wake_order : Nat → Kernel → SemaRef → Option (List Tid)
  | 0, _, _ => some []
  | n + 1, s, r =>
    match sema_up s r with
    | none => none
    | some s2 =>
      match sema_up_wake_order n s2 r with
      | none => none
      | some ws => some (woken s s2 r ++ ws)

/-- Five threads of priorities 10, 20, 30, 40 and 50 (handles 3 to 7) are blocked
in semaphore 0, whose waiter list is the one that `sema_down` builds when they
arrive in that order; `main` (handle 1, priority 31) is running. -/
def fairness_state : Kernel :=
  let s : Kernel :=
    { booted with
      threads := fun k =>
        if k = 1 then
          { blank_thread with tid := 1, status := .THREAD_RUNNING, priority := 31,
                              origin_priority := 31 }
        else if k = 2 then { blank_thread with tid := 2 }
        else if 3 ≤ k ∧ k ≤ 7 then
          { blank_thread with tid := k, priority := 10 * (k - 2), origin_priority := 10 * (k - 2) }
        else blank_thread
      all_list := [1, 3, 4, 5, 6, 7]
      next_tid := 8 }
  s.setSema (.standalone 0) (fun sm =>
    { sm with waiters :=
        [3, 4, 5, 6, 7].foldl (fun ws t => list_insert_ordered (compare_thread_priority s) t ws) [] })

/-- A (handle 3, priority 10) is running; B (handle 4, priority 20), C (handle 5,
priority 20) and M (handle 6, priority 15) are ready; semaphore 0 has value 0
and lock 1 is free. -/
def tie_state : Kernel :=
  { booted with
    threads := fun k =>
      if k = 3 then
        { blank_thread with tid := 3, status := .THREAD_RUNNING, priority := 10,
                            origin_priority := 10 }
      else if k = 4 then
        { blank_thread with tid := 4, status := .THREAD_READY, priority := 20,
                            origin_priority := 20 }
      else if k = 5 then
        { blank_thread with tid := 5, status := .THREAD_READY, priority := 20,
                            origin_priority := 20 }
      else if k = 6 then
        { blank_thread with tid := 6, status := .THREAD_READY, priority := 15,
                            origin_priority := 15 }
      else if k = 1 then { blank_thread with tid := 1, priority := 31, origin_priority := 31 }
      else if k = 2 then { blank_thread with tid := 2 }
      else blank_thread
    ready_list := [4, 5, 6]
    all_list := [1, 3, 4, 5, 6]
    current := 3
    next_tid := 7 }

/-- The state in which a call ended, returned or blocked. -/
def Suspend.state : Suspend → Kernel
  | .returned s => s
  | .blocked s => s

/-- From `tie_state`: A takes lock 1 and goes down on semaphore 0 (it blocks); B
goes down on semaphore 0 (it blocks); C asks for lock 1, donates its priority
20 to A and blocks.  Gives the states after A's `sema_down`, after B's
`sema_down` and after C's `lock_acquire`, when M is running. -/
def tie_trace : Option (Kernel × Kernel × Kernel) :=
  match lock_acquire 8 tie_state 1 with
  | none => none
  | some a1 =>
    match sema_down a1.state (.standalone 0) with
    | none => none
    | some a2 =>
      match sema_down a2.state (.standalone 0) with
      | none => none
      | some b1 =>
        match lock_acquire 8 b1.state 1 with
        | none => none
        | some c1 => some (a2.state, b1.state, c1.state)

/-- The ready list holds threads of priorities 30, 20, 20 and 10 (handles 3 to 6);
a thread of priority 20 (handle 7) is blocked; `main` (handle 1) is running. -/
def unblock_state : Kernel :=
  { booted with
    threads := fun k =>
      if k = 1 then
        { blank_thread with tid := 1, status := .THREAD_RUNNING, priority := 31,
                            origin_priority := 31 }
      else if k = 2 then { blank_thread with tid := 2 }
      else if k = 3 then
        { blank_thread with tid := 3, status := .THREAD_READY, priority := 30,
                            origin_priority := 30 }
      else if k = 4 ∨ k = 5 then
        { blank_thread with tid := k, status := .THREAD_READY, priority := 20,
                            origin_priority := 20 }
      else if k = 6 then
        { blank_thread with tid := 6, status := .THREAD_READY, priority := 10,
                            origin_priority := 10 }
      else if k = 7 then { blank_thread with tid := 7, priority := 20, origin_priority := 20 }
      else blank_thread
    ready_list := [3, 4, 5, 6]
    all_list := [1, 3, 4, 5, 6, 7]
    next_tid := 8 }

/-- `release_state` with the MLFQ scheduler switched on. -/
def mlfqs_state : Kernel := { release_state with thread_mlfqs := true }

/-- From `booted`: `main` (priority 31) creates Low (handle 3, priority 10) and goes
down on semaphore 0 (it blocks); Low takes lock 5 and ups semaphore 0, which
hands the CPU back to `main`; `main` returns from `sema_down`, creates Med
(handle 4, priority 20) and asks for lock 5: it donates 31 to Low, which sits
in the ready list behind Med, and blocks.  Gives the state just before and the
state just after `main`'s `lock_acquire`. -/
def inversion_trace : Option (Kernel × Kernel) :=
  match thread_create 8 booted (some 3) 10 with
  | none => none
  | some s1 =>
    match sema_down s1 (.standalone 0) with
    | none => none
    | some s2 =>
      match lock_acquire 8 s2.state 5 with
      | none => none
      | some s3 =>
        match sema_up s3.state (.standalone 0) with
        | none => none
        | some s4 =>
          match sema_down s4 (.standalone 0) with
          | none => none
          | some s5 =>
            match thread_create 8 s5.state (some 4) 20 with
            | none => none
            | some s6 =>
              match lock_acquire 8 s6 5 with
              | none => none
              | some s7 => some (s6, s7.state)

/-- `booted` with a thread of priority 31 (handle 3) in the ready list. -/
def peer_state : Kernel :=
  { booted with
    threads := fun k =>
      if k = 3 then
        { blank_thread with tid := 3, status := .THREAD_READY, priority := 31,
                            origin_priority := 31 }
      else booted.threads k
    ready_list := [3]
    all_list := [1, 3]
    next_tid := 4 }

/-- `booted`, three ticks into the time slice of `main`, with the word that lies
at the offset of `priority` from the ready list's tail sentinel holding 50. -/
def stray_state : Kernel := { booted with thread_ticks := 3, ready_tail_priority := 50 }

/-- `booted`, three ticks into the time slice of `main`; the word read through the
tail sentinel of the ready list holds 0. -/
def calm_state : Kernel := { booted with thread_ticks := 3, ready_tail_priority := 0 }

/-- `booted` before the first timer tick. -/
def tick_zero_state : Kernel := { booted with ticks := 0 }

/-! ## Timer tick and sleep queue -/

/-- `thread_tick`: updates the tick statistics (the user-program branch is left
out: every thread here is a kernel thread) and asks for a yield on return from
the interrupt once the time slice is used up. -/
def thread_tick (s : Kernel) : Option Kernel :=
  match thread_current s with
  | none => none
  | some t =>
    let s1 :=
      if some t = s.idle_thread then { s with idle_ticks := to_int64 (s.idle_ticks + 1) }
      else { s with kernel_ticks := to_int64 (s.kernel_ticks + 1) }
    let s2 := { s1 with thread_ticks := to_unsigned (s1.thread_ticks + 1) }
    if s2.thread_ticks ≥ TIME_SLICE then some { s2 with yield_on_return := true } else some s2

/-- The loop of `thread_awake` over the sleep list: an entry whose wake-up tick is
at most `cur_tick` is taken out of the list and unblocked, any other entry
stays.  Gives the entries that stay and the state. -/
def thread_awake_loop (cur_tick : Int) : List Tid → Kernel → Option (List Tid × Kernel)
  | [], s => some ([], s)
  | e :: rest, s =>
    if (s.threads e).awake_tick ≤ cur_tick then
      match thread_unblock s e with
      | none => none
      | some s1 => thread_awake_loop cur_tick rest s1
    else
      match thread_awake_loop cur_tick rest s with
      | none => none
      | some (kept, s1) => some (e :: kept, s1)

/-- `thread_awake`. -/
def thread_awake (s : Kernel) (cur_tick : Int) : Option Kernel :=
  if s.sleep_list = [] then some s
  else
    match thread_awake_loop cur_tick s.sleep_list s with
    | none => none
    | some (kept, s1) => some { s1 with sleep_list := kept }

/-- `timer_interrupt`: counts the tick, calls `thread_tick` and then `thread_wake`
with the new tick count.  No function of that name is defined in the sources
at hand (`thread.c` defines `thread_awake`), so the callee is a parameter. -/
def timer_interrupt (thread_wake : Kernel → Int → Option Kernel) (s : Kernel) :
    Option Kernel :=
  let s1 := { s with ticks := to_int64 (s.ticks + 1) }
  match thread_tick s1 with
  | none => none
  | some s2 => thread_wake s2 s2.ticks

/-- The ticks at which threads leave the sleep list during `n` timer interrupts
whose wake-up call is `thread_awake`: for each interrupt that wakes somebody,
the tick count and the threads woken. -/
def wake_log : Nat → Kernel → Option (List (Int × List Tid))
  | 0, _ => some []
  | n + 1, s =>
    match timer_interrupt thread_awake s with
    | none => none
    | some s2 =>
      match wake_log n s2 with
      | none => none
      | some log =>
        let gone := s.sleep_list.filter (fun t => decide (t ∉ s2.sleep_list))
        some (if gone = [] then log else (s2.ticks, gone) :: log)

/-! ## Fixed-point arithmetic -/

/-- A value stored in an `int` (32 bits, two's complement). -/
def to_int32 (n : Int) : Int := (n + 2 ^ 31) % 2 ^ 32 - 2 ^ 31

/-- `FRACTIONAL`: `1 << 14`. -/
def FRACTIONAL : Int := 2 ^ 14

/-- `int_to_fp`. -/
def int_to_fp (num : Int) : Int := to_int32 (num * FRACTIONAL)

/-- `fp_to_int`: division of `int`s truncates toward zero. -/
def fp_to_int (fp : Int) : Int := to_int32 (Int.tdiv fp FRACTIONAL)

/-- `fp_to_int_round`. -/
def fp_to_int_round (fp : Int) : Int :=
  if fp > 0 then to_int32 (Int.tdiv (to_int32 (fp + Int.tdiv FRACTIONAL 2)) FRACTIONAL)
  else to_int32 (Int.tdiv (to_int32 (fp - Int.tdiv FRACTIONAL 2)) FRACTIONAL)

/-- `add_fp`. -/
def add_fp (fp1 fp2 : Int) : Int := to_int32 (fp1 + fp2)

/-- `add_mixed`. -/
def add_mixed (fp num : Int) : Int := to_int32 (fp + to_int32 (num * FRACTIONAL))

/-- `sub_fp`. -/
def sub_fp (fp1 fp2 : Int) : Int := to_int32 (fp1 - fp2)

/-- `sub_mixed`. -/
def sub_mixed (fp num : Int) : Int := to_int32 (fp - to_int32 (num * FRACTIONAL))

/-- `mult_fp`: the product is taken in 64 bits, the quotient returned as an `int`. -/
def mult_fp (fp1 fp2 : Int) : Int := to_int32 (Int.tdiv (to_int64 (fp1 * fp2)) FRACTIONAL)

/-- `mult_mixed`. -/
def mult_mixed (fp num : Int) : Int := to_int32 (fp * num)

/-- `div_fp`: the dividend is scaled in 64 bits, the quotient returned as an `int`. -/
def div_fp (fp1 fp2 : Int) : Int := to_int32 (Int.tdiv (to_int64 (fp1 * FRACTIONAL)) fp2)

/-- `div_mixed`. -/
def div_mixed (fp num : Int) : Int := to_int32 (Int.tdiv fp num)

/-- `priority_cal`. -/
def priority_cal (recent nice : Int) : Int :=
  let fp_recent_cpu := div_mixed recent 4
  let fp_pri_max := int_to_fp PRI_MAX
  let sub_recent_from_max := sub_fp fp_pri_max fp_recent_cpu
  fp_to_int_round (sub_mixed sub_recent_from_max (to_int32 (nice * 2)))

/-- `recalculate_priority`: every thread of `all_list` gets the priority computed
from its `recent_cpu` and `nice`. -/
def recalculate_priority (s : Kernel) : Kernel :=
  s.all_list.foldl
    (fun k t => k.setThread t (fun th => { th with priority := priority_cal th.recent_cpu th.nice }))
    s

/-! ## Initialisation of semaphores and locks -/

/-- `sema_init`. -/
def sema_init (s : Kernel) (r : SemaRef) (value : Nat) : Kernel :=
  s.setSema r (fun _ => { value := value, waiters := [] })

/-- `lock_init`. -/
def lock_init (s : Kernel) (l : LockId) : Kernel :=
  sema_init (s.setLock l (fun lk => { lk with holder := none })) (.ofLock l) 1

/-! ## Condition variables -/

/-- The priority read as
`list_entry (list_begin (&sema->waiters), struct thread, elem)->priority` for
semaphore `i` of `semas`: that of the first waiter, and with an empty waiter
list the word found through the list's tail sentinel. -/
def sema_front_priority (s : Kernel) (i : Nat) : Int :=
  match (s.semas i).waiters with
  | [] => s.sema_tail_priority i
  | t :: _ => (s.threads t).priority

/-- The store `list_entry (list_begin (&sema->waiters), struct thread, elem)->priority = p`
for semaphore `i` of `semas`: into the first waiter's record, and with an
empty waiter list into the word found through the list's tail sentinel. -/
def set_sema_front_priority (s : Kernel) (i : Nat) (p : Int) : Kernel :=
  match (s.semas i).waiters with
  | [] => { s with sema_tail_priority := fun k => if k = i then p else s.sema_tail_priority k }
  | t :: _ => s.setThread t (fun th => { th with priority := p })

/-- `compare_sema_priority`. -/
def compare_sema_priority (s : Kernel) (a b : Nat) : Bool :=
  decide (sema_front_priority s a > sema_front_priority s b)

/-- Writes the waiter list of one condition variable. -/
def Kernel.setCond (s : Kernel) (c : Nat) (ws : List Nat) : Kernel :=
  { s with conds := fun k => if k = c then ws else s.conds k }

/-- `cond_init`. -/
def cond_init (s : Kernel) (c : Nat) : Kernel := s.setCond c []

/-- `cond_wait` up to the point where the caller loses the CPU: in `lock_release`
when that yields, else in `sema_down` on its own semaphore.  `waiter` names
the `struct semaphore_elem` on the caller's stack; `lock->holder` is the caller,
by the assertion.  Once woken the caller goes on with `sema_down` and then
`lock_acquire`. -/
def cond_wait (s : Kernel) (c : Nat) (l : LockId) (waiter : Nat) : Option Kernel :=
  if s.intr_context then none
  else
    match lock_held_by_current_thread s l with
    | none => none
    | some false => none
    | some true =>
      let cur := s.current
      let s1 := sema_init s (.standalone waiter) 0
      let s2 := set_sema_front_priority s1 waiter (s1.threads cur).priority
      let s3 := s2.setCond c (list_insert_ordered (compare_sema_priority s2) waiter (s2.conds c))
      match lock_release s3 l with
      | none => none
      | some s4 =>
        if s4.current ≠ cur then some s4
        else
          match sema_down s4 (.standalone waiter) with
          | none => none
          | some r => some r.state

/-- `cond_signal`. -/
def cond_signal (s : Kernel) (c : Nat) (l : LockId) : Option Kernel :=
  if s.intr_context then none
  else
    match lock_held_by_current_thread s l with
    | none => none
    | some false => none
    | some true =>
      if s.conds c = [] then some s
      else
        match list_sort (compare_sema_priority s) (s.conds c) with
        | [] => none
        | w :: rest =>
          sema_up (s.setCond c rest) (.standalone w)

/-- Three threads of priority 31 (handles 3, 4, 5) at tick 100: handle 3 is running,
the other two are ready. -/
def sleepers_state : Kernel :=
  { booted with
    threads := fun k =>
      if k = 3 then
        { blank_thread with tid := 3, status := .THREAD_RUNNING, priority := 31,
                            origin_priority := 31 }
      else if k = 4 ∨ k = 5 then
        { blank_thread with tid := k, status := .THREAD_READY, priority := 31,
                            origin_priority := 31 }
      else if k = 1 then { blank_thread with tid := 1, priority := 31, origin_priority := 31 }
      else if k = 2 then { blank_thread with tid := 2 }
      else blank_thread
    ready_list := [4, 5]
    all_list := [1, 3, 4, 5]
    current := 3
    next_tid := 6 }

/-- From `sleepers_state`, at tick 100: handle 3 calls `timer_sleep 10`, handle 4
`timer_sleep 30`, handle 5 `timer_sleep 20`.  Gives the state in which all
three sleep and the idle thread runs. -/
def asleep_state : Option Kernel :=
  match timer_sleep sleepers_state 10 with
  | none => none
  | some s1 =>
    match timer_sleep s1 30 with
    | none => none
    | some s2 => timer_sleep s2 20

/-- The scenario of the three sleepers: the wake-up log of the thirty timer
interrupts that follow. -/
def sleep_scenario : Option (List (Int × List Tid)) :=
  match asleep_state with
  | none => none
  | some s => wake_log 30 s

/-- Tick 115 of the sleep scenario: handles 3, 4 and 5 are on the sleep list with
wake-up ticks 110, 130 and 120, all blocked; the idle thread runs. -/
def sleeping_state : Kernel :=
  { booted with
    threads := fun k =>
      if k = 3 then { blank_thread with tid := 3, priority := 31, origin_priority := 31,
                                        awake_tick := 110 }
      else if k = 4 then { blank_thread with tid := 4, priority := 31, origin_priority := 31,
                                             awake_tick := 130 }
      else if k = 5 then { blank_thread with tid := 5, priority := 31, origin_priority := 31,
                                             awake_tick := 120 }
      else if k = 1 then { blank_thread with tid := 1, priority := 31, origin_priority := 31 }
      else if k = 2 then { blank_thread with tid := 2, status := .THREAD_RUNNING }
      else blank_thread
    sleep_list := [3, 4, 5]
    all_list := [1, 3, 4, 5]
    current := 2
    ticks := 115
    next_tid := 6 }

/-- A thread of `nice` -20 that has used no CPU (handle 3) and a thread of `nice`
20 with `recent_cpu` 100 (handle 4), under the MLFQ scheduler. -/
def nice_state : Kernel :=
  { booted with
    threads := fun k =>
      if k = 3 then
        { blank_thread with tid := 3, status := .THREAD_READY, priority := 31,
                            origin_priority := 31, nice := -20, recent_cpu := 0 }
      else if k = 4 then
        { blank_thread with tid := 4, status := .THREAD_READY, priority := 31,
                            origin_priority := 31, nice := 20, recent_cpu := int_to_fp 100 }
      else booted.threads k
    ready_list := [3, 4]
    all_list := [1, 3, 4]
    thread_mlfqs := true
    next_tid := 5 }

/-- `fairness_state` inside an external interrupt handler. -/
def intr_state : Kernel := { fairness_state with intr_context := true }

/-- Inside an external interrupt handler, `main` (priority 31) being the
interrupted thread; a thread of priority 10 (handle 3) waits in semaphore 0. -/
def intr_low_state : Kernel :=
  { booted with
    threads := fun k =>
      if k = 3 then { blank_thread with tid := 3, priority := 10, origin_priority := 10 }
      else booted.threads k
    semas := fun k => if k = 0 then { value := 0, waiters := [3] } else booted.semas k
    all_list := [1, 3]
    intr_context := true
    next_tid := 4 }

/-- The condition-variable elements that left the waiter list of condition `c`
between two states. -/
def signalled (before after : Kernel) (c : Nat) : List Nat :=
  (before.conds c).filter (fun w => decide (w ∉ after.conds c))

/-- `booted` with `main` at priority 5 and the value 77 in the words that lie at
the offset of `priority` from the tail sentinels of the semaphores' waiter
lists. -/
def cond_state : Kernel :=
  { booted with
    threads := fun k =>
      if k = 1 then
        { blank_thread with tid := 1, status := .THREAD_RUNNING, priority := 5,
                            origin_priority := 5 }
      else booted.threads k
    sema_tail_priority := fun _ => 77 }

/-- One waiter of the condition-variable scenario: `main` creates a thread with
handle `t` and priority `p`, which runs at once, takes lock 1 and waits on
condition 0 with the element `w`; `main` runs again.  Gives the state before
the `cond_wait` and the state after it. -/
def cond_arrival (s : Kernel) (t : Tid) (p : Int) (w : Nat) : Option (Kernel × Kernel) :=
  match thread_create 8 s (some t) p with
  | none => none
  | some s1 =>
    match lock_acquire 8 s1 1 with
    | none => none
    | some s2 =>
      match cond_wait s2.state 0 1 w with
      | none => none
      | some s3 => some (s2.state, s3)

/-- The condition-variable scenario: threads of priorities 10, 25 and 50
(handles 3, 4, 5) wait on condition 0 in that order, with the elements 10, 11
and 12; then `main` takes lock 1 and signals three times (after the first
signal the thread of priority 50 runs, returns from `sema_down`, asks for
lock 1 and blocks).  Gives the state before the first `cond_wait`, the state
after it, and the elements signalled, in order. -/
def cond_trace : Option (Kernel × Kernel × List Nat) :=
  match cond_arrival cond_state 3 10 10 with
  | none => none
  | some (before, a1) =>
    match cond_arrival a1 4 25 11 with
    | none => none
    | some (_, a2) =>
      match cond_arrival a2 5 50 12 with
      | none => none
      | some (_, a3) =>
        match lock_acquire 8 a3 1 with
        | none => none
        | some m1 =>
          match cond_signal m1.state 0 1 with
          | none => none
          | some g1 =>
            match sema_down g1 (.standalone 12) with
            | none => none
            | some h1 =>
              match lock_acquire 8 h1.state 1 with
              | none => none
              | some h2 =>
                match cond_signal h2.state 0 1 with
                | none => none
                | some g2 =>
                  match cond_signal g2 0 1 with
                  | none => none
                  | some g3 =>
                    some (before, a1,
                      signalled m1.state g1 0 ++ signalled h2.state g2 0 ++ signalled g2 g3 0)

/-- A deadlock in the making: handle 3 (running, priority 20) holds lock 1; handle
4 (priority 10) holds lock 2 and is blocked on lock 1.  When handle 3 asks for
lock 2 the lock-wait graph has a cycle. -/
def cycle_state : Kernel :=
  { booted with
    threads := fun k =>
      if k = 3 then
        { blank_thread with tid := 3, status := .THREAD_RUNNING, priority := 20,
                            origin_priority := 20, donation_list := [4] }
      else if k = 4 then
        { blank_thread with tid := 4, priority := 10, origin_priority := 10,
                            wait_on_lock := some 1 }
      else if k = 1 then { blank_thread with tid := 1, priority := 5, origin_priority := 5 }
      else booted.threads k
    locks := fun k =>
      if k = 1 then { holder := some 3, sema := { value := 0, waiters := [4] } }
      else if k = 2 then { holder := some 4, sema := { value := 0, waiters := [] } }
      else { holder := none, sema := { value := 1, waiters := [] } }
    all_list := [1, 3, 4]
    current := 3
    next_tid := 5 }

/-- A chain of ten holders: for every `k` from 11 to 19 the thread with handle `k`
(priority 10) holds lock `k - 1` and is blocked on lock `k`, handle 20 holds
lock 19 and is ready; handle 10 (priority 40) is running. -/
def long_chain_state : Kernel :=
  { booted with
    threads := fun k =>
      if k = 10 then
        { blank_thread with tid := 10, status := .THREAD_RUNNING, priority := 40,
                            origin_priority := 40 }
      else if 11 ≤ k ∧ k ≤ 19 then
        { blank_thread with tid := k, priority := 10, origin_priority := 10,
                            wait_on_lock := some k, donation_list := [k - 1] }
      else if k = 20 then
        { blank_thread with tid := 20, status := .THREAD_READY, priority := 10,
                            origin_priority := 10, donation_list := [19] }
      else booted.threads k
    locks := fun k =>
      if 10 ≤ k ∧ k ≤ 19 then
        { holder := some (k + 1), sema := { value := 0, waiters := if k = 10 then [] else [k] } }
      else { holder := none, sema := { value := 1, waiters := [] } }
    ready_list := [20]
    current := 10
    next_tid := 21 }

/-! ## Runs of the kernel -/

/-- One call made by the running thread, taken up to the point where it returns
or the thread blocks.  `acquire_resume` is the rest of `lock_acquire` for a
thread that blocked in its `sema_down` and runs again, and `sema_down` stands
for a first call as well as for the next turn of the loop of a thread that
blocked in it. -/
inductive Op where
  | set_priority (new_priority : Int)
  | acquire (fuel : Nat) (l : LockId)
  | acquire_resume (l : LockId)
  | try_acquire (l : LockId)
  | release (l : LockId)
  | yield
  | sema_up (i : Nat)
  | sema_down (i : Nat)

/-- The state after one call by the running thread; `none` when an assertion
fails or the donation walk does not end within its allowance. -/
def exec (s : Kernel) : Op → Option Kernel
  | .set_priority p => thread_set_priority s p
  | .acquire fuel l => (lock_acquire fuel s l).map Suspend.state
  | .acquire_resume l => (lock_acquire_down s l).map Suspend.state
  | .try_acquire l => (lock_try_acquire s l).map Prod.fst
  | .release l => lock_release s l
  | .yield => thread_yield s
  | .sema_up i => sema_up s (.standalone i)
  | .sema_down i => (sema_down s (.standalone i)).map Suspend.state

/-- A run: the calls are made one after the other, each by the thread that is
running when its turn comes. -/
def run : List Op → Kernel → Option Kernel
  | [], s => some s
  | op :: ops, s =>
    match exec s op with
    | none => none
    | some s1 => run ops s1

/-- A run during which thread `T` sits in `lock_acquire (l)`: the other threads
make any calls, and whenever `T` gets the CPU it tests the semaphore of `l`
again and blocks again. -/
def run_while_waiting (T : Tid) (l : LockId) : List Op → Kernel → Option Kernel
  | [], s => some s
  | op :: ops, s =>
    if s.current = T then
      match op, lock_acquire_down s l with
      | .acquire_resume l2, some (.blocked s1) =>
        if l2 = l then run_while_waiting T l ops s1 else none
      | _, _ => none
    else
      match exec s op with
      | none => none
      | some s1 => run_while_waiting T l ops s1

/-- A state before any lock was taken, with the priority scheduler: every thread
has its base priority, no donor and waits for no lock; every lock is as
`lock_init` leaves it. -/
def Initial (s : Kernel) : Prop :=
  s.thread_mlfqs = false ∧
  (∀ t, (s.threads t).priority = (s.threads t).origin_priority ∧
    (s.threads t).donation_list = [] ∧ (s.threads t).wait_on_lock = none) ∧
  (∀ l, s.locks l = { holder := none, sema := { value := 1, waiters := [] } })

/-- The states that a run leads to from an initial state. -/
def Reachable (s : Kernel) : Prop :=
  ∃ s0 ops, Initial s0 ∧ run ops s0 = some s

/-- What the scheduler and the semaphores leave alone: the thread records up to
`status`, the holder of every lock and the value of its semaphore. -/
def Quiet (s s2 : Kernel) : Prop :=
  SchedFrame s s2 ∧ ∀ l, (s2.locks l).sema.value = (s.locks l).sema.value

/-- The invariant of donation: no thread is below its base priority; a thread
without donor is at its base priority; a thread that waits for a lock is in
the donation list of that lock's holder; the semaphore of a lock has value 0
or 1, and 0 when the lock has a holder. -/
structure DonationInv (s : Kernel) : Prop where
  base_le : ∀ t, (s.threads t).origin_priority ≤ (s.threads t).priority
  no_donor : ∀ t, (s.threads t).donation_list = [] →
    (s.threads t).priority = (s.threads t).origin_priority
  waits : ∀ t l, (s.threads t).wait_on_lock = some l →
    ∃ h, (s.locks l).holder = some h ∧ t ∈ (s.threads h).donation_list
  held : ∀ l, (s.locks l).sema.value ≤ 1 ∧
    ((s.locks l).holder ≠ none → (s.locks l).sema.value = 0)

/-- `booted` with a thread of priority 20 (handle 3) in the ready list. -/
def pair_state : Kernel :=
  { booted with
    threads := fun k =>
      if k = 3 then
        { blank_thread with tid := 3, status := .THREAD_READY, priority := 20,
                            origin_priority := 20 }
      else booted.threads k
    ready_list := [3]
    all_list := [1, 3]
    next_tid := 4 }

/-- From `pair_state`: `main` takes lock 1 and lowers its priority to 10, so that
the thread of priority 20 runs while `main` holds the lock. -/
def contend_ops : List Op := [.acquire 8 1, .set_priority 10]

/-- The state after `contend_ops`. -/
def contend_state : Kernel := (run contend_ops pair_state).getD pair_state

/-- From `pair_state`: `main` takes lock 1 and lowers its priority to 5; the
thread of priority 20 runs, asks for lock 1, donates and blocks; `main` sets
its priority to 20. -/
def level_ops : List Op := [.acquire 8 1, .set_priority 5, .acquire 8 1, .set_priority 20]

/-- From `pair_state`, H being `main` and W the thread of priority 20: H takes
lock 1 and lowers its priority to 10; W runs, asks for lock 1, donates and
blocks; H goes back to priority 31 and releases the lock, which wakes W into
the ready list without giving up the CPU; H takes the lock again and lowers
its priority to 10; W runs, finds the semaphore at 0 and blocks again. -/
def stale_ops : List Op :=
  [.acquire 8 1, .set_priority 10, .acquire 8 1, .set_priority 31, .release 1,
   .acquire 8 1, .set_priority 10, .acquire_resume 1]

/-! ## MLFQ bookkeeping -/

/-- `increase_recent_cpu`: one more tick of CPU for the running thread, unless it
is the idle thread. -/
def increase_recent_cpu (s : Kernel) : Option Kernel :=
  match thread_current s with
  | none => none
  | some cur =>
    let recent := (s.threads cur).recent_cpu
    if some cur ≠ s.idle_thread then
      some (s.setThread cur (fun t => { t with recent_cpu := add_mixed recent 1 }))
    else some s

/-- `recent_cpu_cal`.  The quotient of `div_fp` by 0, on which the machine traps,
is 0 here. -/
def recent_cpu_cal (recent_cpu load_avg nice : Int) : Int :=
  let decay := div_fp (to_int32 (load_avg * 2)) (add_mixed (to_int32 (load_avg * 2)) 1)
  add_mixed (mult_fp decay recent_cpu) nice

/-- `recalculate_recent_cpu`: every thread of `all_list` gets the `recent_cpu`
computed from its old one, `load_avg` and its `nice`. -/
def recalculate_recent_cpu (s : Kernel) : Kernel :=
  s.all_list.foldl
    (fun k t => k.setThread t (fun th =>
      { th with recent_cpu := recent_cpu_cal th.recent_cpu k.load_avg th.nice }))
    s

/-- `load_avg_cal`. -/
def load_avg_cal (load ready_threads : Int) : Int :=
  let fp_59 := int_to_fp 59
  let fp_1 := int_to_fp 1
  add_fp (mult_fp (div_mixed fp_59 60) load) (mult_mixed (div_mixed fp_1 60) ready_threads)

/-- The number of threads that `recalculate_load_avg` counts: the length of the
ready list (stored in an `int`), plus one when the running thread is not the
idle thread. -/
def ready_threads_count (s : Kernel) (cur : Tid) : Int :=
  let size := to_int32 s.ready_list.length
  if some cur = s.idle_thread then size else to_int32 (size + 1)

/-- `recalculate_load_avg`. -/
def recalculate_load_avg (s : Kernel) : Option Kernel :=
  match thread_current s with
  | none => none
  | some cur => some { s with load_avg := load_avg_cal s.load_avg (ready_threads_count s cur) }

/-- Under the MLFQ scheduler, `main` (handle 1, `recent_cpu` 0) is running and the
threads with handles 4 (`nice` 5) and 3 (`nice` 0) are ready in that order,
all three at priority 31; the thread with handle 5 sleeps until tick 101. -/
def mlfqs_tick_state : Kernel :=
  { booted with
    threads := fun k =>
      if k = 3 then
        { blank_thread with tid := 3, status := .THREAD_READY, priority := 31,
                            origin_priority := 31, nice := 0 }
      else if k = 4 then
        { blank_thread with tid := 4, status := .THREAD_READY, priority := 31,
                            origin_priority := 31, nice := 5 }
      else if k = 5 then
        { blank_thread with tid := 5, priority := 31, origin_priority := 31, awake_tick := 101 }
      else booted.threads k
    ready_list := [4, 3]
    sleep_list := [5]
    all_list := [1, 3, 4, 5]
    thread_mlfqs := true
    next_tid := 6 }

/-- The idle thread is running under the MLFQ scheduler and nothing is ready. -/
def mlfqs_idle_state : Kernel :=
  { booted with
    threads := fun k =>
      if k = 1 then { blank_thread with tid := 1, priority := 31, origin_priority := 31 }
      else if k = 2 then { blank_thread with tid := 2, status := .THREAD_RUNNING }
      else booted.threads k
    current := 2
    thread_mlfqs := true }

/-! ## cond_broadcast -/

/-- The waiter whose semaphore `cond_signal` ups: the front of the sorted waiter
list. -/
def cond_signal_waiter (s : Kernel) (c : Nat) : Option Nat :=
  (list_sort (compare_sema_priority s) (s.conds c)).head?

/-- `cond_broadcast`: `cond_signal` as long as the waiter list is not empty.  A
`cond_signal` may end with the caller off the CPU (it yields to the thread it
woke); the caller goes on with the loop when it runs again, and `resumes`
lists the states in which it does, one for each such loss of the CPU.  Gives
the number of calls of `cond_signal`, the waiters whose semaphores they upped,
in order, and the state on return; `none` for a failed assertion, for a
caller that does not run again, and when `fuel` loop tests do not suffice. -/
def cond_broadcast : Nat → List Kernel → Kernel → Nat → LockId → Option (Nat × List Nat × Kernel)
  | 0, _, _, _, _ => none
  | fuel + 1, resumes, s, c, l =>
    if s.conds c = [] then some (0, [], s)
    else
      match cond_signal s c l with
      | none => none
      | some s1 =>
        if s1.current = s.current then
          match cond_broadcast fuel resumes s1 c l with
          | none => none
          | some (n, log, s2) => some (n + 1, (cond_signal_waiter s c).toList ++ log, s2)
        else
          match resumes with
          | [] => none
          | s2 :: rest =>
            match cond_broadcast fuel rest s2 c l with
            | none => none
            | some (n, log, s3) => some (n + 1, (cond_signal_waiter s c).toList ++ log, s3)

/-- What a call of `cond_signal (c, l)` by thread `T` relies on: `T` runs outside
interrupt context and holds `l`; the threads in the ready list are not
blocked; the waiters of `c` are distinct, the threads that wait in their
semaphores are blocked, and no thread waits in two of them. -/
@[reducible] def CondReady (T : Tid) (c : Nat) (l : LockId) (s : Kernel) : Prop :=
  s.intr_context = false ∧ s.current = T ∧ (s.threads T).status = .THREAD_RUNNING ∧
  (s.locks l).holder = some T ∧
  (∀ x ∈ s.ready_list, (s.threads x).status ≠ .THREAD_BLOCKED) ∧
  (s.conds c).Nodup ∧
  (∀ w ∈ s.conds c, ∀ x ∈ (s.semas w).waiters, (s.threads x).status = .THREAD_BLOCKED) ∧
  (s.conds c).Pairwise (fun a b => ∀ x ∈ (s.semas a).waiters, x ∉ (s.semas b).waiters)

/-- Whether the states `resumes` fit the run of `cond_broadcast` from `s`: each
time the caller `T` has lost the CPU in `cond_signal`, the next of them has
the waiter list of `c` as that call left it and is a state in which `T` can
call `cond_signal` again. -/
def resumed_ready (T : Tid) (c : Nat) (l : LockId) : Nat → List Kernel → Kernel → Bool
  | 0, _, _ => true
  | fuel + 1, resumes, s =>
    if s.conds c = [] then true
    else
      match cond_signal s c l with
      | none => true
      | some s1 =>
        if s1.current = s.current then resumed_ready T c l fuel resumes s1
        else
          match resumes with
          | [] => false
          | s2 :: rest =>
            decide (s2.conds c = s1.conds c ∧ CondReady T c l s2) &&
              resumed_ready T c l fuel rest s2

/-- The state of `cond_trace` in which `main` (priority 5) holds lock 1 while
the threads of priority 10, 25 and 50 wait on condition 0. -/
def broadcast_state : Kernel :=
  match cond_arrival cond_state 3 10 10 with
  | none => cond_state
  | some (_, a1) =>
    match cond_arrival a1 4 25 11 with
    | none => cond_state
    | some (_, a2) =>
      match cond_arrival a2 5 50 12 with
      | none => cond_state
      | some (_, a3) =>
        match lock_acquire 8 a3 1 with
        | none => cond_state
        | some m1 => m1.state

/-- From `broadcast_state`, after the first `cond_signal` of `main` has woken the
thread of priority 50 and yielded to it: that thread returns from `sema_down`
on its semaphore (waiter 12), asks for lock 1, donates to `main` and blocks,
and `main` runs again. -/
def broadcast_resumed : Kernel :=
  match cond_signal broadcast_state 0 1 with
  | none => cond_state
  | some g1 =>
    match sema_down g1 (.standalone 12) with
    | none => cond_state
    | some h1 =>
      match lock_acquire 8 h1.state 1 with
      | none => cond_state
      | some h2 => h2.state

/-! # Theorems -/

/-! ### lock_acquire: the donation walk -/

theorem setThread_threads (s : Kernel) (t : Tid) (f : thread → thread) (u : Tid) :
    (s.setThread t f).threads u = if u = t then f (s.threads t) else s.threads u := rfl

theorem wait_chain_head {n : Nat} {s : Kernel} {t : Tid} {path : List Tid}
    (h : wait_chain n s t = some path) : ∃ rest, path = t :: rest := by
  cases n with
  | zero => simp [wait_chain] at h
  | succ n =>
    unfold wait_chain at h
    split at h
    · exact ⟨[], by simpa using h.symm⟩
    · split at h
      · simp at h
      · split at h
        · simp at h
        · exact ⟨_, by simpa using h.symm⟩

theorem wait_chain_congr {n : Nat} {s s2 : Kernel} :
    ∀ {t : Tid} {path : List Tid}, wait_chain n s t = some path →
      (∀ u ∈ path, (s2.threads u).wait_on_lock = (s.threads u).wait_on_lock) →
      (∀ l, (s2.locks l).holder = (s.locks l).holder) →
      wait_chain n s2 t = some path := by
  induction n with
  | zero => intro t path h; simp [wait_chain] at h
  | succ n ih =>
    intro t path h hw hl
    obtain ⟨rest, hp⟩ := wait_chain_head h
    have hwt : (s2.threads t).wait_on_lock = (s.threads t).wait_on_lock :=
      hw t (by simp [hp])
    unfold wait_chain at h ⊢
    rw [hwt]
    cases hwl : (s.threads t).wait_on_lock with
    | none => simpa [hwl] using h
    | some l =>
      simp only [hwl] at h ⊢
      rw [hl l]
      cases hh : (s.locks l).holder with
      | none => simp [hh] at h
      | some holder =>
        simp only [hh] at h ⊢
        cases hc : wait_chain n s holder with
        | none => simp [hc] at h
        | some p =>
          simp only [hc, Option.some.injEq] at h
          have hw2 : ∀ u ∈ p, (s2.threads u).wait_on_lock = (s.threads u).wait_on_lock := by
            intro u hu
            exact hw u (by rw [← h]; exact List.mem_cons_of_mem _ hu)
          rw [ih hc hw2 hl]
          simpa using h

theorem donate_priority_loop_chain (n : Nat) :
    ∀ (s : Kernel) (t : Tid) (path : List Tid), wait_chain n s t = some path →
      ∀ fuel, n ≤ fuel →
      ∃ s2, donate_priority_loop fuel s t = .done s2 ∧
        (∀ u ∈ path, (s.threads t).priority ≤ (s2.threads u).priority) ∧
        (∀ u, (s.threads u).priority ≤ (s2.threads u).priority) ∧
        (∀ u, u ∉ path.tail → (s2.threads u).priority = (s.threads u).priority) := by
  induction n with
  | zero => intro s t path h; simp [wait_chain] at h
  | succ n ih =>
    intro s t path h fuel hfuel
    obtain ⟨m, rfl⟩ : ∃ m, fuel = m + 1 := ⟨fuel - 1, by omega⟩
    have hm : n ≤ m := by omega
    unfold wait_chain at h
    unfold donate_priority_loop
    cases hwl : (s.threads t).wait_on_lock with
    | none =>
      simp only [hwl, Option.some.injEq] at h
      subst h
      exact ⟨s, rfl, by simp, by simp, by simp⟩
    | some l =>
      simp only [hwl] at h ⊢
      cases hh : (s.locks l).holder with
      | none => simp [hh] at h
      | some holder =>
        simp only [hh] at h ⊢
        cases hc : wait_chain n s holder with
        | none => simp [hc] at h
        | some p =>
          simp only [hc, Option.some.injEq] at h
          subst h
          obtain ⟨rest, hp⟩ := wait_chain_head hc
          -- the state after the step at `t`
          generalize hs1 :
            (if (s.threads t).priority > (s.threads holder).priority then
              s.setThread holder (fun th => { th with priority := (s.threads t).priority })
            else s) = s1
          have hprio : ∀ u, (s1.threads u).priority =
              if u = holder ∧ (s.threads t).priority > (s.threads holder).priority
              then (s.threads t).priority else (s.threads u).priority := by
            intro u
            rw [← hs1]
            by_cases hgt : (s.threads t).priority > (s.threads holder).priority
            · by_cases hu : u = holder <;> simp [hgt, hu, setThread_threads]
            · simp [hgt]
          have hwait : ∀ u, (s1.threads u).wait_on_lock = (s.threads u).wait_on_lock := by
            intro u
            rw [← hs1]
            by_cases hgt : (s.threads t).priority > (s.threads holder).priority
            · by_cases hu : u = holder
              · subst hu; simp [hgt, setThread_threads]
              · simp [hgt, hu, setThread_threads]
            · simp [hgt]
          have hlocks : ∀ k, (s1.locks k).holder = (s.locks k).holder := by
            intro k
            rw [← hs1]
            by_cases hgt : (s.threads t).priority > (s.threads holder).priority
            · simp [hgt, Kernel.setThread]
            · simp [hgt]
          have hc1 : wait_chain n s1 holder = some p :=
            wait_chain_congr hc (fun u _ => hwait u) hlocks
          obtain ⟨s2, hrun, hge, hmono, hsame⟩ := ih s1 holder p hc1 m hm
          have hholder : (s.threads t).priority ≤ (s1.threads holder).priority := by
            rw [hprio holder]
            by_cases hgt : (s.threads t).priority > (s.threads holder).priority
            · simp [hgt]
            · simp [hgt]; omega
          have hmono1 : ∀ u, (s.threads u).priority ≤ (s1.threads u).priority := by
            intro u
            rw [hprio u]
            by_cases hc2 : u = holder ∧ (s.threads t).priority > (s.threads holder).priority
            · obtain ⟨hu, hgt⟩ := hc2
              subst hu
              simp [hgt]; omega
            · simp [hc2]
          refine ⟨s2, hrun, ?_, ?_, ?_⟩
          · intro u hu
            rcases List.mem_cons.mp hu with rfl | hu
            · exact le_trans (hmono1 u) (hmono u)
            · exact le_trans hholder (hge u hu)
          · intro u
            exact le_trans (hmono1 u) (hmono u)
          · intro u hu
            simp only [List.tail_cons] at hu
            have hu1 : u ≠ holder := by
              intro hEq
              apply hu
              rw [hp, hEq]
              exact List.mem_cons_self _ _
            have hu2 : u ∉ p.tail := fun hmem => hu (List.mem_of_mem_tail hmem)
            rw [hsame u hu2, hprio u]
            simp [hu1]

theorem donate_priority_loop_fuel_mono (n : Nat) :
    ∀ (s s2 : Kernel) (t : Tid), donate_priority_loop n s t = .done s2 →
      ∀ fuel, n ≤ fuel → donate_priority_loop fuel s t = .done s2 := by
  induction n with
  | zero => intro s s2 t h; simp [donate_priority_loop] at h
  | succ n ih =>
    intro s s2 t h fuel hfuel
    obtain ⟨m, rfl⟩ : ∃ m, fuel = m + 1 := ⟨fuel - 1, by omega⟩
    unfold donate_priority_loop at h ⊢
    cases hwl : (s.threads t).wait_on_lock with
    | none => simpa [hwl] using h
    | some l =>
      simp only [hwl] at h ⊢
      cases hh : (s.locks l).holder with
      | none => simp [hh] at h
      | some holder =>
        simp only [hh] at h ⊢
        exact ih _ _ _ h m (by omega)

/-- C1: when the running thread T asks for a lock that has a holder, and the chain
of holders that starts at that holder ends without coming back to T (the
lock-wait chain of T is acyclic), the donation steps of `lock_acquire` finish,
every thread on the chain ends with a priority of at least T's, no thread's
priority is lowered, and T's own priority is unchanged. -/
theorem lock_acquire_donation_raises_chain (s : Kernel) (l : LockId) (holder : Tid) (n : Nat)
    (path : List Tid)
    (hctx : s.intr_context = false)
    (hrun : (s.threads s.current).status = .THREAD_RUNNING)
    (hheld : (s.locks l).holder = some holder)
    (hchain : wait_chain n s holder = some path)
    (hacyclic : s.current ∉ path) :
    ∃ s2, (∀ fuel, n < fuel → lock_acquire_donate fuel s l = .done s2) ∧
      (∀ u ∈ s.current :: path, (s.threads s.current).priority ≤ (s2.threads u).priority) ∧
      (∀ u, (s.threads u).priority ≤ (s2.threads u).priority) ∧
      (s2.threads s.current).priority = (s.threads s.current).priority := by
  obtain ⟨rest, hp⟩ := wait_chain_head hchain
  have hne : s.current ≠ holder := by
    intro hEq
    apply hacyclic
    rw [hp, hEq]
    exact List.mem_cons_self _ _
  -- the state in which the walk starts
  generalize hs2 : lock_acquire_enlist s l holder = sw
  have hcur : sw.current = s.current := by rw [← hs2]; rfl
  have hlocks : ∀ k, sw.locks k = s.locks k := by intro k; rw [← hs2]; rfl
  have hprio : ∀ u, (sw.threads u).priority = (s.threads u).priority := by
    intro u
    rw [← hs2]
    by_cases h1 : u = holder
    · subst h1
      have : ¬ u = s.current := fun h => hne h.symm
      simp [lock_acquire_enlist, setThread_threads, this]
    · by_cases h2 : u = s.current
      · subst h2; simp [lock_acquire_enlist, setThread_threads, h1]
      · simp [lock_acquire_enlist, setThread_threads, h1, h2]
  have hstatus : (sw.threads s.current).status = .THREAD_RUNNING := by
    rw [← hs2]
    simp [lock_acquire_enlist, setThread_threads, hne, hrun]
  have hwait_cur : (sw.threads s.current).wait_on_lock = some l := by
    rw [← hs2]
    simp [lock_acquire_enlist, setThread_threads, hne]
  have hwait : ∀ u ∈ path, (sw.threads u).wait_on_lock = (s.threads u).wait_on_lock := by
    intro u hu
    have h2 : u ≠ s.current := fun h => hacyclic (h ▸ hu)
    rw [← hs2]
    by_cases h1 : u = holder
    · subst h1; simp [lock_acquire_enlist, setThread_threads, h2]
    · simp [lock_acquire_enlist, setThread_threads, h1, h2]
  have hchain_w : wait_chain (n + 1) sw s.current = some (s.current :: path) := by
    have : wait_chain n sw holder = some path :=
      wait_chain_congr hchain hwait (fun k => by rw [hlocks k])
    unfold wait_chain
    simp [hwait_cur, hlocks, hheld, this]
  obtain ⟨s2, hdone, hge, hmono, hsame⟩ :=
    donate_priority_loop_chain (n + 1) sw s.current (s.current :: path) hchain_w (n + 1) le_rfl
  refine ⟨s2, ?_, ?_, ?_, ?_⟩
  · intro fuel hfuel
    have hloop := donate_priority_loop_fuel_mono (n + 1) sw s2 s.current hdone fuel (by omega)
    have hheldby : lock_held_by_current_thread s l = some false := by
      simp [lock_held_by_current_thread, thread_current, hrun, hheld]
      exact fun h => hne h.symm
    unfold lock_acquire_donate
    simp only [hctx, hheldby, hheld, hs2]
    simp [donate_priority, thread_current, hcur, hstatus, hloop]
  · intro u hu
    rw [← hprio s.current]
    exact hge u hu
  · intro u
    rw [← hprio u]
    exact hmono u
  · rw [hsame s.current (by simpa using hacyclic), hprio]

/-- C1 at work: in `chain_state` High asks for L2; the chain of holders from Med
is Med, Low and does not contain High. -/
theorem lock_acquire_donation_raises_chain_witness :
    chain_state.intr_context = false ∧
    (chain_state.threads chain_state.current).status = .THREAD_RUNNING ∧
    (chain_state.locks 2).holder = some 4 ∧
    wait_chain 2 chain_state 4 = some [4, 3] ∧
    chain_state.current ∉ [4, 3] ∧
    ∃ s2, (∀ fuel, 2 < fuel → lock_acquire_donate fuel chain_state 2 = .done s2) ∧
      (∀ u ∈ chain_state.current :: [4, 3],
        (chain_state.threads chain_state.current).priority ≤ (s2.threads u).priority) ∧
      (∀ u, (chain_state.threads u).priority ≤ (s2.threads u).priority) ∧
      (s2.threads chain_state.current).priority =
        (chain_state.threads chain_state.current).priority :=
  ⟨by decide, by decide, by decide, by decide, by decide,
    lock_acquire_donation_raises_chain chain_state 2 4 2 [4, 3]
      (by decide) (by decide) (by decide) (by decide) (by decide)⟩

/-! ### What scheduling leaves alone -/

theorem SchedFrame.refl (s : Kernel) : SchedFrame s s :=
  ⟨fun _ => rfl, fun _ => rfl⟩

theorem SchedFrame.trans {a b c : Kernel} (h1 : SchedFrame a b) (h2 : SchedFrame b c) :
    SchedFrame a c := by
  refine ⟨fun u => ?_, fun l => by rw [h2.2 l, h1.2 l]⟩
  have e1 := h1.1 u
  have e2 := h2.1 u
  rw [← e1, ← e2]

theorem SchedFrame.of_threads {s s2 : Kernel}
    (ht : ∀ u, { s2.threads u with status := (s.threads u).status } = s.threads u)
    (hl : s2.locks = s.locks) : SchedFrame s s2 :=
  ⟨ht, fun l => by rw [hl]⟩

theorem SchedFrame.setStatus (s : Kernel) (t : Tid) (x : thread_status) :
    SchedFrame s (s.setThread t (fun th => { th with status := x })) := by
  refine SchedFrame.of_threads (fun u => ?_) rfl
  by_cases h : u = t
  · subst h; simp [setThread_threads]
  · simp [setThread_threads, h]

theorem SchedFrame.priority {s s2 : Kernel} (h : SchedFrame s s2) (u : Tid) :
    (s2.threads u).priority = (s.threads u).priority := by
  have := congrArg thread.priority (h.1 u)
  simpa using this

theorem SchedFrame.origin_priority {s s2 : Kernel} (h : SchedFrame s s2) (u : Tid) :
    (s2.threads u).origin_priority = (s.threads u).origin_priority := by
  have := congrArg thread.origin_priority (h.1 u)
  simpa using this

theorem SchedFrame.wait_on_lock {s s2 : Kernel} (h : SchedFrame s s2) (u : Tid) :
    (s2.threads u).wait_on_lock = (s.threads u).wait_on_lock := by
  have := congrArg thread.wait_on_lock (h.1 u)
  simpa using this

theorem SchedFrame.donation_list {s s2 : Kernel} (h : SchedFrame s s2) (u : Tid) :
    (s2.threads u).donation_list = (s.threads u).donation_list := by
  have := congrArg thread.donation_list (h.1 u)
  simpa using this

theorem schedule_of_nil {s : Kernel} (h : s.ready_list = []) :
    schedule s =
      match s.idle_thread with
      | none => none
      | some i =>
        if (s.threads s.current).status = .THREAD_RUNNING then none
        else some (schedule_switch s i) := by
  unfold schedule next_thread_to_run
  rw [h]
  cases s.idle_thread <;> rfl

theorem schedule_of_cons {s : Kernel} {t : Tid} {rest : List Tid} (h : s.ready_list = t :: rest) :
    schedule s =
      if (s.threads s.current).status = .THREAD_RUNNING then none
      else some (schedule_switch { s with ready_list := rest } t) := by
  unfold schedule next_thread_to_run
  rw [h]

theorem schedule_switch_threads (s : Kernel) (next : Tid) :
    (schedule_switch s next).threads =
      (s.setThread next (fun t => { t with status := .THREAD_RUNNING })).threads := by
  unfold schedule_switch
  simp only
  split
  · split <;> rfl
  · rfl

theorem schedule_switch_locks (s : Kernel) (next : Tid) :
    (schedule_switch s next).locks = s.locks := by
  unfold schedule_switch
  simp only
  split
  · split <;> rfl
  · rfl

theorem schedule_switch_frame (s : Kernel) (next : Tid) :
    SchedFrame s (schedule_switch s next) := by
  refine SchedFrame.of_threads (fun u => ?_) (schedule_switch_locks s next)
  rw [schedule_switch_threads]
  exact (SchedFrame.setStatus s next _).1 u

theorem schedule_frame {s s2 : Kernel} (h : schedule s = some s2) : SchedFrame s s2 := by
  cases hr : s.ready_list with
  | nil =>
    rw [schedule_of_nil hr] at h
    split at h
    · simp at h
    · split at h
      · simp at h
      · simp only [Option.some.injEq] at h
        subst h
        exact schedule_switch_frame s _
  | cons t rest =>
    rw [schedule_of_cons hr] at h
    split at h
    · simp at h
    · simp only [Option.some.injEq] at h
      subst h
      exact SchedFrame.trans (show SchedFrame s { s with ready_list := rest } from
        ⟨fun _ => rfl, fun _ => rfl⟩) (schedule_switch_frame _ t)

theorem list_insert_ordered_ne_nil {α : Type} (less : α → α → Bool) (a : α) (l : List α) :
    list_insert_ordered less a l ≠ [] := by
  cases l with
  | nil => simp [list_insert_ordered]
  | cons e rest =>
    unfold list_insert_ordered
    split <;> simp

theorem list_insert_ordered_perm {α : Type} (less : α → α → Bool) (a : α) (l : List α) :
    (list_insert_ordered less a l).Perm (a :: l) := by
  induction l with
  | nil => simp [list_insert_ordered]
  | cons e rest ih =>
    unfold list_insert_ordered
    split
    · exact List.Perm.refl _
    · exact ((List.Perm.cons e ih).trans (List.Perm.swap a e rest))

theorem list_sort_place_perm {α : Type} (less : α → α → Bool) (a : α) (l : List α) :
    (list_sort_place less a l).Perm (a :: l) := by
  induction l with
  | nil => simp [list_sort_place]
  | cons e rest ih =>
    unfold list_sort_place
    split
    · exact ((List.Perm.cons e ih).trans (List.Perm.swap a e rest))
    · exact List.Perm.refl _

theorem list_sort_perm {α : Type} (less : α → α → Bool) (l : List α) :
    (list_sort less l).Perm l := by
  induction l with
  | nil => simp [list_sort]
  | cons a l ih =>
    unfold list_sort
    exact (list_sort_place_perm less a _).trans (List.Perm.cons a ih)

theorem thread_current_eq {s : Kernel} (h : (s.threads s.current).status = .THREAD_RUNNING) :
    thread_current s = some s.current := by
  simp [thread_current, h]

theorem thread_unblock_eq {s : Kernel} {t : Tid}
    (h : (s.threads t).status = .THREAD_BLOCKED) :
    thread_unblock s t =
      some (({ s with ready_list :=
          list_insert_ordered (compare_thread_priority s) t s.ready_list } : Kernel).setThread t
        (fun th => { th with status := .THREAD_READY })) := by
  simp [thread_unblock, h]

theorem thread_unblock_frame {s s2 : Kernel} {t : Tid} (h : thread_unblock s t = some s2) :
    SchedFrame s s2 := by
  unfold thread_unblock at h
  split at h
  · simp at h
  · simp only [Option.some.injEq] at h
    subst h
    exact SchedFrame.setStatus { s with ready_list := _ } t _

theorem schedule_total {s : Kernel} (hst : (s.threads s.current).status ≠ .THREAD_RUNNING)
    (hnext : s.ready_list ≠ [] ∨ s.idle_thread ≠ none) :
    ∃ s2, schedule s = some s2 := by
  cases hr : s.ready_list with
  | nil =>
    rw [schedule_of_nil hr]
    cases hi : s.idle_thread with
    | none => simp [hr, hi] at hnext
    | some i => simp [hst]
  | cons t rest =>
    rw [schedule_of_cons hr]
    simp [hst]

theorem do_schedule_total_frame (s : Kernel) (st : thread_status)
    (hrun : (s.threads s.current).status = .THREAD_RUNNING)
    (hst : st ≠ .THREAD_RUNNING)
    (hnext : s.ready_list ≠ [] ∨ s.idle_thread ≠ none) :
    ∃ s2, do_schedule s st = some s2 ∧ SchedFrame s s2 := by
  unfold do_schedule
  rw [thread_current_eq hrun]
  simp only
  have hs : ((({ s with destruction_req := [] } : Kernel).setThread s.current
      (fun t => { t with status := st })).threads s.current).status ≠ .THREAD_RUNNING := by
    simp [setThread_threads, hst]
  obtain ⟨s2, h2⟩ := schedule_total hs hnext
  refine ⟨s2, h2, ?_⟩
  exact SchedFrame.trans
    (SchedFrame.setStatus { s with destruction_req := [] } s.current st) (schedule_frame h2)

theorem thread_yield_total_frame {s : Kernel}
    (hrun : (s.threads s.current).status = .THREAD_RUNNING)
    (hctx : s.intr_context = false) :
    ∃ s2, thread_yield s = some s2 ∧ SchedFrame s s2 := by
  have hc : ¬ (s.intr_context = true) := by simp [hctx]
  unfold thread_yield
  rw [thread_current_eq hrun]
  simp only
  rw [if_neg hc]
  by_cases hidle : some s.current ≠ s.idle_thread
  · rw [if_pos hidle]
    obtain ⟨s2, h2, hf⟩ := do_schedule_total_frame
      { s with ready_list :=
          list_insert_ordered (compare_thread_priority s) s.current s.ready_list }
      .THREAD_READY hrun (by decide) (Or.inl (list_insert_ordered_ne_nil _ _ _))
    exact ⟨s2, h2, hf⟩
  · rw [if_neg hidle]
    have hi : s.idle_thread ≠ none := by
      intro h
      apply hidle
      rw [h]
      simp
    obtain ⟨s2, h2, hf⟩ := do_schedule_total_frame s .THREAD_READY hrun (by decide)
      (Or.inr hi)
    exact ⟨s2, h2, hf⟩

theorem setSema_frame (s : Kernel) (r : SemaRef) (f : semaphore → semaphore) :
    SchedFrame s (s.setSema r f) := by
  cases r with
  | standalone i => exact ⟨fun _ => rfl, fun _ => rfl⟩
  | ofLock l =>
    refine ⟨fun _ => rfl, fun k => ?_⟩
    by_cases h : k = l
    · subst h; simp [Kernel.setSema, Kernel.setLock]
    · simp [Kernel.setSema, Kernel.setLock, h]

theorem setSema_threads (s : Kernel) (r : SemaRef) (f : semaphore → semaphore) :
    (s.setSema r f).threads = s.threads := by
  cases r <;> rfl

theorem setSema_current (s : Kernel) (r : SemaRef) (f : semaphore → semaphore) :
    (s.setSema r f).current = s.current := by
  cases r <;> rfl

theorem setSema_intr_context (s : Kernel) (r : SemaRef) (f : semaphore → semaphore) :
    (s.setSema r f).intr_context = s.intr_context := by
  cases r <;> rfl

theorem getSema_setSema (s : Kernel) (r : SemaRef) (f : semaphore → semaphore) :
    (s.setSema r f).getSema r = f (s.getSema r) := by
  cases r <;> simp [Kernel.setSema, Kernel.getSema, Kernel.setLock]

/-- `sema_up` finishes when the caller is running outside an interrupt handler and
every waiter is blocked, and it leaves the donation data of every thread and
the holder of every lock as they were. -/
theorem sema_up_total_frame {s : Kernel} {r : SemaRef}
    (hrun : (s.threads s.current).status = .THREAD_RUNNING)
    (hctx : s.intr_context = false)
    (hblocked : ∀ w ∈ (s.getSema r).waiters, (s.threads w).status = .THREAD_BLOCKED) :
    ∃ s2, sema_up s r = some s2 ∧ SchedFrame s s2 := by
  unfold sema_up
  simp only [getSema_setSema]
  by_cases hw : (s.getSema r).waiters = []
  · simp only [hw, if_true]
    exact ⟨_, rfl, setSema_frame s r _⟩
  · simp only [hw, if_false]
    generalize hs1 : s.setSema r (fun sm => { sm with value := to_unsigned (sm.value + 1) }) = s1
    have hf1 : SchedFrame s s1 := by rw [← hs1]; exact setSema_frame s r _
    have hperm := list_sort_perm (compare_thread_priority s1) (s.getSema r).waiters
    cases hsorted : list_sort (compare_thread_priority s1) (s.getSema r).waiters with
    | nil =>
      rw [hsorted] at hperm
      exact absurd hperm.symm.eq_nil hw
    | cons t rest =>
      simp only
      have htmem : t ∈ (s.getSema r).waiters := by
        apply hperm.subset
        rw [hsorted]
        exact List.mem_cons_self _ _
      generalize hs2 : s1.setSema r (fun sm => { sm with waiters := rest }) = s2
      have hth2 : s2.threads = s.threads := by
        rw [← hs2, setSema_threads, ← hs1, setSema_threads]
      have hcur2 : s2.current = s.current := by
        rw [← hs2, setSema_current, ← hs1, setSema_current]
      have hctx2 : s2.intr_context = false := by
        rw [← hs2, setSema_intr_context, ← hs1, setSema_intr_context, hctx]
      have hf2 : SchedFrame s s2 := by
        rw [← hs2]
        exact SchedFrame.trans hf1 (setSema_frame s1 r _)
      have hblk : (s2.threads t).status = .THREAD_BLOCKED := by
        rw [hth2]; exact hblocked t htmem
      obtain ⟨s3, hs3⟩ : ∃ s3, thread_unblock s2 t = some s3 := ⟨_, thread_unblock_eq hblk⟩
      have hf3 : SchedFrame s2 s3 := thread_unblock_frame hs3
      rw [hs3]
      simp only
      rw [thread_unblock_eq hblk, Option.some.injEq] at hs3
      have hne : t ≠ s.current := by
        intro hEq
        have := hblocked t htmem
        rw [hEq, hrun] at this
        exact absurd this (by decide)
      have hrun3 : (s3.threads s3.current).status = .THREAD_RUNNING := by
        rw [← hs3]
        show (((({ s2 with ready_list := _ } : Kernel).setThread t _).threads s2.current).status) = _
        rw [setThread_threads, hcur2]
        simp only [if_neg (Ne.symm hne)]
        show ((s2.threads s.current).status) = _
        rw [hth2]; exact hrun
      have hctx3 : s3.intr_context = false := by rw [← hs3]; exact hctx2
      rw [thread_current_eq hrun3]
      simp only
      split
      · obtain ⟨s4, h4, hf4⟩ := thread_yield_total_frame hrun3 hctx3
        exact ⟨s4, h4, SchedFrame.trans hf2 (SchedFrame.trans hf3 hf4)⟩
      · exact ⟨s3, rfl, SchedFrame.trans hf2 hf3⟩

/-! ### lock_release -/

theorem lock_release_loop_remove {l : LockId} {e : Tid} {s : Kernel}
    (h : (s.threads e).wait_on_lock = some l) (rest : List Tid) (m : Int) :
    lock_release_loop l (e :: rest) s m =
      lock_release_loop l rest (s.setThread e (fun t => { t with wait_on_lock := none })) m := by
  simp [lock_release_loop, h]

theorem lock_release_loop_keep {l : LockId} {e : Tid} {s : Kernel}
    (h : (s.threads e).wait_on_lock ≠ some l) (rest : List Tid) (m : Int) :
    lock_release_loop l (e :: rest) s m =
      (e :: (lock_release_loop l rest s (max m (s.threads e).priority)).1,
        (lock_release_loop l rest s (max m (s.threads e).priority)).2.1,
        (lock_release_loop l rest s (max m (s.threads e).priority)).2.2) := by
  have hm : (if (s.threads e).priority > m then (s.threads e).priority else m) =
      max m (s.threads e).priority := by
    split
    · rw [max_eq_right]; omega
    · rw [max_eq_left]; omega
  simp [lock_release_loop, h, hm]

/-- The loop of `lock_release` writes nothing but `wait_on_lock` fields, and its
`max_priority` is the highest of the start value and the priorities of the
donors that stay. -/
theorem lock_release_loop_frame (l : LockId) :
    ∀ (ds : List Tid) (s : Kernel) (m : Int),
      ∃ f, (lock_release_loop l ds s m).2.1 = { s with threads := f } ∧
        (∀ u, { f u with wait_on_lock := (s.threads u).wait_on_lock } = s.threads u) ∧
        (lock_release_loop l ds s m).2.2 =
          max_priority_of s m (lock_release_loop l ds s m).1 := by
  intro ds
  induction ds with
  | nil => intro s m; exact ⟨s.threads, rfl, fun _ => rfl, rfl⟩
  | cons e rest ih =>
    intro s m
    by_cases h : (s.threads e).wait_on_lock = some l
    · rw [lock_release_loop_remove h]
      obtain ⟨f, hf, hu, hm⟩ := ih (s.setThread e (fun t => { t with wait_on_lock := none })) m
      refine ⟨f, by rw [hf]; rfl, fun u => ?_, ?_⟩
      · have := hu u
        rw [setThread_threads] at this
        by_cases hue : u = e
        · subst hue
          simp only [if_true] at this
          generalize f u = a at this ⊢
          generalize s.threads u = b at this ⊢
          cases a
          cases b
          simp_all
        · simp only [if_neg hue] at this
          exact this
      · rw [hm]
        unfold max_priority_of
        apply List.foldl_ext
        intro acc d _
        rw [setThread_threads]
        by_cases hde : d = e
        · subst hde; simp
        · simp [hde]
    · rw [lock_release_loop_keep h]
      obtain ⟨f, hf, hu, hm⟩ := ih s (max m (s.threads e).priority)
      refine ⟨f, hf, hu, ?_⟩
      simp only
      rw [hm]
      simp [max_priority_of]

/-- On a donation list without repetition the loop of `lock_release` keeps exactly
the donors that do not wait for `l`, in their order, and clears `wait_on_lock`
of exactly the donors that do. -/
theorem lock_release_loop_nodup (l : LockId) :
    ∀ (ds : List Tid) (s : Kernel) (m : Int), ds.Nodup →
      (lock_release_loop l ds s m).1 =
          ds.filter (fun d => decide ((s.threads d).wait_on_lock ≠ some l)) ∧
        ∀ u, ((lock_release_loop l ds s m).2.1.threads u).wait_on_lock =
          if u ∈ ds ∧ (s.threads u).wait_on_lock = some l then none
          else (s.threads u).wait_on_lock := by
  intro ds
  induction ds with
  | nil => intro s m _; simp [lock_release_loop]
  | cons e rest ih =>
    intro s m hnd
    have hnot : e ∉ rest := (List.nodup_cons.mp hnd).1
    have hrest : rest.Nodup := (List.nodup_cons.mp hnd).2
    by_cases h : (s.threads e).wait_on_lock = some l
    · rw [lock_release_loop_remove h]
      obtain ⟨hk, hw⟩ := ih (s.setThread e (fun t => { t with wait_on_lock := none })) m hrest
      have hother : ∀ d, d ≠ e →
          ((s.setThread e (fun t => { t with wait_on_lock := none })).threads d).wait_on_lock =
            (s.threads d).wait_on_lock := by
        intro d hd
        rw [setThread_threads]; simp [hd]
      constructor
      · rw [hk]
        rw [List.filter_cons_of_neg (by simp [h])]
        apply List.filter_congr
        intro d hd
        have hde : d ≠ e := fun hEq => hnot (hEq ▸ hd)
        rw [hother d hde]
      · intro u
        rw [hw u]
        by_cases hue : u = e
        · subst hue
          simp [hnot, h, setThread_threads]
        · rw [hother u hue]
          simp [hue]
    · rw [lock_release_loop_keep h]
      obtain ⟨hk, hw⟩ := ih s (max m (s.threads e).priority) hrest
      constructor
      · simp only
        rw [hk, List.filter_cons_of_pos (by simp [h])]
      · intro u
        simp only
        rw [hw u]
        by_cases hue : u = e
        · subst hue
          simp [h]
        · simp [hue]

theorem lock_held_by_current_thread_eq {s : Kernel} {l : LockId}
    (hrun : (s.threads s.current).status = .THREAD_RUNNING)
    (hheld : (s.locks l).holder = some s.current) :
    lock_held_by_current_thread s l = some true := by
  simp [lock_held_by_current_thread, thread_current_eq hrun, hheld]

/-- `lock_release` by the running holder, outside an interrupt handler and with
every waiter of the lock blocked, finishes; the state before its `sema_up` is
`s1`, the final state `s2`. -/
theorem lock_release_total {s : Kernel} {l : LockId}
    (hrun : (s.threads s.current).status = .THREAD_RUNNING)
    (hheld : (s.locks l).holder = some s.current)
    (hctx : s.intr_context = false)
    (hblocked : ∀ w ∈ (s.locks l).sema.waiters, (s.threads w).status = .THREAD_BLOCKED) :
    ∃ s1 s2, lock_release_undonate s l = some s1 ∧ lock_release s l = some s2 ∧
      SchedFrame s1 s2 ∧
      (s1.threads s.current).donation_list =
        (lock_release_loop l (s.threads s.current).donation_list s
          (s.threads s.current).origin_priority).1 ∧
      (s1.threads s.current).priority =
        (lock_release_loop l (s.threads s.current).donation_list s
          (s.threads s.current).origin_priority).2.2 ∧
      (∀ u, (s1.threads u).wait_on_lock =
        ((lock_release_loop l (s.threads s.current).donation_list s
          (s.threads s.current).origin_priority).2.1.threads u).wait_on_lock) ∧
      (∀ u, u ≠ s.current → (s1.threads u).priority = (s.threads u).priority) ∧
      (∀ u, (s1.threads u).origin_priority = (s.threads u).origin_priority) := by
  obtain ⟨f, hf, hu, -⟩ := lock_release_loop_frame l (s.threads s.current).donation_list s
    (s.threads s.current).origin_priority
  rcases hloop : lock_release_loop l (s.threads s.current).donation_list s
    (s.threads s.current).origin_priority with ⟨kept, sl, m⟩
  rw [hloop] at hf
  simp only at hf
  have hund : lock_release_undonate s l =
      some (((sl.setThread s.current (fun t => { t with donation_list := kept })).setThread
        s.current (fun t => { t with priority := m })).setLock l
          (fun lk => { lk with holder := none })) := by
    unfold lock_release_undonate
    rw [lock_held_by_current_thread_eq hrun hheld]
    simp only [hloop]
  generalize hs1 : (((sl.setThread s.current (fun t => { t with donation_list := kept })).setThread
        s.current (fun t => { t with priority := m })).setLock l
          (fun lk => { lk with holder := none })) = s1 at hund
  have hthreads : ∀ u, s1.threads u =
      if u = s.current then { f u with donation_list := kept, priority := m } else f u := by
    intro u
    rw [← hs1, hf]
    by_cases hc : u = s.current
    · subst hc; simp [Kernel.setLock, setThread_threads]
    · simp [Kernel.setLock, setThread_threads, hc]
  have hfield : ∀ u, (f u).status = (s.threads u).status ∧
      (f u).priority = (s.threads u).priority ∧
      (f u).origin_priority = (s.threads u).origin_priority := by
    intro u
    have := hu u
    generalize f u = a at this ⊢
    generalize s.threads u = b at this ⊢
    cases a
    cases b
    simp_all
  have hstatus : ∀ u, (s1.threads u).status = (s.threads u).status := by
    intro u
    rw [hthreads u]
    split
    · exact (hfield u).1
    · exact (hfield u).1
  have hcur : s1.current = s.current := by rw [← hs1, hf]; rfl
  have hctx1 : s1.intr_context = false := by rw [← hs1, hf]; exact hctx
  have hwaiters : (s1.getSema (.ofLock l)).waiters = (s.locks l).sema.waiters := by
    rw [← hs1, hf]
    simp [Kernel.getSema, Kernel.setLock, Kernel.setThread]
  have hrun1 : (s1.threads s1.current).status = .THREAD_RUNNING := by
    rw [hcur, hstatus]; exact hrun
  have hblocked1 : ∀ w ∈ (s1.getSema (.ofLock l)).waiters,
      (s1.threads w).status = .THREAD_BLOCKED := by
    intro w hw
    rw [hwaiters] at hw
    rw [hstatus]
    exact hblocked w hw
  obtain ⟨s2, hup, hframe⟩ := sema_up_total_frame hrun1 hctx1 hblocked1
  refine ⟨s1, s2, hund, ?_, hframe, ?_, ?_, ?_, ?_, ?_⟩
  · unfold lock_release
    rw [hund]
    exact hup
  · rw [hthreads]; simp
  · rw [hthreads]; simp
  · intro u
    rw [hthreads u, hf]
    split <;> rfl
  · intro u hne
    rw [hthreads u, if_neg hne]
    exact (hfield u).2.1
  · intro u
    rw [hthreads u]
    split
    · exact (hfield u).2.2
    · exact (hfield u).2.2

/-- C2: when the running thread releases a lock it holds, its donation list loses
exactly the donors that wait for that lock, whose `wait_on_lock` is cleared; the
donors that wait for another lock stay, in their order, and every thread that
does not wait for the lock keeps its `wait_on_lock`. -/
theorem lock_release_removes_waiting_donors (s : Kernel) (l : LockId)
    (hrun : (s.threads s.current).status = .THREAD_RUNNING)
    (hheld : (s.locks l).holder = some s.current)
    (hctx : s.intr_context = false)
    (hblocked : ∀ w ∈ (s.locks l).sema.waiters, (s.threads w).status = .THREAD_BLOCKED)
    (hnodup : (s.threads s.current).donation_list.Nodup) :
    ∃ s2, lock_release s l = some s2 ∧
      (s2.threads s.current).donation_list =
        (s.threads s.current).donation_list.filter
          (fun d => decide ((s.threads d).wait_on_lock ≠ some l)) ∧
      (∀ d ∈ (s.threads s.current).donation_list,
        (s.threads d).wait_on_lock = some l → (s2.threads d).wait_on_lock = none) ∧
      (∀ d, (s.threads d).wait_on_lock ≠ some l →
        (s2.threads d).wait_on_lock = (s.threads d).wait_on_lock) := by
  obtain ⟨s1, s2, -, hrel, hframe, hdl, -, hwait, -, -⟩ :=
    lock_release_total hrun hheld hctx hblocked
  obtain ⟨hkept, hw⟩ := lock_release_loop_nodup l (s.threads s.current).donation_list s
    (s.threads s.current).origin_priority hnodup
  refine ⟨s2, hrel, ?_, ?_, ?_⟩
  · rw [hframe.donation_list, hdl, hkept]
  · intro d hd hwd
    rw [hframe.wait_on_lock, hwait, hw]
    simp [hd, hwd]
  · intro d hwd
    rw [hframe.wait_on_lock, hwait, hw]
    simp [hwd]

/-- C2 at work: in `release_state` Low releases lock 1, for which Med waits. -/
theorem lock_release_removes_waiting_donors_witness :
    (release_state.threads release_state.current).status = .THREAD_RUNNING ∧
    (release_state.locks 1).holder = some release_state.current ∧
    release_state.intr_context = false ∧
    (∀ w ∈ (release_state.locks 1).sema.waiters,
      (release_state.threads w).status = .THREAD_BLOCKED) ∧
    (release_state.threads release_state.current).donation_list.Nodup ∧
    ∃ s2, lock_release release_state 1 = some s2 ∧
      (s2.threads release_state.current).donation_list =
        (release_state.threads release_state.current).donation_list.filter
          (fun d => decide ((release_state.threads d).wait_on_lock ≠ some 1)) ∧
      (∀ d ∈ (release_state.threads release_state.current).donation_list,
        (release_state.threads d).wait_on_lock = some 1 → (s2.threads d).wait_on_lock = none) ∧
      (∀ d, (release_state.threads d).wait_on_lock ≠ some 1 →
        (s2.threads d).wait_on_lock = (release_state.threads d).wait_on_lock) :=
  ⟨by decide, by decide, by decide, by decide, by decide,
    lock_release_removes_waiting_donors release_state 1
      (by decide) (by decide) (by decide) (by decide) (by decide)⟩

/-- C3: when the running thread releases a lock it holds, its priority becomes the
highest of its base priority and the priorities of the donors that remain in
its donation list; with no donor left it is the base priority. -/
theorem lock_release_recomputes_priority (s : Kernel) (l : LockId)
    (hrun : (s.threads s.current).status = .THREAD_RUNNING)
    (hheld : (s.locks l).holder = some s.current)
    (hctx : s.intr_context = false)
    (hblocked : ∀ w ∈ (s.locks l).sema.waiters, (s.threads w).status = .THREAD_BLOCKED)
    (hself : s.current ∉ (s.threads s.current).donation_list) :
    ∃ s2, lock_release s l = some s2 ∧
      (s2.threads s.current).priority =
        max_priority_of s2 (s2.threads s.current).origin_priority
          (s2.threads s.current).donation_list ∧
      ((s2.threads s.current).donation_list = [] →
        (s2.threads s.current).priority = (s2.threads s.current).origin_priority) := by
  obtain ⟨s1, s2, -, hrel, hframe, hdl, hprio, -, hother, horigin⟩ :=
    lock_release_total hrun hheld hctx hblocked
  obtain ⟨f, -, -, hm⟩ := lock_release_loop_frame l (s.threads s.current).donation_list s
    (s.threads s.current).origin_priority
  have hsub : ∀ (ds : List Tid) (s0 : Kernel) (m : Int), ∀ d ∈ (lock_release_loop l ds s0 m).1,
      d ∈ ds := by
    intro ds
    induction ds with
    | nil => intro s0 m d hd; simp [lock_release_loop] at hd
    | cons e rest ih =>
      intro s0 m d hd
      by_cases h : (s0.threads e).wait_on_lock = some l
      · rw [lock_release_loop_remove h] at hd
        exact List.mem_cons_of_mem _ (ih _ _ d hd)
      · rw [lock_release_loop_keep h] at hd
        simp only [List.mem_cons] at hd ⊢
        rcases hd with rfl | hd
        · exact Or.inl rfl
        · exact Or.inr (ih _ _ d hd)
  have hmain : (s2.threads s.current).priority =
      max_priority_of s2 (s2.threads s.current).origin_priority
        (s2.threads s.current).donation_list := by
    rw [hframe.priority, hprio, hm, hframe.origin_priority, horigin, hframe.donation_list, hdl]
    unfold max_priority_of
    apply List.foldl_ext
    intro acc d hd
    have hne : d ≠ s.current := by
      intro hEq
      have hmem := hsub _ _ _ d hd
      rw [hEq] at hmem
      exact hself hmem
    rw [hframe.priority, hother d hne]
  refine ⟨s2, hrel, hmain, ?_⟩
  intro hnil
  rw [hmain, hnil]
  rfl

/-- C3 at work: in `release_state` Low releases lock 2, for which High waits. -/
theorem lock_release_recomputes_priority_witness :
    (release_state.threads release_state.current).status = .THREAD_RUNNING ∧
    (release_state.locks 2).holder = some release_state.current ∧
    release_state.intr_context = false ∧
    (∀ w ∈ (release_state.locks 2).sema.waiters,
      (release_state.threads w).status = .THREAD_BLOCKED) ∧
    release_state.current ∉ (release_state.threads release_state.current).donation_list ∧
    ∃ s2, lock_release release_state 2 = some s2 ∧
      (s2.threads release_state.current).priority =
        max_priority_of s2 (s2.threads release_state.current).origin_priority
          (s2.threads release_state.current).donation_list ∧
      ((s2.threads release_state.current).donation_list = [] →
        (s2.threads release_state.current).priority =
          (s2.threads release_state.current).origin_priority) :=
  ⟨by decide, by decide, by decide, by decide, by decide,
    lock_release_recomputes_priority release_state 2
      (by decide) (by decide) (by decide) (by decide) (by decide)⟩

/-! ### Who runs next -/

theorem schedule_switch_spec (s : Kernel) (next : Tid) :
    (schedule_switch s next).locks = s.locks ∧
    (schedule_switch s next).semas = s.semas ∧
    (schedule_switch s next).ready_list = s.ready_list ∧
    (schedule_switch s next).current = next ∧
    (schedule_switch s next).idle_thread = s.idle_thread ∧
    (schedule_switch s next).intr_context = s.intr_context ∧
    (schedule_switch s next).thread_ticks = 0 := by
  unfold schedule_switch
  simp only
  split
  · split <;> exact ⟨rfl, rfl, rfl, rfl, rfl, rfl, rfl⟩
  · next h =>
    have h2 : s.current = next := by
      by_contra hne
      exact h hne
    exact ⟨rfl, rfl, rfl, h2, rfl, rfl, rfl⟩

/-- What `schedule` does when it succeeds: the thread `next` at the front of the
ready list (the idle thread when the list is empty) is popped, marked running
and becomes the current thread. -/
theorem schedule_spec {s s2 : Kernel} (h : schedule s = some s2) :
    ∃ next, (s.ready_list.head? = some next ∨ (s.ready_list = [] ∧ s.idle_thread = some next)) ∧
      s2.threads = (s.setThread next (fun t => { t with status := .THREAD_RUNNING })).threads ∧
      s2.locks = s.locks ∧ s2.semas = s.semas ∧
      s2.ready_list = s.ready_list.tail ∧ s2.current = next ∧
      s2.idle_thread = s.idle_thread ∧ s2.intr_context = s.intr_context := by
  cases hr : s.ready_list with
  | nil =>
    rw [schedule_of_nil hr] at h
    split at h
    · simp at h
    · next i hi =>
      split at h
      · simp at h
      · simp only [Option.some.injEq] at h
        subst h
        obtain ⟨h1, h2, h3, h4, h5, h6, -⟩ := schedule_switch_spec s i
        exact ⟨i, Or.inr ⟨rfl, hi⟩, schedule_switch_threads s i, h1, h2, by rw [h3, hr]; rfl, h4,
          h5, h6⟩
  | cons t rest =>
    rw [schedule_of_cons hr] at h
    split at h
    · simp at h
    · simp only [Option.some.injEq] at h
      subst h
      obtain ⟨h1, h2, h3, h4, h5, h6, -⟩ := schedule_switch_spec { s with ready_list := rest } t
      exact ⟨t, Or.inl rfl, schedule_switch_threads _ t, h1, h2, by rw [h3]; rfl, h4, h5, h6⟩

theorem thread_current_some {s : Kernel} {c : Tid} (h : thread_current s = some c) :
    c = s.current ∧ (s.threads s.current).status = .THREAD_RUNNING := by
  unfold thread_current at h
  split at h
  · next hr => exact ⟨by simpa using h.symm, hr⟩
  · simp at h

theorem do_schedule_some {s s2 : Kernel} {st : thread_status} (h : do_schedule s st = some s2) :
    (s.threads s.current).status = .THREAD_RUNNING ∧
      schedule (({ s with destruction_req := [] } : Kernel).setThread s.current
        (fun t => { t with status := st })) = some s2 := by
  unfold do_schedule at h
  cases hc : thread_current s with
  | none => simp [hc] at h
  | some c =>
    obtain ⟨rfl, hrun⟩ := thread_current_some hc
    simp only [hc] at h
    exact ⟨hrun, h⟩

/-- After a successful `thread_yield` the semaphores are as before, a thread other
than the caller and outside the ready list has the status it had, and no
thread has become blocked. -/
theorem thread_yield_status {s s2 : Kernel} (h : thread_yield s = some s2) :
    (∀ r, s2.getSema r = s.getSema r) ∧
    (∀ x, x ≠ s.current → x ∉ s.ready_list → (s2.threads x).status = (s.threads x).status) ∧
    (∀ x, (s.threads x).status ≠ .THREAD_BLOCKED → (s2.threads x).status ≠ .THREAD_BLOCKED) := by
  unfold thread_yield at h
  split at h
  · simp at h
  · next curr hcur =>
    have hcurr : curr = s.current := by
      unfold thread_current at hcur
      split at hcur
      · simpa using hcur.symm
      · simp at hcur
    subst hcurr
    split at h
    · simp at h
    · -- the state handed to `do_schedule`
      generalize hs1 : (if some s.current ≠ s.idle_thread then
          ({ s with ready_list :=
              list_insert_ordered (compare_thread_priority s) s.current s.ready_list } : Kernel)
          else s) = s1 at h
      have hth1 : s1.threads = s.threads := by rw [← hs1]; split <;> rfl
      have hcur1 : s1.current = s.current := by rw [← hs1]; split <;> rfl
      have hlocks1 : s1.locks = s.locks := by rw [← hs1]; split <;> rfl
      have hsemas1 : s1.semas = s.semas := by rw [← hs1]; split <;> rfl
      have hidle1 : s1.idle_thread = s.idle_thread := by rw [← hs1]; split <;> rfl
      have hready1 : ∀ x, x ∈ s1.ready_list → x = s.current ∨ x ∈ s.ready_list := by
        intro x hx
        rw [← hs1] at hx
        split at hx
        · have := (list_insert_ordered_perm (compare_thread_priority s) s.current
            s.ready_list).subset hx
          simpa using this
        · exact Or.inr hx
      have hnil1 : s1.ready_list = [] → s.idle_thread = some s.current := by
        intro hnil
        rw [← hs1] at hnil
        split at hnil
        · exact absurd hnil (list_insert_ordered_ne_nil _ _ _)
        · next hc =>
          by_contra hne
          exact hc (fun hEq => hne hEq.symm)
      obtain ⟨-, h⟩ := do_schedule_some h
      rw [hcur1] at h
      obtain ⟨next, hnext, hth, hlocks, hsemas, -, -, -, -⟩ := schedule_spec h
      have hnext2 : next = s.current ∨ next ∈ s.ready_list := by
        rcases hnext with hhead | ⟨hnil, hidle⟩
        · apply hready1
          have : (s1.ready_list).head? = some next := hhead
          exact List.mem_of_mem_head? this
        · have h1 := hnil1 hnil
          have h2 : s.idle_thread = some next := by rw [← hidle1]; exact hidle
          rw [h1] at h2
          exact Or.inl (by simpa using h2.symm)
      have hstat : ∀ x, (s2.threads x).status =
          if x = next then .THREAD_RUNNING
          else if x = s.current then .THREAD_READY else (s.threads x).status := by
        intro x
        rw [hth]
        by_cases hxn : x = next
        · subst hxn; simp [setThread_threads]
        · by_cases hxc : x = s.current
          · subst hxc
            simp [setThread_threads, hxn]
          · simp only [setThread_threads, if_neg hxn, if_neg hxc]
            show (s1.threads x).status = _
            rw [hth1]
      refine ⟨?_, ?_, ?_⟩
      · intro r
        cases r with
        | standalone i =>
          show s2.semas i = s.semas i
          rw [hsemas]; show s1.semas i = _; rw [hsemas1]
        | ofLock l =>
          show (s2.locks l).sema = (s.locks l).sema
          rw [hlocks]; show (s1.locks l).sema = _; rw [hlocks1]
      · intro x hxc hxr
        rw [hstat x]
        have hxn : x ≠ next := by
          intro hEq
          rcases hnext2 with h1 | h1
          · exact hxc (hEq.trans h1)
          · exact hxr (hEq ▸ h1)
        simp [hxn, hxc]
      · intro x hx
        rw [hstat x]
        split
        · decide
        · split
          · decide
          · exact hx

/-! ### sema_up -/

/-- The front of a list sorted by `list_sort` with a "strictly higher" order is the
first element of the list among those of the highest rank. -/
theorem list_sort_head {α : Type} (less : α → α → Bool) (p : α → Int)
    (hless : ∀ a b, less a b = decide (p a > p b)) :
    ∀ (l : List α) (w : α) (rest : List α), list_sort less l = w :: rest →
      ∃ pre post, l = pre ++ w :: post ∧ (∀ x ∈ pre, p x < p w) ∧ (∀ x ∈ post, p x ≤ p w) ∧
        rest.Perm (pre ++ post) := by
  have key : ∀ (l : List α) (w : α) (rest : List α), list_sort less l = w :: rest →
      ∃ pre post, l = pre ++ w :: post ∧ (∀ x ∈ pre, p x < p w) ∧ (∀ x ∈ post, p x ≤ p w) := by
    intro l
    induction l with
    | nil => intro w rest h; simp [list_sort] at h
    | cons a l ih =>
      intro w rest h
      unfold list_sort at h
      cases hs : list_sort less l with
      | nil =>
        have hnil : l = [] := by
          have := list_sort_perm less l
          rw [hs] at this
          exact this.symm.eq_nil
        rw [hs] at h
        simp only [list_sort_place, List.cons.injEq] at h
        obtain ⟨rfl, -⟩ := h
        exact ⟨[], [], by simp [hnil], by simp, by simp⟩
      | cons h0 t =>
        obtain ⟨pre, post, hl, hpre, hpost⟩ := ih h0 t hs
        rw [hs] at h
        unfold list_sort_place at h
        by_cases hlt : less h0 a = true
        · rw [if_pos hlt] at h
          simp only [List.cons.injEq] at h
          obtain ⟨rfl, -⟩ := h
          have hgt : p h0 > p a := by
            rw [hless] at hlt
            exact of_decide_eq_true hlt
          refine ⟨a :: pre, post, by rw [hl]; rfl, ?_, hpost⟩
          intro x hx
          rcases List.mem_cons.mp hx with rfl | hx
          · exact hgt
          · exact hpre x hx
        · rw [if_neg hlt] at h
          simp only [List.cons.injEq] at h
          obtain ⟨rfl, -⟩ := h
          have hle : p h0 ≤ p a := by
            rw [hless] at hlt
            simpa using hlt
          refine ⟨[], l, rfl, by simp, ?_⟩
          intro x hx
          rw [hl] at hx
          rcases List.mem_append.mp hx with hx | hx
          · have := hpre x hx; omega
          · rcases List.mem_cons.mp hx with rfl | hx
            · exact hle
            · have := hpost x hx; omega
  intro l w rest h
  obtain ⟨pre, post, hl, hpre, hpost⟩ := key l w rest h
  refine ⟨pre, post, hl, hpre, hpost, ?_⟩
  have hperm := list_sort_perm less l
  rw [h, hl] at hperm
  have h2 : (pre ++ w :: post).Perm (w :: (pre ++ post)) := List.perm_middle
  exact (hperm.trans h2).cons_inv

theorem to_unsigned_succ {v : Nat} (h : v + 1 < 2 ^ 32) : to_unsigned ((v : Int) + 1) = v + 1 := by
  unfold to_unsigned
  have h1 : ((v : Int) + 1) % 2 ^ 32 = (v : Int) + 1 := by
    apply Int.emod_eq_of_lt
    · omega
    · have : ((v + 1 : Nat) : Int) < ((2 ^ 32 : Nat) : Int) := by exact_mod_cast h
      simpa using this
  rw [h1]
  omega

theorem compare_thread_priority_congr {s s2 : Kernel} (h : s2.threads = s.threads) :
    compare_thread_priority s2 = compare_thread_priority s := by
  funext a b
  simp [compare_thread_priority, h]

theorem thread_unblock_spec {s s2 : Kernel} {t : Tid} (h : thread_unblock s t = some s2) :
    s2.current = s.current ∧ s2.intr_context = s.intr_context ∧
    (∀ r, s2.getSema r = s.getSema r) ∧
    s2.ready_list = list_insert_ordered (compare_thread_priority s) t s.ready_list ∧
    (s2.threads t).status = .THREAD_READY ∧
    (∀ x, x ≠ t → (s2.threads x).status = (s.threads x).status) := by
  unfold thread_unblock at h
  split at h
  · simp at h
  · simp only [Option.some.injEq] at h
    subst h
    refine ⟨rfl, rfl, ?_, rfl, ?_, ?_⟩
    · intro r; cases r <;> rfl
    · simp [setThread_threads]
    · intro x hx
      simp [setThread_threads, hx]

/-- What `sema_up` does on a semaphore with waiters, all of them blocked, when the
caller runs outside an interrupt handler: `w` is the front of the sorted waiter
list and is made ready, the others stay in the list and stay blocked. -/
theorem sema_up_spec {s : Kernel} {r : SemaRef}
    (hrun : (s.threads s.current).status = .THREAD_RUNNING)
    (hctx : s.intr_context = false)
    (hblocked : ∀ w ∈ (s.getSema r).waiters, (s.threads w).status = .THREAD_BLOCKED)
    (hne : (s.getSema r).waiters ≠ [])
    (hnodup : (s.getSema r).waiters.Nodup)
    (hready : ∀ x ∈ s.ready_list, (s.threads x).status ≠ .THREAD_BLOCKED) :
    ∃ s2 w rest, sema_up s r = some s2 ∧
      list_sort (compare_thread_priority s) (s.getSema r).waiters = w :: rest ∧
      (s2.getSema r).value = to_unsigned ((s.getSema r).value + 1) ∧
      (s2.getSema r).waiters = rest ∧
      SchedFrame s s2 ∧
      (s2.threads w).status ≠ .THREAD_BLOCKED ∧
      (∀ x ∈ rest, (s2.threads x).status = .THREAD_BLOCKED) := by
  unfold sema_up
  simp only [getSema_setSema]
  rw [if_neg hne]
  generalize hs1 : s.setSema r (fun sm => { sm with value := to_unsigned (sm.value + 1) }) = s1
  have hth1 : s1.threads = s.threads := by rw [← hs1, setSema_threads]
  have hf1 : SchedFrame s s1 := by rw [← hs1]; exact setSema_frame s r _
  rw [compare_thread_priority_congr hth1]
  have hperm := list_sort_perm (compare_thread_priority s) (s.getSema r).waiters
  cases hsorted : list_sort (compare_thread_priority s) (s.getSema r).waiters with
  | nil =>
    rw [hsorted] at hperm
    exact absurd hperm.symm.eq_nil hne
  | cons t rest =>
    simp only
    rw [hsorted] at hperm
    have htmem : t ∈ (s.getSema r).waiters := hperm.subset (List.mem_cons_self _ _)
    have hrestmem : ∀ x ∈ rest, x ∈ (s.getSema r).waiters :=
      fun x hx => hperm.subset (List.mem_cons_of_mem _ hx)
    have hnd : (t :: rest).Nodup := hperm.symm.nodup_iff.mp hnodup
    have htrest : t ∉ rest := (List.nodup_cons.mp hnd).1
    generalize hs2 : s1.setSema r (fun sm => { sm with waiters := rest }) = s2
    have hth2 : s2.threads = s.threads := by rw [← hs2, setSema_threads, hth1]
    have hcur2 : s2.current = s.current := by
      rw [← hs2, setSema_current, ← hs1, setSema_current]
    have hctx2 : s2.intr_context = false := by
      rw [← hs2, setSema_intr_context, ← hs1, setSema_intr_context, hctx]
    have hready2 : s2.ready_list = s.ready_list := by
      rw [← hs2, ← hs1]; cases r <;> rfl
    have hsema2 : s2.getSema r =
        { value := to_unsigned ((s.getSema r).value + 1), waiters := rest } := by
      rw [← hs2, getSema_setSema, ← hs1, getSema_setSema]
    have hf2 : SchedFrame s s2 := by
      rw [← hs2]
      exact SchedFrame.trans hf1 (setSema_frame s1 r _)
    have hblk : (s2.threads t).status = .THREAD_BLOCKED := by
      rw [hth2]; exact hblocked t htmem
    obtain ⟨s3, hs3⟩ : ∃ s3, thread_unblock s2 t = some s3 := ⟨_, thread_unblock_eq hblk⟩
    have hf3 : SchedFrame s2 s3 := thread_unblock_frame hs3
    obtain ⟨hcur3, hctx3, hsema3, hready3, hst3, hother3⟩ := thread_unblock_spec hs3
    rw [hs3]
    simp only
    have hne_cur : t ≠ s.current := by
      intro hEq
      have := hblocked t htmem
      rw [hEq, hrun] at this
      exact absurd this (by decide)
    have hrun3 : (s3.threads s3.current).status = .THREAD_RUNNING := by
      rw [hcur3, hcur2, hother3 _ (Ne.symm hne_cur), hth2]
      exact hrun
    have hrest3 : ∀ x ∈ rest, (s3.threads x).status = .THREAD_BLOCKED := by
      intro x hx
      have hxt : x ≠ t := fun hEq => htrest (hEq ▸ hx)
      rw [hother3 x hxt, hth2]
      exact hblocked x (hrestmem x hx)
    rw [thread_current_eq hrun3]
    simp only
    split
    · obtain ⟨s4, h4, hf4⟩ := thread_yield_total_frame hrun3 (by rw [hctx3, hctx2])
      obtain ⟨hsema4, hstat4, hnb4⟩ := thread_yield_status h4
      refine ⟨s4, t, rest, h4, rfl, ?_, ?_, SchedFrame.trans hf2 (SchedFrame.trans hf3 hf4),
        ?_, ?_⟩
      · rw [hsema4, hsema3, hsema2]
      · rw [hsema4, hsema3, hsema2]
      · apply hnb4
        rw [hst3]
        decide
      · intro x hx
        have hxb : (s.threads x).status = .THREAD_BLOCKED := hblocked x (hrestmem x hx)
        have hxt : x ≠ t := fun hEq => htrest (hEq ▸ hx)
        have hxc : x ≠ s3.current := by
          rw [hcur3, hcur2]
          intro hEq
          rw [hEq, hrun] at hxb
          exact absurd hxb (by decide)
        have hxr : x ∉ s3.ready_list := by
          rw [hready3, hready2]
          intro hmem
          have := (list_insert_ordered_perm _ t s.ready_list).subset hmem
          rcases List.mem_cons.mp this with h1 | h1
          · exact hxt h1
          · exact hready x h1 hxb
        rw [hstat4 x hxc hxr]
        exact hrest3 x hx
    · refine ⟨s3, t, rest, rfl, rfl, ?_, ?_, SchedFrame.trans hf2 hf3, ?_, hrest3⟩
      · rw [hsema3, hsema2]
      · rw [hsema3, hsema2]
      · rw [hst3]
        decide

/-- The front of a list built by `list_insert_ordered` from the arrivals, with a
"strictly higher" order on ranks that do not change, is the earliest arrival
among those of the highest rank. -/
theorem insert_ordered_front_earliest {α : Type} (less : α → α → Bool) (p : α → Int)
    (hless : ∀ a b, less a b = decide (p a > p b)) :
    ∀ (arrivals : List α) (h : α) (t : List α),
      arrivals.foldl (fun ws x => list_insert_ordered less x ws) [] = h :: t →
      ∃ a b, arrivals = a ++ h :: b ∧ (∀ x ∈ a, p x < p h) ∧ (∀ x ∈ b, p x ≤ p h) := by
  intro arrivals
  induction arrivals using List.reverseRecOn with
  | nil => intro h t hf; simp at hf
  | append_singleton arr x ih =>
    intro h t hf
    rw [List.foldl_append] at hf
    simp only [List.foldl_cons, List.foldl_nil] at hf
    cases hacc : arr.foldl (fun ws x => list_insert_ordered less x ws) [] with
    | nil =>
      have hperm : ∀ (l : List α),
          (l.foldl (fun ws x => list_insert_ordered less x ws) []).length = l.length := by
        intro l
        induction l using List.reverseRecOn with
        | nil => rfl
        | append_singleton l y ihl =>
          rw [List.foldl_append]
          simp only [List.foldl_cons, List.foldl_nil]
          rw [(list_insert_ordered_perm less y _).length_eq]
          simp [ihl]
      have hlen := hperm arr
      rw [hacc] at hlen
      have harr : arr = [] := List.length_eq_zero.mp hlen.symm
      rw [hacc] at hf
      simp only [list_insert_ordered, List.cons.injEq] at hf
      obtain ⟨rfl, -⟩ := hf
      exact ⟨[], [], by simp [harr], by simp, by simp⟩
    | cons h0 t0 =>
      obtain ⟨a, b, harr, ha, hb⟩ := ih h0 t0 hacc
      rw [hacc] at hf
      unfold list_insert_ordered at hf
      by_cases hlt : less x h0 = true
      · rw [if_pos hlt] at hf
        simp only [List.cons.injEq] at hf
        obtain ⟨rfl, -⟩ := hf
        have hgt : p x > p h0 := by
          rw [hless] at hlt
          exact of_decide_eq_true hlt
        refine ⟨arr, [], rfl, ?_, by simp⟩
        intro y hy
        rw [harr] at hy
        rcases List.mem_append.mp hy with hy | hy
        · have := ha y hy; omega
        · rcases List.mem_cons.mp hy with rfl | hy
          · exact hgt
          · have := hb y hy; omega
      · rw [if_neg hlt] at hf
        simp only [List.cons.injEq] at hf
        obtain ⟨rfl, -⟩ := hf
        have hle : p x ≤ p h0 := by
          rw [hless] at hlt
          simpa using hlt
        refine ⟨a, b ++ [x], by rw [harr]; simp, ha, ?_⟩
        intro y hy
        rcases List.mem_append.mp hy with hy | hy
        · exact hb y hy
        · have : y = x := by simpa using hy
          rw [this]; exact hle

/-- C4, amended: on a semaphore with waiters `sema_up` increments the value by one
and unblocks exactly one waiter `w`; every waiter left in the list has at most
`w`'s priority, whatever the order of the list was, and among the waiters of the
highest priority `w` is the one nearest the front of the waiter list, which is
the earliest-inserted one when the priorities are those the waiters were
inserted with.  Waiters of priorities 10, 20, 30, 40, 50 are woken by five
ups in the order 50, 40, 30, 20, 10. -/
theorem sema_up_wakes_front_highest (s : Kernel) (r : SemaRef)
    (hrun : (s.threads s.current).status = .THREAD_RUNNING)
    (hctx : s.intr_context = false)
    (hblocked : ∀ w ∈ (s.getSema r).waiters, (s.threads w).status = .THREAD_BLOCKED)
    (hne : (s.getSema r).waiters ≠ [])
    (hnodup : (s.getSema r).waiters.Nodup)
    (hready : ∀ x ∈ s.ready_list, (s.threads x).status ≠ .THREAD_BLOCKED)
    (hval : (s.getSema r).value + 1 < 2 ^ 32) :
    (∃ s2 w pre post, sema_up s r = some s2 ∧
      (s2.getSema r).value = (s.getSema r).value + 1 ∧
      (s.getSema r).waiters = pre ++ w :: post ∧
      (s2.getSema r).waiters.Perm (pre ++ post) ∧
      (s2.threads w).status ≠ .THREAD_BLOCKED ∧
      (∀ x ∈ (s2.getSema r).waiters, (s2.threads x).status = .THREAD_BLOCKED) ∧
      (∀ x, (s2.threads x).priority = (s.threads x).priority) ∧
      (∀ x ∈ (s2.getSema r).waiters, (s.threads x).priority ≤ (s.threads w).priority) ∧
      (∀ x ∈ pre, (s.threads x).priority < (s.threads w).priority) ∧
      (∀ arrivals : List Tid,
        (s.getSema r).waiters =
          arrivals.foldl (fun ws t => list_insert_ordered (compare_thread_priority s) t ws) [] →
        ∃ a b, arrivals = a ++ w :: b ∧
          (∀ x ∈ a, (s.threads x).priority < (s.threads w).priority) ∧
          (∀ x ∈ b, (s.threads x).priority ≤ (s.threads w).priority))) ∧
    sema_up_wake_order 5 fairness_state (.standalone 0) = some [7, 6, 5, 4, 3] := by
  refine ⟨?_, by decide⟩
  obtain ⟨s2, w, rest, hup, hsorted, hvalue, hwaiters, hframe, hw, hrest⟩ :=
    sema_up_spec hrun hctx hblocked hne hnodup hready
  obtain ⟨pre, post, hl, hpre, hpost, hperm⟩ :=
    list_sort_head (compare_thread_priority s) (fun t => (s.threads t).priority)
      (fun _ _ => rfl) _ w rest hsorted
  refine ⟨s2, w, pre, post, hup, ?_, hl, ?_, hw, ?_, hframe.priority, ?_, hpre, ?_⟩
  · rw [hvalue, to_unsigned_succ hval]
  · rw [hwaiters]; exact hperm
  · rw [hwaiters]; exact hrest
  · intro x hx
    rw [hwaiters] at hx
    rcases List.mem_append.mp (hperm.subset hx) with h1 | h1
    · exact le_of_lt (hpre x h1)
    · exact hpost x h1
  · intro arrivals harr
    cases hfold : arrivals.foldl
        (fun ws t => list_insert_ordered (compare_thread_priority s) t ws) [] with
    | nil => rw [hfold] at harr; exact absurd harr hne
    | cons h t =>
      obtain ⟨a, b, hab, ha, hb⟩ :=
        insert_ordered_front_earliest (compare_thread_priority s)
          (fun t => (s.threads t).priority) (fun _ _ => rfl) arrivals h t hfold
      -- the front of the waiter list has the highest priority, so it is `w`
      have hhw : h = w := by
        rw [hfold] at harr
        cases pre with
        | nil =>
          rw [hl] at harr
          simp only [List.nil_append, List.cons.injEq] at harr
          exact harr.1.symm
        | cons p0 pre0 =>
          rw [hl] at harr
          simp only [List.cons_append, List.cons.injEq] at harr
          obtain ⟨rfl, ht⟩ := harr
          have h1 : (s.threads p0).priority < (s.threads w).priority :=
            hpre p0 (List.mem_cons_self _ _)
          have hwarr : w ∈ arrivals := by
            have hlen : ∀ (l : List Tid),
                (l.foldl (fun ws t => list_insert_ordered (compare_thread_priority s) t ws)
                  []).Perm l := by
              intro l
              induction l using List.reverseRecOn with
              | nil => exact List.Perm.refl _
              | append_singleton l y ihl =>
                rw [List.foldl_append]
                simp only [List.foldl_cons, List.foldl_nil]
                exact (list_insert_ordered_perm _ y _).trans
                  ((List.Perm.cons y ihl).trans (List.perm_append_singleton y l).symm)
            apply (hlen arrivals).subset
            rw [hfold, ← ht]
            simp
          rw [hab] at hwarr
          have h2 : (s.threads w).priority ≤ (s.threads p0).priority := by
            rcases List.mem_append.mp hwarr with h3 | h3
            · exact le_of_lt (ha w h3)
            · rcases List.mem_cons.mp h3 with h4 | h4
              · rw [h4]
              · exact hb w h4
          omega
      subst hhw
      exact ⟨a, b, hab, ha, hb⟩

/-- C4 at work: the first `sema_up` on semaphore 0 in `fairness_state`. -/
theorem sema_up_wakes_front_highest_witness :
    (fairness_state.threads fairness_state.current).status = .THREAD_RUNNING ∧
    fairness_state.intr_context = false ∧
    (∀ w ∈ (fairness_state.getSema (.standalone 0)).waiters,
      (fairness_state.threads w).status = .THREAD_BLOCKED) ∧
    (fairness_state.getSema (.standalone 0)).waiters ≠ [] ∧
    (fairness_state.getSema (.standalone 0)).waiters.Nodup ∧
    (∀ x ∈ fairness_state.ready_list, (fairness_state.threads x).status ≠ .THREAD_BLOCKED) ∧
    (fairness_state.getSema (.standalone 0)).value + 1 < 2 ^ 32 ∧
    (∃ s2 w pre post, sema_up fairness_state (.standalone 0) = some s2 ∧
      (s2.getSema (.standalone 0)).value = (fairness_state.getSema (.standalone 0)).value + 1 ∧
      (fairness_state.getSema (.standalone 0)).waiters = pre ++ w :: post ∧
      (s2.getSema (.standalone 0)).waiters.Perm (pre ++ post) ∧
      (s2.threads w).status ≠ .THREAD_BLOCKED ∧
      (∀ x ∈ (s2.getSema (.standalone 0)).waiters, (s2.threads x).status = .THREAD_BLOCKED) ∧
      (∀ x, (s2.threads x).priority = (fairness_state.threads x).priority) ∧
      (∀ x ∈ (s2.getSema (.standalone 0)).waiters,
        (fairness_state.threads x).priority ≤ (fairness_state.threads w).priority) ∧
      (∀ x ∈ pre, (fairness_state.threads x).priority < (fairness_state.threads w).priority) ∧
      (∀ arrivals : List Tid,
        (fairness_state.getSema (.standalone 0)).waiters =
          arrivals.foldl
            (fun ws t => list_insert_ordered (compare_thread_priority fairness_state) t ws) [] →
        ∃ a b, arrivals = a ++ w :: b ∧
          (∀ x ∈ a, (fairness_state.threads x).priority < (fairness_state.threads w).priority) ∧
          (∀ x ∈ b, (fairness_state.threads x).priority ≤ (fairness_state.threads w).priority))) ∧
    sema_up_wake_order 5 fairness_state (.standalone 0) = some [7, 6, 5, 4, 3] :=
  ⟨by decide, by decide, by decide, by decide, by decide, by decide, by decide,
    sema_up_wakes_front_highest fairness_state (.standalone 0)
      (by decide) (by decide) (by decide) (by decide) (by decide) (by decide) (by decide)⟩

/-- C4 as stated fails: A enters the waiter list of semaphore 0 with priority 10,
B enters after A with priority 20 (the list is B, A), then C's `lock_acquire`
donates priority 20 to A.  Both waiters now have the highest priority 20 and A
was inserted first, yet `sema_up` wakes B (handle 4) and leaves A (handle 3)
in the list. -/
theorem sema_up_tie_wakes_later_arrival :
    ∃ after_a after_b before_up after_up,
      tie_trace = some (after_a, after_b, before_up) ∧
      sema_up before_up (.standalone 0) = some after_up ∧
      (after_a.semas 0).waiters = [3] ∧
      (after_b.semas 0).waiters = [4, 3] ∧
      (before_up.semas 0).waiters = [4, 3] ∧
      (before_up.threads 3).priority = 20 ∧
      (before_up.threads 4).priority = 20 ∧
      woken before_up after_up (.standalone 0) = [4] ∧
      (after_up.semas 0).waiters = [3] := by
  refine ⟨_, _, _, _, rfl, rfl, ?_⟩
  decide

/-! ### thread_unblock -/

/-- Where `list_insert_ordered` puts a new element in a list sorted by descending
rank: after the elements of at least its rank and before those of less. -/
theorem list_insert_ordered_split {α : Type} (less : α → α → Bool) (p : α → Int)
    (hless : ∀ a b, less a b = decide (p a > p b)) (t : α) :
    ∀ (l : List α), l.Pairwise (fun a b => p a ≥ p b) →
      ∃ pre post, l = pre ++ post ∧ list_insert_ordered less t l = pre ++ t :: post ∧
        (∀ x ∈ pre, p x ≥ p t) ∧ (∀ x ∈ post, p x < p t) := by
  intro l
  induction l with
  | nil => intro _; exact ⟨[], [], rfl, rfl, by simp, by simp⟩
  | cons e rest ih =>
    intro hsorted
    have hrest := (List.pairwise_cons.mp hsorted).2
    have he := (List.pairwise_cons.mp hsorted).1
    unfold list_insert_ordered
    by_cases hlt : less t e = true
    · rw [if_pos hlt]
      have hgt : p t > p e := by
        rw [hless] at hlt
        exact of_decide_eq_true hlt
      refine ⟨[], e :: rest, rfl, rfl, by simp, ?_⟩
      intro x hx
      rcases List.mem_cons.mp hx with rfl | hx
      · exact hgt
      · have := he x hx; omega
    · rw [if_neg hlt]
      have hle : p t ≤ p e := by
        rw [hless] at hlt
        simpa using hlt
      obtain ⟨pre, post, hl, hins, hpre, hpost⟩ := ih hrest
      refine ⟨e :: pre, post, by rw [hl]; rfl, by rw [hins]; rfl, ?_, hpost⟩
      intro x hx
      rcases List.mem_cons.mp hx with rfl | hx
      · exact hle
      · exact hpre x hx

/-- C5: `thread_unblock` of a blocked thread `t`, with the ready list sorted by
descending priority, marks `t` ready and puts it into the list after every
thread of at least its priority and before every thread of less; the new list
is the old one with `t` added and is again sorted by descending priority; no
other thread changes status and no priority changes. -/
theorem thread_unblock_keeps_ready_list_sorted (s : Kernel) (t : Tid)
    (hblocked : (s.threads t).status = .THREAD_BLOCKED)
    (hsorted : s.ready_list.Pairwise
      (fun a b => (s.threads a).priority ≥ (s.threads b).priority)) :
    ∃ s2 pre post, thread_unblock s t = some s2 ∧
      (s2.threads t).status = .THREAD_READY ∧
      s.ready_list = pre ++ post ∧
      s2.ready_list = pre ++ t :: post ∧
      (∀ x ∈ pre, (s.threads x).priority ≥ (s.threads t).priority) ∧
      (∀ x ∈ post, (s.threads x).priority < (s.threads t).priority) ∧
      s2.ready_list.Pairwise (fun a b => (s2.threads a).priority ≥ (s2.threads b).priority) ∧
      (∀ x, x ≠ t → (s2.threads x).status = (s.threads x).status) ∧
      (∀ x, (s2.threads x).priority = (s.threads x).priority) := by
  obtain ⟨s2, hs2⟩ : ∃ s2, thread_unblock s t = some s2 := ⟨_, thread_unblock_eq hblocked⟩
  obtain ⟨-, -, -, hready, hst, hother⟩ := thread_unblock_spec hs2
  have hframe := thread_unblock_frame hs2
  obtain ⟨pre, post, hl, hins, hpre, hpost⟩ :=
    list_insert_ordered_split (compare_thread_priority s) (fun x => (s.threads x).priority)
      (fun _ _ => rfl) t s.ready_list hsorted
  refine ⟨s2, pre, post, hs2, hst, hl, by rw [hready, hins], hpre, hpost, ?_, hother,
    hframe.priority⟩
  rw [hready, hins]
  have hprio : (fun a b => (s2.threads a).priority ≥ (s2.threads b).priority) =
      (fun a b => (s.threads a).priority ≥ (s.threads b).priority) := by
    funext a b
    rw [hframe.priority, hframe.priority]
  rw [hprio]
  rw [hl] at hsorted
  obtain ⟨hp1, hp2, hp3⟩ := List.pairwise_append.mp hsorted
  apply List.pairwise_append.mpr
  refine ⟨hp1, ?_, ?_⟩
  · apply List.pairwise_cons.mpr
    refine ⟨?_, hp2⟩
    intro x hx
    have := hpost x hx
    omega
  · intro a ha b hb
    rcases List.mem_cons.mp hb with rfl | hb
    · exact hpre a ha
    · exact hp3 a ha b hb

/-- C5 at work: in `unblock_state` the blocked thread of priority 20 is unblocked. -/
theorem thread_unblock_keeps_ready_list_sorted_witness :
    (unblock_state.threads 7).status = .THREAD_BLOCKED ∧
    unblock_state.ready_list.Pairwise
      (fun a b => (unblock_state.threads a).priority ≥ (unblock_state.threads b).priority) ∧
    ∃ s2 pre post, thread_unblock unblock_state 7 = some s2 ∧
      (s2.threads 7).status = .THREAD_READY ∧
      unblock_state.ready_list = pre ++ post ∧
      s2.ready_list = pre ++ 7 :: post ∧
      (∀ x ∈ pre, (unblock_state.threads x).priority ≥ (unblock_state.threads 7).priority) ∧
      (∀ x ∈ post, (unblock_state.threads x).priority < (unblock_state.threads 7).priority) ∧
      s2.ready_list.Pairwise (fun a b => (s2.threads a).priority ≥ (s2.threads b).priority) ∧
      (∀ x, x ≠ 7 → (s2.threads x).status = (unblock_state.threads x).status) ∧
      (∀ x, (s2.threads x).priority = (unblock_state.threads x).priority) :=
  ⟨by decide, by decide,
    thread_unblock_keeps_ready_list_sorted unblock_state 7 (by decide) (by decide)⟩

/-! ### thread_set_priority -/

theorem max_priority_of_congr {s s2 : Kernel} (base : Int) (ds : List Tid)
    (h : ∀ d ∈ ds, (s2.threads d).priority = (s.threads d).priority) :
    max_priority_of s2 base ds = max_priority_of s base ds := by
  unfold max_priority_of
  apply List.foldl_ext
  intro acc d hd
  rw [h d hd]

/-- The loop of `thread_set_priority` writes the priority of the current thread
only, and leaves there the highest of its start value and the donors'
priorities. -/
theorem set_priority_loop_spec (cur : Tid) :
    ∀ (donors : List Tid) (s : Kernel), cur ∉ donors →
      ∃ f, set_priority_loop cur donors s = { s with threads := f } ∧
        (∀ u, u ≠ cur → f u = s.threads u) ∧
        f cur = { s.threads cur with
                  priority := max_priority_of s (s.threads cur).priority donors } := by
  intro donors
  induction donors with
  | nil =>
    intro s _
    exact ⟨s.threads, rfl, fun _ _ => rfl, rfl⟩
  | cons e rest ih =>
    intro s hnot
    have hne : e ≠ cur := fun h => hnot (h ▸ List.mem_cons_self _ _)
    have hrest : cur ∉ rest := fun h => hnot (List.mem_cons_of_mem _ h)
    unfold set_priority_loop
    simp only
    generalize hs1 : (if (s.threads e).priority > (s.threads cur).priority then
        s.setThread cur (fun t => { t with priority := (s.threads e).priority })
      else s) = s1
    have h1 : ∃ f1, s1 = { s with threads := f1 } ∧ (∀ u, u ≠ cur → f1 u = s.threads u) ∧
        f1 cur = { s.threads cur with
                   priority := max (s.threads cur).priority (s.threads e).priority } := by
      rw [← hs1]
      by_cases hgt : (s.threads e).priority > (s.threads cur).priority
      · rw [if_pos hgt]
        refine ⟨_, rfl, ?_, ?_⟩
        · intro u hu; simp [hu]
        · simp only [if_true]
          rw [max_eq_right (le_of_lt hgt)]
      · rw [if_neg hgt]
        refine ⟨s.threads, rfl, fun _ _ => rfl, ?_⟩
        rw [max_eq_left (by omega)]
    obtain ⟨f1, hf1, hother1, hcur1⟩ := h1
    obtain ⟨f, hf, hother, hcur⟩ := ih s1 hrest
    have hth1 : s1.threads = f1 := by rw [hf1]
    refine ⟨f, by rw [hf, hf1], ?_, ?_⟩
    · intro u hu
      rw [hother u hu, hth1, hother1 u hu]
    · rw [hcur, hth1, hcur1]
      simp only
      have hm : max_priority_of s1 (max (s.threads cur).priority (s.threads e).priority) rest =
          max_priority_of s (max (s.threads cur).priority (s.threads e).priority) rest := by
        apply max_priority_of_congr
        intro d hd
        have hdc : d ≠ cur := fun h => hrest (h ▸ hd)
        rw [hth1, hother1 d hdc]
      rw [hm]
      rfl

/-- C8: outside MLFQ mode `thread_set_priority` sets the running thread's base
priority to the new value and its priority to the highest of the new value and
its donors' priorities (the new value when it has no donors); in MLFQ mode it
changes nothing. -/
theorem thread_set_priority_base_and_effective (s : Kernel) (new_priority : Int) :
    (s.thread_mlfqs = true → thread_set_priority s new_priority = some s) ∧
    (s.thread_mlfqs = false →
      (s.threads s.current).status = .THREAD_RUNNING →
      s.current ∉ (s.threads s.current).donation_list →
      ∃ s2, thread_set_priority s new_priority = some s2 ∧
        (s2.threads s.current).origin_priority = new_priority ∧
        (s2.threads s.current).priority =
          max_priority_of s2 new_priority (s2.threads s.current).donation_list ∧
        ((s2.threads s.current).donation_list = [] →
          (s2.threads s.current).priority = new_priority)) := by
  constructor
  · intro hm
    simp [thread_set_priority, hm]
  · intro hm hrun hself
    unfold thread_set_priority
    rw [if_neg (by simp [hm]), thread_current_eq hrun]
    simp only
    generalize hsb : (s.setThread s.current (fun t => { t with origin_priority := new_priority })).setThread
      s.current (fun t => { t with priority := new_priority }) = sb
    have hsb_cur : sb.threads s.current =
        { s.threads s.current with origin_priority := new_priority, priority := new_priority } := by
      rw [← hsb]; simp [setThread_threads]
    have hsb_other : ∀ u, u ≠ s.current → sb.threads u = s.threads u := by
      intro u hu
      rw [← hsb]; simp [setThread_threads, hu]
    have hsb_current : sb.current = s.current := by rw [← hsb]; rfl
    obtain ⟨f, hf, hother, hcur⟩ :=
      set_priority_loop_spec s.current (s.threads s.current).donation_list sb hself
    generalize hs3 : set_priority_loop s.current (s.threads s.current).donation_list sb = s3
    rw [hs3] at hf
    have hs3_cur : s3.threads s.current =
        { s.threads s.current with
          origin_priority := new_priority
          priority := max_priority_of s new_priority (s.threads s.current).donation_list } := by
      rw [hf]
      show f s.current = _
      rw [hcur, hsb_cur]
      simp only
      have hmm : max_priority_of sb new_priority (s.threads s.current).donation_list =
          max_priority_of s new_priority (s.threads s.current).donation_list := by
        apply max_priority_of_congr
        intro d hd
        have hdc : d ≠ s.current := fun h => hself (h ▸ hd)
        rw [hsb_other d hdc]
      rw [hmm]
    have hs3_other : ∀ u, u ≠ s.current → s3.threads u = s.threads u := by
      intro u hu
      rw [hf]
      show f u = _
      rw [hother u hu, hsb_other u hu]
    have hs3_current : s3.current = s.current := by rw [hf]; exact hsb_current
    have hs3_idle : s3.idle_thread = s.idle_thread := by rw [hf, ← hsb]; rfl
    have hrun3 : (s3.threads s3.current).status = .THREAD_RUNNING := by
      rw [hs3_current, hs3_cur]; exact hrun
    -- what holds of `s3` holds of every state with the same donation data
    have hfinal : ∀ s2, SchedFrame s3 s2 →
        (s2.threads s.current).origin_priority = new_priority ∧
        (s2.threads s.current).priority =
          max_priority_of s2 new_priority (s2.threads s.current).donation_list ∧
        ((s2.threads s.current).donation_list = [] →
          (s2.threads s.current).priority = new_priority) := by
      intro s2 hframe
      have hdl : (s2.threads s.current).donation_list = (s.threads s.current).donation_list := by
        rw [hframe.donation_list, hs3_cur]
      have hp : (s2.threads s.current).priority =
          max_priority_of s2 new_priority (s2.threads s.current).donation_list := by
        rw [hframe.priority, hs3_cur, hdl]
        simp only
        symm
        apply max_priority_of_congr
        intro d hd
        have hdc : d ≠ s.current := fun h => hself (h ▸ hd)
        rw [hframe.priority, hs3_other d hdc]
      refine ⟨by rw [hframe.origin_priority, hs3_cur], hp, ?_⟩
      intro hnil
      rw [hp, hnil]
      rfl
    split
    · by_cases hidle : some s.current ≠ s3.idle_thread
      · rw [if_pos hidle]
        obtain ⟨s2, h2, hframe⟩ := do_schedule_total_frame
          { s3 with ready_list :=
              list_insert_ordered (compare_thread_priority s3) s.current s3.ready_list }
          .THREAD_READY hrun3 (by decide) (Or.inl (list_insert_ordered_ne_nil _ _ _))
        exact ⟨s2, h2, hfinal s2 hframe⟩
      · rw [if_neg hidle]
        have hi : s3.idle_thread ≠ none := by
          intro h
          apply hidle
          rw [h]
          simp
        obtain ⟨s2, h2, hframe⟩ := do_schedule_total_frame s3 .THREAD_READY hrun3 (by decide)
          (Or.inr hi)
        exact ⟨s2, h2, hfinal s2 hframe⟩
    · exact ⟨s3, rfl, hfinal s3 (SchedFrame.refl s3)⟩

/-- C8 at work: Low sets its priority to 25 in `release_state`, where High and Med
are its donors, and in `mlfqs_state`. -/
theorem thread_set_priority_base_and_effective_witness :
    (release_state.thread_mlfqs = false ∧
      (release_state.threads release_state.current).status = .THREAD_RUNNING ∧
      release_state.current ∉ (release_state.threads release_state.current).donation_list ∧
      ∃ s2, thread_set_priority release_state 25 = some s2 ∧
        (s2.threads release_state.current).origin_priority = 25 ∧
        (s2.threads release_state.current).priority =
          max_priority_of s2 25 (s2.threads release_state.current).donation_list ∧
        ((s2.threads release_state.current).donation_list = [] →
          (s2.threads release_state.current).priority = 25)) ∧
    (mlfqs_state.thread_mlfqs = true ∧ thread_set_priority mlfqs_state 25 = some mlfqs_state) :=
  ⟨⟨by decide, by decide, by decide,
      (thread_set_priority_base_and_effective release_state 25).2
        (by decide) (by decide) (by decide)⟩,
    ⟨by decide, (thread_set_priority_base_and_effective mlfqs_state 25).1 (by decide)⟩⟩

/-! ### Where the code departs from the specification -/

/-- C6, failing run: after the operations of `inversion_trace` the ready list holds
Med (priority 20) in front of Low, whose priority the donation of `main` has
raised to 31 without moving it in the list; when `main` blocks, the scheduler
pops Med although Low, which stays in the ready list, has more priority. -/
theorem next_thread_to_run_pops_lower_priority :
    ∃ before after, inversion_trace = some (before, after) ∧
      before.current = 1 ∧ before.ready_list = [4, 3] ∧
      (before.threads 4).priority = 20 ∧ (before.threads 3).priority = 10 ∧
      after.current = 4 ∧ (after.threads 4).status = .THREAD_RUNNING ∧
      after.ready_list = [3] ∧ (after.threads 3).status = .THREAD_READY ∧
      (after.threads 4).priority = 20 ∧ (after.threads 3).priority = 31 := by
  refine ⟨_, _, rfl, ?_⟩
  decide

/-- C7, failing inputs: `main` (priority 31) creates a thread of its own priority
31 and loses the CPU to it; and with a thread of priority 31 in the ready
list, `main` creates a thread of priority 10 and yields to the ready one. -/
theorem thread_create_yields_to_equal_priority :
    (∃ s2, thread_create 8 booted (some 3) 31 = some s2 ∧
      (booted.threads booted.current).priority = 31 ∧ booted.current = 1 ∧
      (s2.threads 3).priority = 31 ∧
      s2.current = 3 ∧ (s2.threads 1).status = .THREAD_READY ∧ s2.ready_list = [1]) ∧
    (∃ s2, thread_create 8 peer_state (some 4) 10 = some s2 ∧
      (peer_state.threads peer_state.current).priority = 31 ∧ peer_state.current = 1 ∧
      (s2.threads 4).priority = 10 ∧
      s2.current = 3 ∧ (s2.threads 1).status = .THREAD_READY ∧ s2.ready_list = [1, 4]) := by
  refine ⟨⟨_, rfl, ?_⟩, ⟨_, rfl, ?_⟩⟩
  · decide
  · decide

/-- C9, failing input: with an empty ready list `thread_set_priority` compares the
new priority with the word found through the list's tail sentinel.  When that
word is 50, setting priority 20 goes through the scheduler (the time slice
restarts); when it is 0, the same call does not. -/
theorem thread_set_priority_reads_past_empty_ready_list :
    stray_state.ready_list = [] ∧ calm_state.ready_list = [] ∧
    stray_state.thread_ticks = 3 ∧ calm_state.thread_ticks = 3 ∧
    (∃ s2, thread_set_priority stray_state 20 = some s2 ∧ s2.thread_ticks = 0 ∧
      s2.current = 1 ∧ (s2.threads 1).priority = 20) ∧
    (∃ s2, thread_set_priority calm_state 20 = some s2 ∧ s2.thread_ticks = 3 ∧
      s2.current = 1 ∧ (s2.threads 1).priority = 20) := by
  refine ⟨rfl, rfl, rfl, rfl, ⟨_, rfl, ?_⟩, ⟨_, rfl, ?_⟩⟩
  · decide
  · decide

/-- C10, failing input: at tick 0 `timer_sleep 10` returns at once, the caller
still running and the sleep list empty; at tick 100 the same call blocks the
caller with wake-up tick 110. -/
theorem timer_sleep_at_tick_zero_does_not_sleep :
    (tick_zero_state.ticks = 0 ∧
      ∃ s2, timer_sleep tick_zero_state 10 = some s2 ∧
        s2.current = 1 ∧ (s2.threads 1).status = .THREAD_RUNNING ∧ s2.sleep_list = []) ∧
    (booted.ticks = 100 ∧
      ∃ s2, timer_sleep booted 10 = some s2 ∧
        (s2.threads 1).status = .THREAD_BLOCKED ∧ (s2.threads 1).awake_tick = 110 ∧
        s2.sleep_list = [1]) := by
  refine ⟨⟨rfl, _, rfl, ?_⟩, ⟨rfl, _, rfl, ?_⟩⟩
  · decide
  · decide

/-- With an empty ready list `next_thread_to_run` gives the idle thread and leaves
the state as it is. -/
theorem next_thread_to_run_of_empty (s : Kernel) (h : s.ready_list = []) :
    next_thread_to_run s = (s.idle_thread, s) := by
  unfold next_thread_to_run
  rw [h]

/-- With a non-empty ready list `next_thread_to_run` pops the front, whatever the
priorities of the threads behind it. -/
theorem next_thread_to_run_of_cons (s : Kernel) (t : Tid) (rest : List Tid)
    (h : s.ready_list = t :: rest) :
    next_thread_to_run s = (some t, { s with ready_list := rest }) := by
  unfold next_thread_to_run
  rw [h]

/-- At tick 0 `timer_sleep` returns without any effect, whatever the argument. -/
theorem timer_sleep_of_tick_zero (s : Kernel) (ticks_much : Int) (h : s.ticks = 0) :
    timer_sleep s ticks_much = some s := by
  unfold timer_sleep timer_elapsed timer_ticks to_int64
  rw [h]
  rfl

/-- The donation scenario of the specification: when High (priority 40) asks for
L2, held by Med, which waits for L1, held by Low, the walk raises Med and Low
to priority 40. -/
theorem donation_chain_scenario :
    ∃ s2, lock_acquire_donate 3 chain_state 2 = .done s2 ∧
      (s2.threads 4).priority = 40 ∧ (s2.threads 3).priority = 40 ∧
      (s2.threads 5).wait_on_lock = some 2 ∧ (s2.threads 4).donation_list = [5] := by
  refine ⟨_, rfl, ?_⟩
  decide

/-! ### thread_awake -/

theorem thread_unblock_sleep_list {s s2 : Kernel} {t : Tid} (h : thread_unblock s t = some s2) :
    s2.sleep_list = s.sleep_list ∧ s2.threads t = { s.threads t with status := .THREAD_READY } ∧
      (∀ x, x ≠ t → s2.threads x = s.threads x) := by
  unfold thread_unblock at h
  split at h
  · simp at h
  · simp only [Option.some.injEq] at h
    subst h
    refine ⟨rfl, by simp [setThread_threads], ?_⟩
    intro x hx
    simp [setThread_threads, hx]

/-- The loop of `thread_awake` on a sleep list without repetition whose threads are
blocked: it keeps the entries that are not due, in their order, makes the due
ones ready and touches no other thread. -/
theorem thread_awake_loop_spec (now : Int) :
    ∀ (ds : List Tid) (s : Kernel), ds.Nodup →
      (∀ t ∈ ds, (s.threads t).status = .THREAD_BLOCKED) →
      ∃ s2, thread_awake_loop now ds s =
          some (ds.filter (fun t => decide ((s.threads t).awake_tick > now)), s2) ∧
        (∀ t ∈ ds, (s.threads t).awake_tick ≤ now →
          s2.threads t = { s.threads t with status := .THREAD_READY }) ∧
        (∀ t, ¬ (t ∈ ds ∧ (s.threads t).awake_tick ≤ now) → s2.threads t = s.threads t) ∧
        (∀ t, t ∈ s2.ready_list ↔
          (t ∈ s.ready_list ∨ (t ∈ ds ∧ (s.threads t).awake_tick ≤ now))) ∧
        s2.sleep_list = s.sleep_list := by
  intro ds
  induction ds with
  | nil =>
    intro s _ _
    exact ⟨s, rfl, by simp, by simp, by simp, rfl⟩
  | cons e rest ih =>
    intro s hnd hblk
    have hnot : e ∉ rest := (List.nodup_cons.mp hnd).1
    have hrest : rest.Nodup := (List.nodup_cons.mp hnd).2
    unfold thread_awake_loop
    by_cases hdue : (s.threads e).awake_tick ≤ now
    · rw [if_pos hdue]
      have heb : (s.threads e).status = .THREAD_BLOCKED := hblk e (List.mem_cons_self _ _)
      obtain ⟨s1, hs1⟩ : ∃ s1, thread_unblock s e = some s1 := ⟨_, thread_unblock_eq heb⟩
      obtain ⟨hsl, he1, hother1⟩ := thread_unblock_sleep_list hs1
      obtain ⟨-, -, -, hready1, -, -⟩ := thread_unblock_spec hs1
      rw [hs1]
      simp only
      have hblk1 : ∀ t ∈ rest, (s1.threads t).status = .THREAD_BLOCKED := by
        intro t ht
        have hte : t ≠ e := fun hEq => hnot (hEq ▸ ht)
        rw [hother1 t hte]
        exact hblk t (List.mem_cons_of_mem _ ht)
      obtain ⟨s2, hloop, hdue2, hsame2, hready2, hsl2⟩ := ih s1 hrest hblk1
      have hfilter : rest.filter (fun t => decide ((s1.threads t).awake_tick > now)) =
          (e :: rest).filter (fun t => decide ((s.threads t).awake_tick > now)) := by
        rw [List.filter_cons_of_neg (by simp; omega)]
        apply List.filter_congr
        intro t ht
        have hte : t ≠ e := fun hEq => hnot (hEq ▸ ht)
        rw [hother1 t hte]
      rw [hfilter] at hloop
      refine ⟨s2, hloop, ?_, ?_, ?_, by rw [hsl2, hsl]⟩
      · intro t ht hd
        rcases List.mem_cons.mp ht with rfl | ht
        · rw [hsame2 t (fun hc => hnot hc.1), he1]
        · have hte : t ≠ e := fun hEq => hnot (hEq ▸ ht)
          have := hdue2 t ht (by rw [hother1 t hte]; exact hd)
          rw [this, hother1 t hte]
      · intro t ht
        have hte : t ≠ e := by
          intro hEq
          apply ht
          rw [hEq]
          exact ⟨List.mem_cons_self _ _, hdue⟩
        rw [hsame2 t, hother1 t hte]
        intro hc
        apply ht
        exact ⟨List.mem_cons_of_mem _ hc.1, by rw [← hother1 t hte]; exact hc.2⟩
      · intro t
        rw [hready2 t, hready1]
        have hperm := list_insert_ordered_perm (compare_thread_priority s) e s.ready_list
        rw [hperm.mem_iff]
        by_cases hte : t = e
        · subst hte
          simp [hdue]
        · rw [hother1 t hte]
          simp [hte]
    · rw [if_neg hdue]
      have hblk1 : ∀ t ∈ rest, (s.threads t).status = .THREAD_BLOCKED :=
        fun t ht => hblk t (List.mem_cons_of_mem _ ht)
      obtain ⟨s2, hloop, hdue2, hsame2, hready2, hsl2⟩ := ih s hrest hblk1
      rw [hloop]
      simp only
      refine ⟨s2, ?_, ?_, ?_, ?_, hsl2⟩
      · rw [List.filter_cons_of_pos (by simp; omega)]
      · intro t ht hd
        rcases List.mem_cons.mp ht with rfl | ht
        · exact absurd hd hdue
        · exact hdue2 t ht hd
      · intro t ht
        apply hsame2 t
        intro hc
        exact ht ⟨List.mem_cons_of_mem _ hc.1, hc.2⟩
      · intro t
        rw [hready2 t]
        constructor
        · rintro (h1 | ⟨h1, h2⟩)
          · exact Or.inl h1
          · exact Or.inr ⟨List.mem_cons_of_mem _ h1, h2⟩
        · rintro (h1 | ⟨h1, h2⟩)
          · exact Or.inl h1
          · rcases List.mem_cons.mp h1 with rfl | h1
            · exact absurd h2 hdue
            · exact Or.inr ⟨h1, h2⟩

/-- C11: `thread_awake` takes out of the sleep list and makes ready exactly the
threads whose wake-up tick is at most `now`; the threads with a later wake-up
tick stay in the list, in their order, and stay blocked; no other thread is
touched.  Three threads that call `timer_sleep` with 10, 30 and 20 at tick 100
are woken by the timer interrupts at ticks 110, 120 and 130. -/
theorem thread_awake_wakes_due_threads (s : Kernel) (now : Int)
    (hnodup : s.sleep_list.Nodup)
    (hblocked : ∀ t ∈ s.sleep_list, (s.threads t).status = .THREAD_BLOCKED) :
    (∃ s2, thread_awake s now = some s2 ∧
      s2.sleep_list = s.sleep_list.filter (fun t => decide ((s.threads t).awake_tick > now)) ∧
      (∀ t ∈ s.sleep_list, (s.threads t).awake_tick ≤ now →
        (s2.threads t).status = .THREAD_READY ∧ t ∈ s2.ready_list) ∧
      (∀ t ∈ s.sleep_list, (s.threads t).awake_tick > now →
        (s2.threads t).status = .THREAD_BLOCKED ∧ (t ∈ s2.ready_list ↔ t ∈ s.ready_list)) ∧
      (∀ t, t ∉ s.sleep_list →
        s2.threads t = s.threads t ∧ (t ∈ s2.ready_list ↔ t ∈ s.ready_list))) ∧
    sleep_scenario = some [(110, [3]), (120, [5]), (130, [4])] := by
  refine ⟨?_, by decide⟩
  unfold thread_awake
  by_cases hempty : s.sleep_list = []
  · rw [if_pos hempty]
    refine ⟨s, rfl, by rw [hempty]; rfl, ?_, ?_, ?_⟩
    · intro t ht; rw [hempty] at ht; simp at ht
    · intro t ht; rw [hempty] at ht; simp at ht
    · intro t _; exact ⟨rfl, Iff.rfl⟩
  · rw [if_neg hempty]
    obtain ⟨s2, hloop, hdue, hsame, hready, -⟩ :=
      thread_awake_loop_spec now s.sleep_list s hnodup hblocked
    rw [hloop]
    simp only
    refine ⟨_, rfl, rfl, ?_, ?_, ?_⟩
    · intro t ht hd
      refine ⟨?_, ?_⟩
      · show (s2.threads t).status = _
        rw [hdue t ht hd]
      · show t ∈ s2.ready_list
        rw [hready t]
        exact Or.inr ⟨ht, hd⟩
    · intro t ht hd
      have hnd : ¬ (t ∈ s.sleep_list ∧ (s.threads t).awake_tick ≤ now) := by
        intro hc
        omega
      refine ⟨?_, ?_⟩
      · show (s2.threads t).status = _
        rw [hsame t hnd]
        exact hblocked t ht
      · show t ∈ s2.ready_list ↔ _
        rw [hready t]
        simp [hnd]
    · intro t ht
      have hnd : ¬ (t ∈ s.sleep_list ∧ (s.threads t).awake_tick ≤ now) := fun hc => ht hc.1
      refine ⟨?_, ?_⟩
      · show s2.threads t = _
        exact hsame t hnd
      · show t ∈ s2.ready_list ↔ _
        rw [hready t]
        simp [hnd]

/-- C11 at work: `thread_awake` at tick 120 in `sleeping_state`. -/
theorem thread_awake_wakes_due_threads_witness :
    sleeping_state.sleep_list.Nodup ∧
    (∀ t ∈ sleeping_state.sleep_list, (sleeping_state.threads t).status = .THREAD_BLOCKED) ∧
    (∃ s2, thread_awake sleeping_state 120 = some s2 ∧
      s2.sleep_list = sleeping_state.sleep_list.filter
        (fun t => decide ((sleeping_state.threads t).awake_tick > 120)) ∧
      (∀ t ∈ sleeping_state.sleep_list, (sleeping_state.threads t).awake_tick ≤ 120 →
        (s2.threads t).status = .THREAD_READY ∧ t ∈ s2.ready_list) ∧
      (∀ t ∈ sleeping_state.sleep_list, (sleeping_state.threads t).awake_tick > 120 →
        (s2.threads t).status = .THREAD_BLOCKED ∧
          (t ∈ s2.ready_list ↔ t ∈ sleeping_state.ready_list)) ∧
      (∀ t, t ∉ sleeping_state.sleep_list →
        s2.threads t = sleeping_state.threads t ∧
          (t ∈ s2.ready_list ↔ t ∈ sleeping_state.ready_list))) ∧
    sleep_scenario = some [(110, [3]), (120, [5]), (130, [4])] :=
  ⟨by decide, by decide,
    thread_awake_wakes_due_threads sleeping_state 120 (by decide) (by decide)⟩

/-! ### Fixed point -/

theorem to_int32_eq {n : Int} (h1 : -2147483648 ≤ n) (h2 : n < 2147483648) : to_int32 n = n := by
  unfold to_int32
  norm_num
  omega

theorem tdiv_fractional_of_nonneg {a : Int} (h : 0 ≤ a) : Int.tdiv a 16384 = a / 16384 :=
  Int.tdiv_eq_ediv h (by norm_num)

theorem tdiv_fractional_of_nonpos {a : Int} (h : a ≤ 0) :
    Int.tdiv a 16384 = -((-a) / 16384) := by
  have h1 := Int.neg_tdiv (-a) 16384
  rw [neg_neg] at h1
  rw [h1, Int.tdiv_eq_ediv (by omega) (by norm_num)]

theorem fractional_eq : FRACTIONAL = 16384 := by
  unfold FRACTIONAL
  norm_num

theorem half_fractional_eq : Int.tdiv FRACTIONAL 2 = 8192 := by
  rw [fractional_eq]
  decide

/-- `fp_to_int_round` without the 32-bit wrap, for arguments that leave room for
the added half. -/
theorem fp_to_int_round_eq (fp : Int) (h1 : -2147483648 ≤ fp - 8192)
    (h2 : fp + 8192 < 2147483648) :
    fp_to_int_round fp =
      if fp > 0 then (fp + 8192) / 16384 else -((8192 - fp) / 16384) := by
  unfold fp_to_int_round
  rw [half_fractional_eq, fractional_eq]
  split
  · have e1 : to_int32 (fp + 8192) = fp + 8192 := to_int32_eq (by omega) (by omega)
    rw [e1, tdiv_fractional_of_nonneg (by omega)]
    exact to_int32_eq (by omega) (by omega)
  · have e1 : to_int32 (fp - 8192) = fp - 8192 := to_int32_eq (by omega) (by omega)
    have e2 : -(fp - 8192) = 8192 - fp := by ring
    rw [e1, tdiv_fractional_of_nonpos (by omega), e2]
    exact to_int32_eq (by omega) (by omega)

/-- C14: for a fixed-point value `fp` such that `|fp| + 2^13` fits in 32 bits,
`fp_to_int_round fp` is the integer nearest to `fp / 2^14`, a tie going away
from zero; and on `int_to_fp n` with `|n| < 2^17` both `fp_to_int_round` and
`fp_to_int` give `n` back. -/
theorem fp_to_int_round_nearest (fp : Int) (h : |fp| + 2 ^ 13 < 2 ^ 31) :
    |fp_to_int_round fp * 2 ^ 14 - fp| ≤ 2 ^ 13 ∧
    (0 < fp → -(2 ^ 13) < fp_to_int_round fp * 2 ^ 14 - fp) ∧
    (fp < 0 → fp_to_int_round fp * 2 ^ 14 - fp < 2 ^ 13) ∧
    (∀ n : Int, |n| < 2 ^ 17 →
      fp_to_int_round (int_to_fp n) = n ∧ fp_to_int (int_to_fp n) = n) := by
  have ha1 := le_abs_self fp
  have ha2 := neg_abs_le fp
  norm_num at h ⊢
  have hr := fp_to_int_round_eq fp (by omega) (by omega)
  refine ⟨?_, ?_, ?_, ?_⟩
  · rw [hr, abs_le]
    split <;> constructor <;> omega
  · intro hpos
    rw [hr, if_pos hpos]
    omega
  · intro hneg
    rw [hr, if_neg (by omega)]
    omega
  · intro n hn
    have hn1 := le_abs_self n
    have hn2 := neg_abs_le n
    have hfp : int_to_fp n = n * 16384 := by
      unfold int_to_fp
      rw [fractional_eq, to_int32_eq (by omega) (by omega)]
    constructor
    · rw [hfp, fp_to_int_round_eq (n * 16384) (by omega) (by omega)]
      split <;> omega
    · rw [hfp]
      unfold fp_to_int
      rw [fractional_eq]
      by_cases hpos : 0 ≤ n
      · rw [tdiv_fractional_of_nonneg (by omega), to_int32_eq (by omega) (by omega)]
        omega
      · rw [tdiv_fractional_of_nonpos (by omega), to_int32_eq (by omega) (by omega)]
        omega

/-- C14 at work: 1.5 is rounded to 2 and -1.5 to -2. -/
theorem fp_to_int_round_nearest_witness :
    (|(24576 : Int)| + 2 ^ 13 < 2 ^ 31 ∧
      |fp_to_int_round 24576 * 2 ^ 14 - 24576| ≤ 2 ^ 13 ∧
      (0 < (24576 : Int) → -(2 ^ 13) < fp_to_int_round 24576 * 2 ^ 14 - 24576) ∧
      ((24576 : Int) < 0 → fp_to_int_round 24576 * 2 ^ 14 - 24576 < 2 ^ 13) ∧
      (∀ n : Int, |n| < 2 ^ 17 →
        fp_to_int_round (int_to_fp n) = n ∧ fp_to_int (int_to_fp n) = n)) ∧
    fp_to_int_round 24576 = 2 ∧ fp_to_int_round (-24576) = -2 :=
  ⟨⟨by decide, fp_to_int_round_nearest 24576 (by decide)⟩, by decide, by decide⟩

/-! ### MLFQ priority -/

/-- C13: `priority_cal` does not clamp.  A thread of `nice` -20 that has used no
CPU gets priority 103, above `PRI_MAX`; a thread of `nice` 20 with
`recent_cpu` 100 gets -2, below `PRI_MIN`; `recalculate_priority` stores both
values in the threads' records, outside the range that `init_thread` asserts. -/
theorem priority_cal_leaves_priority_range :
    priority_cal 0 (-20) = 103 ∧ PRI_MAX < priority_cal 0 (-20) ∧
    priority_cal (int_to_fp 100) 20 = -2 ∧ priority_cal (int_to_fp 100) 20 < PRI_MIN ∧
    (nice_state.threads 3).nice = -20 ∧ (nice_state.threads 4).nice = 20 ∧
    ((recalculate_priority nice_state).threads 3).priority = 103 ∧
    ((recalculate_priority nice_state).threads 4).priority = -2 ∧
    init_thread nice_state 5 103 = none ∧ init_thread nice_state 5 (-2) = none := by
  refine ⟨by decide, by decide, by decide, by decide, by decide, by decide, by decide,
    by decide, rfl, rfl⟩

/-! ### sema_up in an interrupt handler -/

/-- C16: in `intr_state` an interrupt handler ups semaphore 0 while `main`
(priority 31) is the interrupted thread and the waiter of most priority has
priority 50: `sema_up` unblocks the waiter and calls `thread_yield`, whose
assertion `!intr_context ()` fails.  With a waiter of less priority than the
interrupted thread (`intr_low_state`) the same call returns. -/
theorem sema_up_in_interrupt_context_asserts :
    intr_state.intr_context = true ∧
    (intr_state.semas 0).waiters = [7, 6, 5, 4, 3] ∧
    (intr_state.threads 7).priority = 50 ∧
    (intr_state.threads intr_state.current).priority = 31 ∧
    sema_up intr_state (.standalone 0) = none ∧
    (∃ s3, thread_unblock (intr_state.setSema (.standalone 0) (fun sm =>
        { value := to_unsigned (sm.value + 1), waiters := [6, 5, 4, 3] })) 7 = some s3 ∧
      thread_yield s3 = none) ∧
    intr_low_state.intr_context = true ∧
    (∃ s2, sema_up intr_low_state (.standalone 0) = some s2 ∧
      (s2.semas 0).value = 1 ∧ (s2.semas 0).waiters = [] ∧ s2.ready_list = [3] ∧
      s2.current = intr_low_state.current) := by
  refine ⟨by decide, by decide, by decide, by decide, rfl, ⟨_, rfl, rfl⟩, by decide,
    ⟨_, rfl, ?_⟩⟩
  decide

/-! ### Condition variables -/

/-- C12: `cond_wait` stores the caller's priority through
`list_entry (list_begin (&waiter.semaphore.waiters), struct thread, elem)`
right after `sema_init`, when that list is empty: the word written lies at
the offset of `priority` from the list's tail sentinel and belongs to no
element.  In `cond_trace` that word of waiter 10 holds 77 before the first
`cond_wait` and 10, the caller's priority, after it.  The three signals go to
the waiters of priority 50, 25 and 10 in that order. -/
theorem cond_wait_writes_through_empty_waiter_list :
    ∃ before after order, cond_trace = some (before, after, order) ∧
      before.current = 3 ∧ (before.threads 3).priority = 10 ∧
      before.sema_tail_priority 10 = 77 ∧
      (sema_init before (.standalone 10) 0).sema_tail_priority 10 = 77 ∧
      ((sema_init before (.standalone 10) 0).semas 10).waiters = [] ∧
      after.sema_tail_priority 10 = 10 ∧
      (after.semas 10).waiters = [3] ∧ after.conds 0 = [10] ∧
      order = [12, 11, 10] := by
  refine ⟨_, _, _, rfl, ?_⟩
  decide

/-! ### The donation walk has no depth guard -/

theorem donate_raise_wait (s : Kernel) (t holder u : Tid) :
    ((if (s.threads t).priority > (s.threads holder).priority then
        s.setThread holder (fun th => { th with priority := (s.threads t).priority })
      else s).threads u).wait_on_lock = (s.threads u).wait_on_lock := by
  by_cases hgt : (s.threads t).priority > (s.threads holder).priority
  · by_cases hu : u = holder
    · subst hu; simp [hgt, setThread_threads]
    · simp [hgt, hu, setThread_threads]
  · simp [hgt]

theorem donate_raise_locks (s : Kernel) (t holder : Tid) :
    (if (s.threads t).priority > (s.threads holder).priority then
        s.setThread holder (fun th => { th with priority := (s.threads t).priority })
      else s).locks = s.locks := by
  by_cases hgt : (s.threads t).priority > (s.threads holder).priority
  · simp [hgt, Kernel.setThread]
  · simp [hgt]

theorem donate_priority_loop_cycle :
    ∀ (fuel : Nat) (s : Kernel) (a b : Tid) (la lb : LockId),
      (s.threads a).wait_on_lock = some la → (s.locks la).holder = some b →
      (s.threads b).wait_on_lock = some lb → (s.locks lb).holder = some a →
      donate_priority_loop fuel s a = .out_of_fuel := by
  intro fuel
  induction fuel with
  | zero => intro s a b la lb _ _ _ _; rfl
  | succ m ih =>
    intro s a b la lb h1 h2 h3 h4
    unfold donate_priority_loop
    simp only [h1, h2]
    apply ih _ b a lb la
    · rw [donate_raise_wait]; exact h3
    · rw [donate_raise_locks]; exact h4
    · rw [donate_raise_wait]; exact h1
    · rw [donate_raise_locks]; exact h2

theorem donate_priority_loop_exact (n : Nat) :
    ∀ (s : Kernel) (t : Tid) (path : List Tid), wait_chain n s t = some path →
      (∃ s2, ∀ fuel, path.length ≤ fuel → donate_priority_loop fuel s t = .done s2) ∧
      (∀ fuel, fuel < path.length → donate_priority_loop fuel s t = .out_of_fuel) := by
  induction n with
  | zero => intro s t path h; simp [wait_chain] at h
  | succ n ih =>
    intro s t path h
    unfold wait_chain at h
    cases hwl : (s.threads t).wait_on_lock with
    | none =>
      simp only [hwl, Option.some.injEq] at h
      subst h
      refine ⟨⟨s, ?_⟩, ?_⟩
      · intro fuel hfuel
        obtain ⟨m, rfl⟩ : ∃ m, fuel = m + 1 := ⟨fuel - 1, by simp at hfuel; omega⟩
        unfold donate_priority_loop
        simp [hwl]
      · intro fuel hfuel
        have : fuel = 0 := by simp at hfuel; omega
        subst this
        rfl
    | some l =>
      simp only [hwl] at h
      cases hh : (s.locks l).holder with
      | none => simp [hh] at h
      | some holder =>
        simp only [hh] at h
        cases hc : wait_chain n s holder with
        | none => simp [hc] at h
        | some p =>
          simp only [hc, Option.some.injEq] at h
          subst h
          have hc1 : wait_chain n
              (if (s.threads t).priority > (s.threads holder).priority then
                s.setThread holder (fun th => { th with priority := (s.threads t).priority })
              else s) holder = some p :=
            wait_chain_congr hc (fun u _ => donate_raise_wait s t holder u)
              (fun k => by rw [donate_raise_locks])
          obtain ⟨⟨s2, hdone⟩, hout⟩ := ih _ holder p hc1
          refine ⟨⟨s2, ?_⟩, ?_⟩
          · intro fuel hfuel
            obtain ⟨m, rfl⟩ : ∃ m, fuel = m + 1 :=
              ⟨fuel - 1, by simp at hfuel; omega⟩
            unfold donate_priority_loop
            simp only [hwl, hh]
            exact hdone m (by simp at hfuel; omega)
          · intro fuel hfuel
            cases fuel with
            | zero => rfl
            | succ m =>
              unfold donate_priority_loop
              simp only [hwl, hh]
              exact hout m (by simp at hfuel; omega)

/-- C15, counterexample: `donate_priority` has no depth guard.  In `cycle_state`
the running thread asks for lock 2, whose holder waits for a lock the running
thread holds; the walk goes round the cycle and does not finish, whatever
the number of steps allowed.  In `long_chain_state` the walk from the running
thread has not finished after 9 tests of the loop condition; it finishes
within 11 and has then raised the tenth holder on the chain from 10 to 40. -/
theorem donate_priority_walk_has_no_depth_guard :
    (cycle_state.threads 4).wait_on_lock = some 1 ∧
    (cycle_state.locks 1).holder = some cycle_state.current ∧
    (cycle_state.locks 2).holder = some 4 ∧
    (∀ fuel, lock_acquire_donate fuel cycle_state 2 = .out_of_fuel) ∧
    (∀ fuel, lock_acquire fuel cycle_state 2 = none) ∧
    lock_acquire_donate 9 long_chain_state 10 = .out_of_fuel ∧
    (long_chain_state.threads 20).priority = 10 ∧
    (∃ s2, lock_acquire_donate 11 long_chain_state 10 = .done s2 ∧
      (s2.threads 20).priority = 40) := by
  have hcycle : ∀ fuel, lock_acquire_donate fuel cycle_state 2 = .out_of_fuel := by
    intro fuel
    have h : lock_acquire_donate fuel cycle_state 2
        = donate_priority_loop fuel (lock_acquire_enlist cycle_state 2 4) 3 := rfl
    rw [h]
    exact donate_priority_loop_cycle fuel _ 3 4 2 1 (by decide) (by decide) (by decide)
      (by decide)
  refine ⟨by decide, by decide, by decide, hcycle, ?_, rfl, by decide, ⟨_, rfl, ?_⟩⟩
  · intro fuel
    unfold lock_acquire
    rw [hcycle fuel]
  · decide

/-- C15, amended: when the lock-wait chain from the running thread ends (it has
`path.length` threads and no cycle), the walk of `donate_priority` finishes,
with the same result for every allowance of at least `path.length` tests of
its loop condition, and has not finished within fewer: the number of steps is
the length of the chain, whatever that is. -/
theorem donate_priority_walks_whole_chain (s : Kernel) (n : Nat) (path : List Tid)
    (hrun : (s.threads s.current).status = .THREAD_RUNNING)
    (hchain : wait_chain n s s.current = some path) :
    (∃ s2, ∀ fuel, path.length ≤ fuel → donate_priority fuel s = .done s2) ∧
    (∀ fuel, fuel < path.length → donate_priority fuel s = .out_of_fuel) := by
  obtain ⟨⟨s2, hdone⟩, hout⟩ := donate_priority_loop_exact n s s.current path hchain
  refine ⟨⟨s2, ?_⟩, ?_⟩
  · intro fuel hfuel
    simp only [donate_priority, thread_current_eq hrun]
    exact hdone fuel hfuel
  · intro fuel hfuel
    simp only [donate_priority, thread_current_eq hrun]
    exact hout fuel hfuel

/-- C15 at work: in `long_chain_state`, once the running thread has entered the
donation list of the holder of lock 10, its chain has eleven threads. -/
theorem donate_priority_walks_whole_chain_witness :
    ((lock_acquire_enlist long_chain_state 10 11).threads
      (lock_acquire_enlist long_chain_state 10 11).current).status = .THREAD_RUNNING ∧
    wait_chain 11 (lock_acquire_enlist long_chain_state 10 11)
        (lock_acquire_enlist long_chain_state 10 11).current
      = some [10, 11, 12, 13, 14, 15, 16, 17, 18, 19, 20] ∧
    (∃ s2, ∀ fuel, [10, 11, 12, 13, 14, 15, 16, 17, 18, 19, 20].length ≤ fuel →
      donate_priority fuel (lock_acquire_enlist long_chain_state 10 11) = .done s2) ∧
    (∀ fuel, fuel < [10, 11, 12, 13, 14, 15, 16, 17, 18, 19, 20].length →
      donate_priority fuel (lock_acquire_enlist long_chain_state 10 11) = .out_of_fuel) :=
  ⟨by decide, by decide,
    donate_priority_walks_whole_chain (lock_acquire_enlist long_chain_state 10 11) 11
      [10, 11, 12, 13, 14, 15, 16, 17, 18, 19, 20] (by decide) (by decide)⟩

/-! ### Runs: what the scheduler and the semaphores leave alone -/


theorem quiet_refl (s : Kernel) : Quiet s s := ⟨SchedFrame.refl s, fun _ => rfl⟩

theorem quiet_trans {a b c : Kernel} (h1 : Quiet a b) (h2 : Quiet b c) : Quiet a c :=
  ⟨SchedFrame.trans h1.1 h2.1, fun l => by rw [h2.2 l, h1.2 l]⟩

theorem Quiet.of_eq {s s2 : Kernel} (ht : s2.threads = s.threads) (hl : s2.locks = s.locks) :
    Quiet s s2 :=
  ⟨SchedFrame.of_threads (fun u => by rw [ht]) hl, fun l => by rw [hl]⟩

theorem schedule_quiet {s s2 : Kernel} (h : schedule s = some s2) : Quiet s s2 := by
  obtain ⟨next, -, -, hl, -⟩ := schedule_spec h
  exact ⟨schedule_frame h, fun l => by rw [hl]⟩

theorem quiet_setStatus (s : Kernel) (t : Tid) (x : thread_status) :
    Quiet s (s.setThread t (fun th => { th with status := x })) :=
  ⟨SchedFrame.setStatus s t x, fun _ => rfl⟩

theorem do_schedule_quiet {s s2 : Kernel} {st : thread_status} (h : do_schedule s st = some s2) :
    Quiet s s2 := by
  obtain ⟨-, hs⟩ := do_schedule_some h
  have h1 : Quiet s ({ s with destruction_req := [] } : Kernel) := Quiet.of_eq rfl rfl
  exact quiet_trans (quiet_trans h1 (quiet_setStatus _ _ _)) (schedule_quiet hs)

theorem thread_yield_quiet {s s2 : Kernel} (h : thread_yield s = some s2) : Quiet s s2 := by
  unfold thread_yield at h
  cases hc : thread_current s with
  | none => simp [hc] at h
  | some curr =>
    simp only [hc] at h
    by_cases hctx : s.intr_context = true
    · simp [hctx] at h
    · rw [if_neg hctx] at h
      by_cases hidle : some curr ≠ s.idle_thread
      · rw [if_pos hidle] at h
        have h2 := do_schedule_quiet h
        exact quiet_trans (Quiet.of_eq rfl rfl) h2
      · rw [if_neg hidle] at h
        exact do_schedule_quiet h

theorem thread_block_quiet {s s2 : Kernel} (h : thread_block s = some s2) : Quiet s s2 := by
  unfold thread_block at h
  by_cases hctx : s.intr_context = true
  · simp [hctx] at h
  · rw [if_neg hctx] at h
    cases hc : thread_current s with
    | none => simp [hc] at h
    | some curr =>
      simp only [hc] at h
      exact quiet_trans (quiet_setStatus _ _ _) (schedule_quiet h)

theorem thread_unblock_quiet {s s2 : Kernel} {t : Tid} (h : thread_unblock s t = some s2) :
    Quiet s s2 := by
  unfold thread_unblock at h
  by_cases hb : (s.threads t).status ≠ .THREAD_BLOCKED
  · simp [hb] at h
  · rw [if_neg hb] at h
    simp only [Option.some.injEq] at h
    subst h
    exact quiet_trans (Quiet.of_eq rfl rfl) (quiet_setStatus _ _ _)

/-- A write to a semaphore that keeps its value. -/
theorem setSema_quiet (s : Kernel) (r : SemaRef) (f : semaphore → semaphore)
    (hv : ∀ sm, (f sm).value = sm.value) : Quiet s (s.setSema r f) := by
  refine ⟨setSema_frame s r f, ?_⟩
  intro l
  cases r with
  | standalone i => rfl
  | ofLock k =>
    by_cases hk : l = k
    · subst hk; simp [Kernel.setSema, Kernel.setLock, hv]
    · simp [Kernel.setSema, Kernel.setLock, hk]

theorem setSema_standalone_quiet (s : Kernel) (i : Nat) (f : semaphore → semaphore) :
    Quiet s (s.setSema (.standalone i) f) :=
  ⟨setSema_frame s _ f, fun _ => rfl⟩


theorem sema_up_quiet {s s2 : Kernel} {r : SemaRef} (h : sema_up s r = some s2) :
    Quiet (s.setSema r (fun sm => { sm with value := to_unsigned (sm.value + 1) })) s2 := by
  unfold sema_up at h
  simp only [] at h
  generalize s.setSema r (fun sm => { sm with value := to_unsigned (sm.value + 1) }) = s1 at h ⊢
  by_cases hw : (s1.getSema r).waiters = []
  · rw [if_pos hw] at h
    simp only [Option.some.injEq] at h
    subst h
    exact quiet_refl _
  · rw [if_neg hw] at h
    cases hsort : list_sort (compare_thread_priority s1) (s1.getSema r).waiters with
    | nil => simp [hsort] at h
    | cons temp rest =>
      simp only [hsort] at h
      have hq1 : Quiet s1 (s1.setSema r (fun sm => { sm with waiters := rest })) :=
        setSema_quiet s1 r _ (fun _ => rfl)
      cases hu : thread_unblock (s1.setSema r (fun sm => { sm with waiters := rest })) temp with
      | none => simp [hu] at h
      | some s3 =>
        simp only [hu] at h
        have hq2 := quiet_trans hq1 (thread_unblock_quiet hu)
        cases hc : thread_current s3 with
        | none => simp [hc] at h
        | some cur =>
          simp only [hc] at h
          by_cases hgt : (s3.threads temp).priority > (s3.threads cur).priority
          · rw [if_pos hgt] at h
            exact quiet_trans hq2 (thread_yield_quiet h)
          · rw [if_neg hgt] at h
            simp only [Option.some.injEq] at h
            subst h
            exact hq2

theorem sema_down_blocked {s s2 : Kernel} {r : SemaRef} (h : sema_down s r = some (.blocked s2)) :
    Quiet s s2 := by
  unfold sema_down at h
  by_cases hctx : s.intr_context = true
  · simp [hctx] at h
  · rw [if_neg hctx] at h
    by_cases hv : (s.getSema r).value = 0
    · rw [if_pos hv] at h
      cases hc : thread_current s with
      | none => simp [hc] at h
      | some cur =>
        simp only [hc] at h
        have hq1 : Quiet s (s.setSema r (fun sm =>
            { sm with waiters :=
                list_insert_ordered (compare_thread_priority s) cur sm.waiters })) :=
          setSema_quiet s r _ (fun _ => rfl)
        cases hb : thread_block (s.setSema r (fun sm =>
            { sm with waiters :=
                list_insert_ordered (compare_thread_priority s) cur sm.waiters })) with
        | none => simp [hb] at h
        | some s3 =>
          simp only [hb, Option.some.injEq, Suspend.blocked.injEq] at h
          subst h
          exact quiet_trans hq1 (thread_block_quiet hb)
    · rw [if_neg hv] at h
      simp at h

theorem sema_down_returned {s s2 : Kernel} {r : SemaRef}
    (h : sema_down s r = some (.returned s2)) :
    (s.getSema r).value ≠ 0 ∧ s2 = s.setSema r (fun sm => { sm with value := sm.value - 1 }) := by
  unfold sema_down at h
  by_cases hctx : s.intr_context = true
  · simp [hctx] at h
  · rw [if_neg hctx] at h
    by_cases hv : (s.getSema r).value = 0
    · rw [if_pos hv] at h
      cases hc : thread_current s with
      | none => simp [hc] at h
      | some cur =>
        simp only [hc] at h
        cases hb : thread_block (s.setSema r (fun sm =>
            { sm with waiters :=
                list_insert_ordered (compare_thread_priority s) cur sm.waiters })) with
        | none => simp [hb] at h
        | some s3 => simp [hb] at h
    · rw [if_neg hv] at h
      simp only [Option.some.injEq, Suspend.returned.injEq] at h
      exact ⟨hv, h.symm⟩

theorem DonationInv.of_quiet {s s2 : Kernel} (hq : Quiet s s2) (h : DonationInv s) :
    DonationInv s2 where
  base_le t := by
    rw [hq.1.priority, hq.1.origin_priority]; exact h.base_le t
  no_donor t := by
    rw [hq.1.priority, hq.1.origin_priority, hq.1.donation_list]; exact h.no_donor t
  waits t l := by
    rw [hq.1.wait_on_lock]
    intro hw
    obtain ⟨hd, h1, h2⟩ := h.waits t l hw
    exact ⟨hd, by rw [hq.1.2 l]; exact h1, by rw [hq.1.donation_list]; exact h2⟩
  held l := by
    rw [hq.2 l, hq.1.2 l]; exact h.held l

theorem quiet_wait_on_lock {s s2 : Kernel} (hq : Quiet s s2) (t : Tid) :
    (s2.threads t).wait_on_lock = (s.threads t).wait_on_lock := hq.1.wait_on_lock t

/-- What `DonationInv` looks at. -/
theorem DonationInv.of_same {s s2 : Kernel} (ht : s2.threads = s.threads)
    (hl : s2.locks = s.locks) (h : DonationInv s) : DonationInv s2 :=
  DonationInv.of_quiet (Quiet.of_eq ht hl) h

/-! ### Runs: the invariant of donation -/


theorem Initial.donationInv {s : Kernel} (h : Initial s) : DonationInv s where
  base_le t := le_of_eq (h.2.1 t).1.symm
  no_donor t _ := (h.2.1 t).1
  waits t l hw := by rw [(h.2.1 t).2.2] at hw; cases hw
  held l := by rw [h.2.2 l]; simp

/-- Taking a lock whose semaphore is not at 0. -/
theorem DonationInv.take {s : Kernel} (h : DonationInv s) (l : LockId) (c : Tid)
    (hv : (s.locks l).sema.value ≠ 0) :
    DonationInv ((s.setSema (.ofLock l) (fun sm => { sm with value := sm.value - 1 })).setLock l
      (fun lk => { lk with holder := some c })) where
  base_le t := h.base_le t
  no_donor t := h.no_donor t
  waits t k hw := by
    obtain ⟨hd, h1, h2⟩ := h.waits t k hw
    by_cases hk : k = l
    · subst hk
      exact absurd ((h.held k).2 (by rw [h1]; simp)) hv
    · exact ⟨hd, by simpa [Kernel.setSema, Kernel.setLock, hk] using h1, h2⟩
  held k := by
    by_cases hk : k = l
    · subst hk
      have := (h.held k).1
      simp [Kernel.setSema, Kernel.setLock]
      omega
    · simpa [Kernel.setSema, Kernel.setLock, hk] using h.held k

/-- Raising the priority of a thread that has a donor. -/
theorem DonationInv.raise {s : Kernel} (h : DonationInv s) (hd : Tid) (p : Int)
    (hne : (s.threads hd).donation_list ≠ []) (hp : (s.threads hd).priority ≤ p) :
    DonationInv (s.setThread hd (fun th => { th with priority := p })) where
  base_le t := by
    rw [setThread_threads]
    by_cases ht : t = hd
    · subst ht; simp; exact le_trans (h.base_le t) hp
    · simp [ht]; exact h.base_le t
  no_donor t := by
    rw [setThread_threads]
    by_cases ht : t = hd
    · subst ht; simp; intro h0; exact absurd h0 hne
    · simp [ht]; exact h.no_donor t
  waits t l := by
    rw [setThread_threads]
    intro hw
    have hw2 : (s.threads t).wait_on_lock = some l := by
      by_cases ht : t = hd
      · subst ht; simpa using hw
      · simpa [ht] using hw
    obtain ⟨x, h1, h2⟩ := h.waits t l hw2
    refine ⟨x, h1, ?_⟩
    rw [setThread_threads]
    by_cases hx : x = hd
    · subst hx; simpa using h2
    · simpa [hx] using h2
  held l := h.held l

theorem donate_priority_loop_inv :
    ∀ (fuel : Nat) (s s2 : Kernel) (t : Tid), DonationInv s →
      donate_priority_loop fuel s t = .done s2 →
      DonationInv s2 ∧ s2.locks = s.locks ∧
        ∀ u, (s2.threads u).wait_on_lock = (s.threads u).wait_on_lock := by
  intro fuel
  induction fuel with
  | zero => intro s s2 t _ h; simp [donate_priority_loop] at h
  | succ m ih =>
    intro s s2 t hinv h
    unfold donate_priority_loop at h
    cases hwl : (s.threads t).wait_on_lock with
    | none =>
      simp only [hwl, Walk.done.injEq] at h
      subst h
      exact ⟨hinv, rfl, fun _ => rfl⟩
    | some l =>
      simp only [hwl] at h
      cases hh : (s.locks l).holder with
      | none => simp [hh] at h
      | some holder =>
        simp only [hh] at h
        obtain ⟨x, hx1, hx2⟩ := hinv.waits t l hwl
        have hxe : x = holder := by rw [hh] at hx1; exact (Option.some.inj hx1).symm
        subst hxe
        have hinv1 : DonationInv
            (if (s.threads t).priority > (s.threads x).priority then
              s.setThread x (fun th => { th with priority := (s.threads t).priority })
            else s) := by
          by_cases hgt : (s.threads t).priority > (s.threads x).priority
          · rw [if_pos hgt]
            exact hinv.raise x _ (List.ne_nil_of_mem hx2) (le_of_lt hgt)
          · rw [if_neg hgt]; exact hinv
        obtain ⟨h1, h2, h3⟩ := ih _ s2 x hinv1 h
        refine ⟨h1, ?_, ?_⟩
        · rw [h2, donate_raise_locks]
        · intro u; rw [h3 u, donate_raise_wait]

theorem lock_acquire_enlist_threads (s : Kernel) (l : LockId) (holder : Tid) (u : Tid) :
    (lock_acquire_enlist s l holder).threads u =
      { s.threads u with
        wait_on_lock := if u = s.current then some l else (s.threads u).wait_on_lock
        donation_list :=
          if u = holder then
            list_insert_ordered
              (cmp_lock_priority (s.setThread s.current (fun t => { t with wait_on_lock := some l })))
              s.current (s.threads u).donation_list
          else (s.threads u).donation_list } := by
  unfold lock_acquire_enlist
  simp only [setThread_threads]
  by_cases h1 : u = holder
  · by_cases h2 : u = s.current
    · subst h1; subst h2; simp
    · subst h1; simp [h2]
  · by_cases h2 : u = s.current
    · subst h2
      have h3 : ¬ holder = s.current := fun h => h1 h.symm
      simp [h1, h3]
    · simp [h1, h2]

theorem DonationInv.enlist {s : Kernel} (h : DonationInv s) (l : LockId) (holder : Tid)
    (hh : (s.locks l).holder = some holder) :
    DonationInv (lock_acquire_enlist s l holder) where
  base_le t := by rw [lock_acquire_enlist_threads]; exact h.base_le t
  no_donor t := by
    rw [lock_acquire_enlist_threads]
    by_cases ht : t = holder
    · simp only [ht, if_true]
      intro h0
      exact absurd h0 (list_insert_ordered_ne_nil _ _ _)
    · simp only [ht, if_false]
      exact h.no_donor t
  waits t k := by
    rw [lock_acquire_enlist_threads]
    intro hw
    simp only at hw
    by_cases ht : t = s.current
    · rw [if_pos ht] at hw
      have hk : k = l := (Option.some.inj hw).symm
      subst hk
      refine ⟨holder, hh, ?_⟩
      rw [lock_acquire_enlist_threads]
      simp only [if_true]
      rw [ht]
      exact (list_insert_ordered_perm _ _ _).symm.subset (List.mem_cons_self _ _)
    · rw [if_neg ht] at hw
      obtain ⟨x, hx1, hx2⟩ := h.waits t k hw
      refine ⟨x, hx1, ?_⟩
      rw [lock_acquire_enlist_threads]
      by_cases hx : x = holder
      · simp only [hx, if_true]
        rw [hx] at hx2
        exact (list_insert_ordered_perm _ _ _).symm.subset (List.mem_cons_of_mem _ hx2)
      · simp only [hx, if_false]
        exact hx2
  held k := h.held k


theorem lock_acquire_donate_inv {fuel : Nat} {s s1 : Kernel} {l : LockId}
    (hinv : DonationInv s) (h : lock_acquire_donate fuel s l = .done s1) :
    DonationInv s1 ∧ s1.locks = s.locks ∧
      (∀ t, t ≠ s.current → (s1.threads t).wait_on_lock = (s.threads t).wait_on_lock) ∧
      ((s1.threads s.current).wait_on_lock = (s.threads s.current).wait_on_lock ∨
        (s1.threads s.current).wait_on_lock = some l) ∧
      ((s.locks l).holder = none → s1 = s) := by
  unfold lock_acquire_donate at h
  by_cases hctx : s.intr_context = true
  · simp [hctx] at h
  · rw [if_neg hctx] at h
    cases hheld : lock_held_by_current_thread s l with
    | none => simp [hheld] at h
    | some b =>
      cases b with
      | true => simp [hheld] at h
      | false =>
        simp only [hheld] at h
        cases hh : (s.locks l).holder with
        | none =>
          simp only [hh, Walk.done.injEq] at h
          subst h
          exact ⟨hinv, rfl, fun _ _ => rfl, Or.inl rfl, fun _ => rfl⟩
        | some holder =>
          simp only [hh] at h
          unfold donate_priority at h
          cases hc : thread_current (lock_acquire_enlist s l holder) with
          | none => simp [hc] at h
          | some cur =>
            simp only [hc] at h
            obtain ⟨h1, h2, h3⟩ :=
              donate_priority_loop_inv fuel _ s1 cur (hinv.enlist l holder hh) h
            refine ⟨h1, by rw [h2]; rfl, ?_, ?_, fun hn => by simp at hn⟩
            · intro t ht
              rw [h3 t, lock_acquire_enlist_threads]
              simp [ht]
            · right
              rw [h3, lock_acquire_enlist_threads]
              simp

theorem lock_acquire_down_inv {s : Kernel} {l : LockId} {r : Suspend}
    (hinv : DonationInv s) (h : lock_acquire_down s l = some r) :
    DonationInv r.state ∧
      (∀ t, (r.state.threads t).wait_on_lock = (s.threads t).wait_on_lock) := by
  unfold lock_acquire_down at h
  simp only [] at h
  cases hd : sema_down s (.ofLock l) with
  | none => simp [hd] at h
  | some x =>
    cases x with
    | blocked s1 =>
      simp only [hd, Option.some.injEq] at h
      subst h
      have hq := sema_down_blocked hd
      exact ⟨hinv.of_quiet hq, fun t => quiet_wait_on_lock hq t⟩
    | returned s1 =>
      simp only [hd, Option.some.injEq] at h
      subst h
      obtain ⟨hv, rfl⟩ := sema_down_returned hd
      exact ⟨hinv.take l s.current hv, fun _ => rfl⟩

theorem lock_acquire_down_returned {s s2 : Kernel} {l : LockId}
    (h : lock_acquire_down s l = some (.returned s2)) :
    (s.locks l).sema.value ≠ 0 ∧ (s2.locks l).holder = some s.current ∧
      s2.threads = s.threads := by
  unfold lock_acquire_down at h
  simp only [] at h
  cases hd : sema_down s (.ofLock l) with
  | none => simp [hd] at h
  | some x =>
    cases x with
    | blocked s1 => simp [hd] at h
    | returned s1 =>
      simp only [hd, Option.some.injEq, Suspend.returned.injEq] at h
      subst h
      obtain ⟨hv, rfl⟩ := sema_down_returned hd
      exact ⟨hv, by simp [Kernel.setLock], rfl⟩

theorem lock_acquire_inv {fuel : Nat} {s : Kernel} {l : LockId} {r : Suspend}
    (hinv : DonationInv s) (h : lock_acquire fuel s l = some r) :
    DonationInv r.state ∧
      (∀ t, t ≠ s.current → (r.state.threads t).wait_on_lock = (s.threads t).wait_on_lock) ∧
      ((r.state.threads s.current).wait_on_lock = (s.threads s.current).wait_on_lock ∨
        (r.state.threads s.current).wait_on_lock = some l) := by
  unfold lock_acquire at h
  cases hd : lock_acquire_donate fuel s l with
  | panic => simp [hd] at h
  | out_of_fuel => simp [hd] at h
  | done s1 =>
    simp only [hd] at h
    obtain ⟨h1, -, h3, h4, -⟩ := lock_acquire_donate_inv hinv hd
    obtain ⟨h5, h6⟩ := lock_acquire_down_inv h1 h
    refine ⟨h5, fun t ht => by rw [h6, h3 t ht], ?_⟩
    rw [h6]
    exact h4

theorem lock_try_acquire_inv {s s2 : Kernel} {l : LockId} {b : Bool}
    (hinv : DonationInv s) (h : lock_try_acquire s l = some (s2, b)) :
    DonationInv s2 ∧ s2.threads = s.threads := by
  unfold lock_try_acquire at h
  cases hheld : lock_held_by_current_thread s l with
  | none => simp [hheld] at h
  | some x =>
    cases x with
    | true => simp [hheld] at h
    | false =>
      simp only [hheld] at h
      unfold sema_try_down at h
      by_cases hv : (s.getSema (.ofLock l)).value > 0
      · rw [if_pos hv] at h
        simp only [Option.some.injEq, Prod.mk.injEq] at h
        obtain ⟨rfl, -⟩ := h
        exact ⟨hinv.take l s.current (by intro h0; rw [Kernel.getSema, h0] at hv; omega), rfl⟩
      · rw [if_neg hv] at h
        simp only [Option.some.injEq, Prod.mk.injEq] at h
        obtain ⟨rfl, -⟩ := h
        exact ⟨hinv, rfl⟩

theorem set_priority_loop_effect (cur : Tid) :
    ∀ (donors : List Tid) (s : Kernel),
      ∃ f q, set_priority_loop cur donors s = { s with threads := f } ∧
        (∀ u, u ≠ cur → f u = s.threads u) ∧
        f cur = { s.threads cur with priority := q } ∧
        (s.threads cur).priority ≤ q ∧
        (donors = [] → q = (s.threads cur).priority) := by
  intro donors
  induction donors with
  | nil => intro s; exact ⟨s.threads, _, rfl, fun _ _ => rfl, rfl, le_rfl, fun _ => rfl⟩
  | cons e rest ih =>
    intro s
    unfold set_priority_loop
    simp only []
    by_cases hgt : (s.threads e).priority > (s.threads cur).priority
    · rw [if_pos hgt]
      obtain ⟨f, q, h1, h2, h3, h4, -⟩ :=
        ih (s.setThread cur (fun t => { t with priority := (s.threads e).priority }))
      refine ⟨f, q, by rw [h1]; rfl, ?_, ?_, ?_, by simp⟩
      · intro u hu
        rw [h2 u hu, setThread_threads, if_neg hu]
      · rw [h3, setThread_threads, if_pos rfl]
      · rw [setThread_threads, if_pos rfl] at h4
        exact le_trans (le_of_lt hgt) h4
    · rw [if_neg hgt]
      obtain ⟨f, q, h1, h2, h3, h4, -⟩ := ih s
      exact ⟨f, q, h1, h2, h3, h4, by simp⟩

theorem thread_set_priority_inv {s s2 : Kernel} {p : Int}
    (hinv : DonationInv s) (h : thread_set_priority s p = some s2) :
    DonationInv s2 ∧ (∀ t, (s2.threads t).wait_on_lock = (s.threads t).wait_on_lock) := by
  unfold thread_set_priority at h
  by_cases hm : s.thread_mlfqs = true
  · rw [if_pos hm] at h
    simp only [Option.some.injEq] at h
    subst h
    exact ⟨hinv, fun _ => rfl⟩
  · rw [if_neg hm] at h
    cases hc : thread_current s with
    | none => simp [hc] at h
    | some cur =>
      simp only [hc] at h
      obtain ⟨f, q, h1, h2, h3, h4, h5⟩ := set_priority_loop_effect cur
        (s.threads cur).donation_list
        ((s.setThread cur (fun t => { t with origin_priority := p })).setThread cur
          (fun t => { t with priority := p }))
      rw [h1] at h
      simp only [setThread_threads, if_pos rfl] at h3 h4 h5
      have hf : ∀ u, f u = if u = cur then { s.threads cur with origin_priority := p, priority := q }
          else s.threads u := by
        intro u
        by_cases hu : u = cur
        · subst hu; rw [h3]; simp
        · rw [h2 u hu]; simp [setThread_threads, hu]
      generalize hs3 : ({ (s.setThread cur (fun t => { t with origin_priority := p })).setThread cur
          (fun t => { t with priority := p }) with threads := f } : Kernel) = s3 at h
      have ht3 : s3.threads = f := by rw [← hs3]
      have hl3 : s3.locks = s.locks := by rw [← hs3]; rfl
      have hinv3 : DonationInv s3 := by
        constructor
        · intro t
          rw [ht3, hf]
          by_cases ht : t = cur
          · subst ht; simpa using h4
          · simpa [ht] using hinv.base_le t
        · intro t
          rw [ht3, hf]
          by_cases ht : t = cur
          · subst ht; simpa using h5
          · simpa [ht] using hinv.no_donor t
        · intro t l
          rw [ht3, hf, hl3]
          intro hw
          have hw2 : (s.threads t).wait_on_lock = some l := by
            by_cases ht : t = cur
            · subst ht; simpa using hw
            · simpa [ht] using hw
          obtain ⟨x, hx1, hx2⟩ := hinv.waits t l hw2
          refine ⟨x, hx1, ?_⟩
          rw [hf]
          by_cases hx : x = cur
          · subst hx; simpa using hx2
          · simpa [hx] using hx2
        · intro l
          rw [hl3]
          exact hinv.held l
      have hw3 : ∀ t, (s3.threads t).wait_on_lock = (s.threads t).wait_on_lock := by
        intro t
        rw [ht3, hf]
        by_cases ht : t = cur
        · subst ht; simp
        · simp [ht]
      by_cases hlt : (s3.threads cur).priority < ready_front_priority s3
      · rw [if_pos hlt] at h
        have hq : Quiet s3 s2 := by
          by_cases hidle : some cur ≠ s3.idle_thread
          · rw [if_pos hidle] at h
            have h2 := do_schedule_quiet h
            exact quiet_trans (Quiet.of_eq rfl rfl) h2
          · rw [if_neg hidle] at h
            exact do_schedule_quiet h
        exact ⟨hinv3.of_quiet hq, fun t => by rw [quiet_wait_on_lock hq, hw3]⟩
      · rw [if_neg hlt] at h
        simp only [Option.some.injEq] at h
        subst h
        exact ⟨hinv3, hw3⟩


theorem le_max_priority_of (s : Kernel) : ∀ (ds : List Tid) (base : Int),
    base ≤ max_priority_of s base ds := by
  intro ds
  induction ds with
  | nil => intro base; exact le_rfl
  | cons d rest ih =>
    intro base
    unfold max_priority_of
    simp only [List.foldl_cons]
    exact le_trans (le_max_left _ _) (ih _)

theorem lock_release_loop_wait (l : LockId) :
    ∀ (ds : List Tid) (s : Kernel) (m : Int),
      (∀ u, ((lock_release_loop l ds s m).2.1.threads u).wait_on_lock =
        if u ∈ ds ∧ (s.threads u).wait_on_lock = some l then none
        else (s.threads u).wait_on_lock) ∧
      (∀ u ∈ ds, (s.threads u).wait_on_lock ≠ some l → u ∈ (lock_release_loop l ds s m).1) := by
  intro ds
  induction ds with
  | nil =>
    intro s m
    exact ⟨fun u => by simp [lock_release_loop], fun u hu => by simp at hu⟩
  | cons e rest ih =>
    intro s m
    by_cases he : (s.threads e).wait_on_lock = some l
    · rw [lock_release_loop_remove he]
      obtain ⟨h1, h2⟩ := ih (s.setThread e (fun t => { t with wait_on_lock := none })) m
      refine ⟨?_, ?_⟩
      · intro u
        rw [h1 u, setThread_threads]
        by_cases hu : u = e
        · subst hu; simp [he]
        · simp [hu]
      · intro u hu hw
        have hne : u ≠ e := fun h => hw (h ▸ he)
        have hmem : u ∈ rest := by
          rcases List.mem_cons.mp hu with h | h
          · exact absurd h hne
          · exact h
        apply h2 u hmem
        rw [setThread_threads, if_neg hne]
        exact hw
    · rw [lock_release_loop_keep he]
      obtain ⟨h1, h2⟩ := ih s (max m (s.threads e).priority)
      refine ⟨?_, ?_⟩
      · intro u
        simp only []
        rw [h1 u]
        by_cases hu : u = e
        · subst hu; simp [he]
        · simp [hu]
      · intro u hu hw
        simp only []
        rcases List.mem_cons.mp hu with h | h
        · subst h; exact List.mem_cons_self _ _
        · exact List.mem_cons_of_mem _ (h2 u h hw)

theorem lock_held_by_current_thread_true {s : Kernel} {l : LockId}
    (h : lock_held_by_current_thread s l = some true) : (s.locks l).holder = some s.current := by
  unfold lock_held_by_current_thread at h
  cases hc : thread_current s with
  | none => simp [hc] at h
  | some cur =>
    obtain ⟨rfl, -⟩ := thread_current_some hc
    simpa [hc] using h

theorem lock_release_undonate_inv {s s1 : Kernel} {l : LockId}
    (hinv : DonationInv s) (h : lock_release_undonate s l = some s1) :
    DonationInv (s1.setSema (.ofLock l) (fun sm => { sm with value := to_unsigned (sm.value + 1) })) ∧
      (∀ t, (s1.threads t).wait_on_lock = (s.threads t).wait_on_lock ∨
        (s1.threads t).wait_on_lock = none) := by
  unfold lock_release_undonate at h
  cases hheld : lock_held_by_current_thread s l with
  | none => simp [hheld] at h
  | some b =>
    cases b with
    | false => simp [hheld] at h
    | true =>
      simp only [hheld] at h
      have hholder := lock_held_by_current_thread_true hheld
      obtain ⟨f, hf1, hf2, hf3⟩ := lock_release_loop_frame l (s.threads s.current).donation_list s
        (s.threads s.current).origin_priority
      obtain ⟨hw1, hw2⟩ := lock_release_loop_wait l (s.threads s.current).donation_list s
        (s.threads s.current).origin_priority
      rcases hloop : lock_release_loop l (s.threads s.current).donation_list s
        (s.threads s.current).origin_priority with ⟨kept, sL, m⟩
      rw [hloop] at h hf1 hf3 hw1 hw2
      simp only [Option.some.injEq] at h hf1 hf3 hw1 hw2
      subst h
      have hLt : sL.threads = f := by rw [hf1]
      have hLl : sL.locks = s.locks := by rw [hf1]
      have hprio : ∀ u, (sL.threads u).priority = (s.threads u).priority := by
        intro u; rw [hLt, ← hf2 u]
      have horig : ∀ u, (sL.threads u).origin_priority = (s.threads u).origin_priority := by
        intro u; rw [hLt, ← hf2 u]
      have hdl : ∀ u, (sL.threads u).donation_list = (s.threads u).donation_list := by
        intro u; rw [hLt, ← hf2 u]
      have hthreads : ∀ u,
          (((((sL.setThread s.current (fun t => { t with donation_list := kept })).setThread
            s.current (fun t => { t with priority := m })).setLock l
            (fun lk => { lk with holder := none })).setSema (.ofLock l)
            (fun sm => { sm with value := to_unsigned (sm.value + 1) })).threads u) =
          if u = s.current then { sL.threads u with donation_list := kept, priority := m }
          else sL.threads u := by
        intro u
        show (((sL.setThread s.current (fun t => { t with donation_list := kept })).setThread
            s.current (fun t => { t with priority := m })).threads u) = _
        simp only [setThread_threads]
        by_cases hu : u = s.current
        · subst hu; simp
        · simp [hu]
      have hlocks : ∀ k,
          (((((sL.setThread s.current (fun t => { t with donation_list := kept })).setThread
            s.current (fun t => { t with priority := m })).setLock l
            (fun lk => { lk with holder := none })).setSema (.ofLock l)
            (fun sm => { sm with value := to_unsigned (sm.value + 1) })).locks k) =
          if k = l then
            { holder := none,
              sema := { value := to_unsigned ((s.locks l).sema.value + 1),
                        waiters := (s.locks l).sema.waiters } }
          else s.locks k := by
        intro k
        by_cases hk : k = l
        · subst hk; simp [Kernel.setSema, Kernel.setLock, Kernel.setThread, hLl]
        · simp [Kernel.setSema, Kernel.setLock, Kernel.setThread, hLl, hk]
      refine ⟨?_, ?_⟩
      · constructor
        · intro t
          rw [hthreads]
          by_cases ht : t = s.current
          · simp only [ht, if_true]
            rw [horig, hf3]
            exact le_max_priority_of s kept _
          · simp only [ht, if_false]
            rw [hprio, horig]
            exact hinv.base_le t
        · intro t
          rw [hthreads]
          by_cases ht : t = s.current
          · simp only [ht, if_true]
            intro hk
            rw [horig, hf3, hk]
            rfl
          · simp only [ht, if_false]
            rw [hprio, horig, hdl]
            exact hinv.no_donor t
        · intro t k
          rw [hthreads]
          intro hw
          have hwL : (sL.threads t).wait_on_lock = some k := by
            by_cases ht : t = s.current
            · simpa [ht] using hw
            · simpa [ht] using hw
          rw [hw1 t] at hwL
          by_cases hc : t ∈ (s.threads s.current).donation_list ∧
              (s.threads t).wait_on_lock = some l
          · rw [if_pos hc] at hwL; cases hwL
          · rw [if_neg hc] at hwL
            obtain ⟨x, hx1, hx2⟩ := hinv.waits t k hwL
            have hkl : k ≠ l := by
              intro hkl
              subst hkl
              rw [hholder] at hx1
              have hxe : x = s.current := (Option.some.inj hx1).symm
              subst hxe
              exact hc ⟨hx2, hwL⟩
            refine ⟨x, by rw [hlocks, if_neg hkl]; exact hx1, ?_⟩
            rw [hthreads]
            by_cases hx : x = s.current
            · simp only [hx, if_true]
              rw [hx] at hx2
              apply hw2 t hx2
              rw [hwL]
              intro h0
              exact hkl (Option.some.inj h0)
            · simp only [hx, if_false]
              rw [hdl]
              exact hx2
        · intro k
          rw [hlocks]
          by_cases hk : k = l
          · simp only [hk, if_true]
            have hv : (s.locks l).sema.value = 0 := (hinv.held l).2 (by rw [hholder]; simp)
            rw [hv]
            simp [to_unsigned]
          · simp only [hk, if_false]
            exact hinv.held k
      · intro t
        have ht :
            ((((sL.setThread s.current (fun t => { t with donation_list := kept })).setThread
              s.current (fun t => { t with priority := m })).setLock l
              (fun lk => { lk with holder := none })).threads t).wait_on_lock =
            (sL.threads t).wait_on_lock := by
          show (((sL.setThread s.current (fun t => { t with donation_list := kept })).setThread
              s.current (fun t => { t with priority := m })).threads t).wait_on_lock = _
          simp only [setThread_threads]
          by_cases hu : t = s.current
          · subst hu; simp
          · simp [hu]
        rw [ht, hw1 t]
        by_cases hc : t ∈ (s.threads s.current).donation_list ∧
            (s.threads t).wait_on_lock = some l
        · right; rw [if_pos hc]
        · left; rw [if_neg hc]

theorem lock_release_inv {s s2 : Kernel} {l : LockId}
    (hinv : DonationInv s) (h : lock_release s l = some s2) :
    DonationInv s2 ∧
      (∀ t, (s2.threads t).wait_on_lock = (s.threads t).wait_on_lock ∨
        (s2.threads t).wait_on_lock = none) := by
  unfold lock_release at h
  cases hu : lock_release_undonate s l with
  | none => simp [hu] at h
  | some s1 =>
    simp only [hu] at h
    obtain ⟨h1, h2⟩ := lock_release_undonate_inv hinv hu
    have hq := sema_up_quiet h
    refine ⟨h1.of_quiet hq, ?_⟩
    intro t
    rw [quiet_wait_on_lock hq]
    exact h2 t

theorem exec_inv {s s2 : Kernel} {op : Op} (hinv : DonationInv s) (h : exec s op = some s2) :
    DonationInv s2 ∧
      (∀ t, t ≠ s.current → (s2.threads t).wait_on_lock = (s.threads t).wait_on_lock ∨
        (s2.threads t).wait_on_lock = none) := by
  cases op with
  | set_priority p =>
    obtain ⟨h1, h2⟩ := thread_set_priority_inv hinv h
    exact ⟨h1, fun t _ => Or.inl (h2 t)⟩
  | acquire fuel l =>
    obtain ⟨r, hr, rfl⟩ := Option.map_eq_some'.mp h
    obtain ⟨h1, h2, -⟩ := lock_acquire_inv hinv hr
    exact ⟨h1, fun t ht => Or.inl (h2 t ht)⟩
  | acquire_resume l =>
    obtain ⟨r, hr, rfl⟩ := Option.map_eq_some'.mp h
    obtain ⟨h1, h2⟩ := lock_acquire_down_inv hinv hr
    exact ⟨h1, fun t _ => Or.inl (h2 t)⟩
  | try_acquire l =>
    obtain ⟨⟨s3, b⟩, hr, rfl⟩ := Option.map_eq_some'.mp h
    obtain ⟨h1, h2⟩ := lock_try_acquire_inv hinv hr
    exact ⟨h1, fun t _ => Or.inl (by simp only []; rw [h2])⟩
  | release l =>
    obtain ⟨h1, h2⟩ := lock_release_inv hinv h
    exact ⟨h1, fun t _ => h2 t⟩
  | yield =>
    have hq := thread_yield_quiet h
    exact ⟨hinv.of_quiet hq, fun t _ => Or.inl (quiet_wait_on_lock hq t)⟩
  | sema_up i =>
    have hq := quiet_trans (setSema_standalone_quiet s i _) (sema_up_quiet h)
    exact ⟨hinv.of_quiet hq, fun t _ => Or.inl (quiet_wait_on_lock hq t)⟩
  | sema_down i =>
    obtain ⟨r, hr, rfl⟩ := Option.map_eq_some'.mp h
    have hq : Quiet s r.state := by
      cases r with
      | blocked s1 => exact sema_down_blocked hr
      | returned s1 =>
        obtain ⟨-, h2⟩ := sema_down_returned hr
        show Quiet s s1
        rw [h2]
        exact setSema_standalone_quiet s i _
    exact ⟨hinv.of_quiet hq, fun t _ => Or.inl (quiet_wait_on_lock hq t)⟩

theorem run_inv : ∀ (ops : List Op) (s s2 : Kernel), DonationInv s → run ops s = some s2 →
    DonationInv s2 := by
  intro ops
  induction ops with
  | nil =>
    intro s s2 hinv h
    simp only [run, Option.some.injEq] at h
    subst h
    exact hinv
  | cons op rest ih =>
    intro s s2 hinv h
    unfold run at h
    cases he : exec s op with
    | none => simp [he] at h
    | some s1 =>
      simp only [he] at h
      exact ih s1 s2 (exec_inv hinv he).1 h

theorem run_while_waiting_inv (T : Tid) (l : LockId) :
    ∀ (ops : List Op) (s sN : Kernel), DonationInv s →
      ((s.threads T).wait_on_lock = none ∨ (s.threads T).wait_on_lock = some l) →
      run_while_waiting T l ops s = some sN →
      DonationInv sN ∧
        ((sN.threads T).wait_on_lock = none ∨ (sN.threads T).wait_on_lock = some l) := by
  intro ops
  induction ops with
  | nil =>
    intro s sN hinv hw h
    simp only [run_while_waiting, Option.some.injEq] at h
    subst h
    exact ⟨hinv, hw⟩
  | cons op rest ih =>
    intro s sN hinv hw h
    unfold run_while_waiting at h
    by_cases hc : s.current = T
    · rw [if_pos hc] at h
      split at h
      · rename_i l2 s1 hdown
        by_cases hl : l2 = l
        · rw [if_pos hl] at h
          obtain ⟨h1, h2⟩ := lock_acquire_down_inv hinv hdown
          have h3 : (s1.threads T).wait_on_lock = (s.threads T).wait_on_lock := h2 T
          exact ih s1 sN h1 (by rw [h3]; exact hw) h
        · rw [if_neg hl] at h
          cases h
      · cases h
    · rw [if_neg hc] at h
      cases he : exec s op with
      | none => simp [he] at h
      | some s1 =>
        simp only [he] at h
        obtain ⟨h1, h2⟩ := exec_inv hinv he
        refine ih s1 sN h1 ?_ h
        rcases h2 T (fun h0 => hc h0.symm) with h3 | h3
        · rw [h3]; exact hw
        · exact Or.inl h3

theorem pair_state_initial : Initial pair_state := by
  refine ⟨rfl, ?_, fun _ => rfl⟩
  intro t
  by_cases h3 : t = 3
  · subst h3; exact ⟨rfl, rfl, rfl⟩
  · by_cases h1 : t = 1
    · subst h1; exact ⟨rfl, rfl, rfl⟩
    · by_cases h2 : t = 2
      · subst h2; exact ⟨rfl, rfl, rfl⟩
      · simp [pair_state, booted, blank_thread, h1, h2, h3]

/-- C17: in a state reached by a run from an initial state, the running thread T,
which waits for no lock, calls `lock_acquire (l)`.  If the call returns at
once, T is the holder of `l` and waits for no lock.  If T blocks, and after
any run of the other threads (during which T, whenever it gets the CPU,
tests the semaphore again and blocks again) T's test of the semaphore
succeeds, then in the state in which `lock_acquire` returns T is the holder
of `l` and waits for no lock. -/
theorem lock_acquire_returns_holding (s0 s : Kernel) (ops : List Op) (fuel : Nat) (l : LockId)
    (hinit : Initial s0) (hrun : run ops s0 = some s)
    (hfree : (s.threads s.current).wait_on_lock = none) :
    (∀ s2, lock_acquire fuel s l = some (.returned s2) →
      (s2.locks l).holder = some s.current ∧ (s2.threads s.current).wait_on_lock = none) ∧
    (∀ s1 others sN s2, lock_acquire fuel s l = some (.blocked s1) →
      run_while_waiting s.current l others s1 = some sN → sN.current = s.current →
      lock_acquire_down sN l = some (.returned s2) →
      (s2.locks l).holder = some s.current ∧ (s2.threads s.current).wait_on_lock = none) := by
  have hinv : DonationInv s := run_inv ops s0 s hinit.donationInv hrun
  refine ⟨?_, ?_⟩
  · intro s2 h
    unfold lock_acquire at h
    cases hd : lock_acquire_donate fuel s l with
    | panic => simp [hd] at h
    | out_of_fuel => simp [hd] at h
    | done s1 =>
      simp only [hd] at h
      obtain ⟨h1, h2, -, -, h5⟩ := lock_acquire_donate_inv hinv hd
      obtain ⟨hv, hholder, hthreads⟩ := lock_acquire_down_returned h
      have hnone : (s.locks l).holder = none := by
        by_contra hne
        rw [← h2] at hne
        exact hv ((h1.held l).2 hne)
      have hs1 : s1 = s := h5 hnone
      subst hs1
      exact ⟨hholder, by rw [hthreads]; exact hfree⟩
  · intro s1 others sN s2 hacq hwait hcur hdown
    obtain ⟨h1, -, h3⟩ := lock_acquire_inv hinv hacq
    have hw1 : (s1.threads s.current).wait_on_lock = none ∨
        (s1.threads s.current).wait_on_lock = some l := by
      rcases h3 with h | h
      · left; rw [← hfree]; exact h
      · right; exact h
    obtain ⟨hN, hwN⟩ := run_while_waiting_inv s.current l others s1 sN h1 hw1 hwait
    obtain ⟨hv, hholder, hthreads⟩ := lock_acquire_down_returned hdown
    refine ⟨by rw [hholder, hcur], ?_⟩
    rw [hthreads]
    rcases hwN with h | h
    · exact h
    · obtain ⟨x, hx, -⟩ := hN.waits _ _ h
      exact absurd ((hN.held l).2 (by rw [hx]; simp)) hv

/-- C17 at work: from `pair_state`, `main` takes lock 1 and lowers its priority;
the thread with handle 3 asks for lock 1 and blocks; `main` releases the
lock, takes it again and lowers its priority again, so that thread 3 finds
the semaphore at 0 and blocks once more; `main` releases the lock, and
thread 3 returns from `lock_acquire` as the holder. -/
theorem lock_acquire_returns_holding_witness :
    Initial pair_state ∧ run contend_ops pair_state = some contend_state ∧
    (contend_state.threads contend_state.current).wait_on_lock = none ∧
    ((∀ s2, lock_acquire 8 contend_state 1 = some (.returned s2) →
      (s2.locks 1).holder = some contend_state.current ∧
        (s2.threads contend_state.current).wait_on_lock = none) ∧
    (∀ s1 others sN s2, lock_acquire 8 contend_state 1 = some (.blocked s1) →
      run_while_waiting contend_state.current 1 others s1 = some sN →
      sN.current = contend_state.current →
      lock_acquire_down sN 1 = some (.returned s2) →
      (s2.locks 1).holder = some contend_state.current ∧
        (s2.threads contend_state.current).wait_on_lock = none)) ∧
    (∃ s1 sN s2, lock_acquire 8 contend_state 1 = some (.blocked s1) ∧
      run_while_waiting contend_state.current 1
        [.set_priority 31, .release 1, .acquire 8 1, .set_priority 10, .acquire_resume 1,
         .release 1] s1 = some sN ∧
      sN.current = contend_state.current ∧
      lock_acquire_down sN 1 = some (.returned s2) ∧
      contend_state.current = 3 ∧ (s2.locks 1).holder = some 3 ∧
      (s1.threads 3).wait_on_lock = some 1 ∧ (s2.threads 3).wait_on_lock = none) :=
  ⟨pair_state_initial, rfl, by decide,
    lock_acquire_returns_holding pair_state contend_state contend_ops 8 1 pair_state_initial rfl
      (by decide),
    ⟨_, _, _, rfl, rfl, by decide, rfl, by decide, by decide, by decide, by decide⟩⟩

/-- C19, counterexample: after `level_ops` from `pair_state`, `main` has priority
20, which is its base priority, and the thread with handle 3 is in its
donation list. -/
theorem priority_equals_base_with_a_donor :
    Initial pair_state ∧
    ∃ s, run level_ops pair_state = some s ∧
      (s.threads 1).priority = 20 ∧ (s.threads 1).origin_priority = 20 ∧
      (s.threads 1).donation_list = [3] ∧ (s.threads 3).wait_on_lock = some 1 ∧
      (s.locks 1).holder = some 1 :=
  ⟨pair_state_initial, _, rfl, by decide, by decide, by decide, by decide, by decide⟩

/-- C19, amended: in every state reached by a run from an initial state, every
thread has at least its base priority, and exactly its base priority when
its donation list is empty. -/
theorem priority_at_least_base (s0 s : Kernel) (ops : List Op) (t : Tid)
    (hinit : Initial s0) (hrun : run ops s0 = some s) :
    (s.threads t).origin_priority ≤ (s.threads t).priority ∧
    ((s.threads t).donation_list = [] →
      (s.threads t).priority = (s.threads t).origin_priority) := by
  have hinv : DonationInv s := run_inv ops s0 s hinit.donationInv hrun
  exact ⟨hinv.base_le t, hinv.no_donor t⟩

/-- C19 at work: the state after the first three calls of `level_ops`, in which
the thread with handle 3 has donated 20 to `main`, whose base priority is 5. -/
theorem priority_at_least_base_witness :
    Initial pair_state ∧
    run (level_ops.take 3) pair_state = some ((run (level_ops.take 3) pair_state).getD pair_state) ∧
    (((run (level_ops.take 3) pair_state).getD pair_state).threads 1).origin_priority = 5 ∧
    (((run (level_ops.take 3) pair_state).getD pair_state).threads 1).priority = 20 ∧
    ((((run (level_ops.take 3) pair_state).getD pair_state).threads 1).origin_priority ≤
        (((run (level_ops.take 3) pair_state).getD pair_state).threads 1).priority ∧
      ((((run (level_ops.take 3) pair_state).getD pair_state).threads 1).donation_list = [] →
        (((run (level_ops.take 3) pair_state).getD pair_state).threads 1).priority =
          (((run (level_ops.take 3) pair_state).getD pair_state).threads 1).origin_priority)) :=
  ⟨pair_state_initial, rfl, by decide, by decide,
    priority_at_least_base pair_state _ (level_ops.take 3) 1 pair_state_initial rfl⟩

/-- C20: after `stale_ops` from `pair_state`, H (`main`) holds lock 1 at priority
10 while W (handle 3, priority 20) is blocked in the waiter list of the lock's
semaphore: W donated when it first blocked, `lock_release` took it out of H's
donation list and cleared its `wait_on_lock`, and when W found the lock taken
again it blocked in the loop of `sema_down` without donating. -/
theorem lock_holder_below_blocked_waiter :
    Initial pair_state ∧
    (∃ s3, run (stale_ops.take 3) pair_state = some s3 ∧
      (s3.locks 1).holder = some 1 ∧ (s3.locks 1).sema.waiters = [3] ∧
      (s3.threads 1).priority = 20 ∧ (s3.threads 3).wait_on_lock = some 1) ∧
    (∃ s, run stale_ops pair_state = some s ∧
      (s.locks 1).holder = some 1 ∧ (s.locks 1).sema.waiters = [3] ∧
      (s.threads 3).status = .THREAD_BLOCKED ∧
      (s.threads 1).priority = 10 ∧ (s.threads 3).priority = 20 ∧
      (s.threads 3).wait_on_lock = none ∧ (s.threads 1).donation_list = []) :=
  ⟨pair_state_initial, ⟨_, rfl, by decide, by decide, by decide, by decide⟩,
    ⟨_, rfl, by decide, by decide, by decide, by decide, by decide, by decide, by decide⟩⟩

/-! ### A lock taken and given back -/

theorem lock_acquire_of_free {s : Kernel} {l : LockId} (fuel : Nat)
    (hctx : s.intr_context = false)
    (hrun : (s.threads s.current).status = .THREAD_RUNNING)
    (hholder : (s.locks l).holder = none)
    (hvalue : (s.locks l).sema.value ≠ 0) :
    lock_acquire fuel s l =
      some (.returned ((s.setSema (.ofLock l) (fun sm => { sm with value := sm.value - 1 })).setLock
        l (fun lk => { lk with holder := some s.current }))) := by
  have hheld : lock_held_by_current_thread s l = some false := by
    simp [lock_held_by_current_thread, thread_current, hrun, hholder]
  have hv : ¬ (s.getSema (.ofLock l)).value = 0 := hvalue
  simp [lock_acquire, lock_acquire_donate, hctx, hheld, hholder, lock_acquire_down, sema_down, hv]

theorem lock_release_of_uncontended {s : Kernel} {l : LockId}
    (hrun : (s.threads s.current).status = .THREAD_RUNNING)
    (hlock : s.locks l = { holder := some s.current, sema := { value := 0, waiters := [] } }) :
    ∃ s2, lock_release s l = some s2 ∧
      s2.locks l = { holder := none, sema := { value := 1, waiters := [] } } ∧
      s2.current = s.current ∧ s2.ready_list = s.ready_list ∧
      (∀ k, k ≠ l → s2.locks k = s.locks k) := by
  have hheld : lock_held_by_current_thread s l = some true :=
    lock_held_by_current_thread_eq hrun (by rw [hlock])
  obtain ⟨f, hf1, -, -⟩ := lock_release_loop_frame l (s.threads s.current).donation_list s
    (s.threads s.current).origin_priority
  unfold lock_release lock_release_undonate
  simp only [hheld]
  rcases hloop : lock_release_loop l (s.threads s.current).donation_list s
    (s.threads s.current).origin_priority with ⟨kept, sL, m⟩
  rw [hloop] at hf1
  simp only at hf1
  subst hf1
  simp only []
  unfold sema_up
  simp only [Kernel.getSema, Kernel.setSema, Kernel.setLock, Kernel.setThread, hlock, if_true]
  refine ⟨_, rfl, ?_, rfl, rfl, ?_⟩
  · simp [to_unsigned]
  · intro k hk
    simp [hk]

/-- C18: a lock that is free (no holder, semaphore at 1, no waiter), as
`lock_init` leaves it, is taken by `lock_acquire` without blocking: the
running thread becomes the holder and the semaphore goes to 0.  From any
later state in which that thread runs and the lock is as `lock_acquire` left
it, `lock_release` returns with the lock free again. -/
theorem lock_acquire_release_restores_free_lock (s : Kernel) (l : LockId) (fuel : Nat)
    (hctx : s.intr_context = false)
    (hrun : (s.threads s.current).status = .THREAD_RUNNING)
    (hfree : s.locks l = { holder := none, sema := { value := 1, waiters := [] } }) :
    (∀ s0, (lock_init s0 l).locks l = { holder := none, sema := { value := 1, waiters := [] } }) ∧
    ∃ s1, lock_acquire fuel s l = some (.returned s1) ∧
      s1.locks l = { holder := some s.current, sema := { value := 0, waiters := [] } } ∧
      s1.current = s.current ∧ s1.threads = s.threads ∧
      (∃ s2, lock_release s1 l = some s2 ∧
        s2.locks l = { holder := none, sema := { value := 1, waiters := [] } }) ∧
      ∀ sm, sm.locks l = s1.locks l → sm.current = s.current →
        (sm.threads sm.current).status = .THREAD_RUNNING →
        ∃ s2, lock_release sm l = some s2 ∧
          s2.locks l = { holder := none, sema := { value := 1, waiters := [] } } := by
  refine ⟨?_, ?_⟩
  · intro s0
    simp [lock_init, sema_init, Kernel.setSema, Kernel.setLock]
  · have hacq := lock_acquire_of_free fuel hctx hrun (by rw [hfree]) (by rw [hfree]; simp)
    have hl1 : ((s.setSema (.ofLock l) (fun sm => { sm with value := sm.value - 1 })).setLock
        l (fun lk => { lk with holder := some s.current })).locks l
        = { holder := some s.current, sema := { value := 0, waiters := [] } } := by
      simp [Kernel.setSema, Kernel.setLock, hfree]
    refine ⟨_, hacq, hl1, rfl, rfl, ?_, ?_⟩
    · obtain ⟨s2, h1, h2, -⟩ := lock_release_of_uncontended (s := (s.setSema (.ofLock l)
        (fun sm => { sm with value := sm.value - 1 })).setLock
        l (fun lk => { lk with holder := some s.current })) (l := l) hrun hl1
      exact ⟨s2, h1, h2⟩
    · intro sm hlock hcur hrunm
      rw [hl1, ← hcur] at hlock
      obtain ⟨s2, h1, h2, -⟩ := lock_release_of_uncontended hrunm hlock
      exact ⟨s2, h1, h2⟩

/-- C18 at work: `main` takes and gives back lock 1 in `booted`. -/
theorem lock_acquire_release_restores_free_lock_witness :
    booted.intr_context = false ∧
    (booted.threads booted.current).status = .THREAD_RUNNING ∧
    booted.locks 1 = { holder := none, sema := { value := 1, waiters := [] } } ∧
    ((∀ s0, (lock_init s0 1).locks 1 = { holder := none, sema := { value := 1, waiters := [] } }) ∧
    ∃ s1, lock_acquire 8 booted 1 = some (.returned s1) ∧
      s1.locks 1 = { holder := some booted.current, sema := { value := 0, waiters := [] } } ∧
      s1.current = booted.current ∧ s1.threads = booted.threads ∧
      (∃ s2, lock_release s1 1 = some s2 ∧
        s2.locks 1 = { holder := none, sema := { value := 1, waiters := [] } }) ∧
      ∀ sm, sm.locks 1 = s1.locks 1 → sm.current = booted.current →
        (sm.threads sm.current).status = .THREAD_RUNNING →
        ∃ s2, lock_release sm 1 = some s2 ∧
          s2.locks 1 = { holder := none, sema := { value := 1, waiters := [] } }) :=
  ⟨rfl, rfl, rfl, lock_acquire_release_restores_free_lock booted 1 8 rfl rfl rfl⟩

/-! ### MLFQ bookkeeping -/

theorem SchedFrame.recent_cpu {s s2 : Kernel} (h : SchedFrame s s2) (u : Tid) :
    (s2.threads u).recent_cpu = (s.threads u).recent_cpu := by
  have := congrArg thread.recent_cpu (h.1 u)
  simpa using this

theorem thread_awake_loop_frame (now : Int) :
    ∀ (ds : List Tid) (s : Kernel) (kept : List Tid) (s2 : Kernel),
      thread_awake_loop now ds s = some (kept, s2) → SchedFrame s s2 := by
  intro ds
  induction ds with
  | nil =>
    intro s kept s2 h
    simp only [thread_awake_loop, Option.some.injEq, Prod.mk.injEq] at h
    rw [← h.2]
    exact SchedFrame.refl s
  | cons e rest ih =>
    intro s kept s2 h
    unfold thread_awake_loop at h
    by_cases hdue : (s.threads e).awake_tick ≤ now
    · rw [if_pos hdue] at h
      cases hu : thread_unblock s e with
      | none => simp [hu] at h
      | some s1 =>
        simp only [hu] at h
        exact SchedFrame.trans (thread_unblock_frame hu) (ih s1 kept s2 h)
    · rw [if_neg hdue] at h
      cases hl : thread_awake_loop now rest s with
      | none => simp [hl] at h
      | some p =>
        obtain ⟨k1, s1⟩ := p
        simp only [hl, Option.some.injEq, Prod.mk.injEq] at h
        rw [← h.2]
        exact ih s k1 s1 hl

theorem thread_awake_frame {s s2 : Kernel} {now : Int} (h : thread_awake s now = some s2) :
    SchedFrame s s2 := by
  unfold thread_awake at h
  by_cases he : s.sleep_list = []
  · rw [if_pos he] at h
    simp only [Option.some.injEq] at h
    subst h
    exact SchedFrame.refl s
  · rw [if_neg he] at h
    cases hl : thread_awake_loop now s.sleep_list s with
    | none => simp [hl] at h
    | some p =>
      obtain ⟨k1, s1⟩ := p
      simp only [hl, Option.some.injEq] at h
      subst h
      exact SchedFrame.trans (thread_awake_loop_frame now _ s k1 s1 hl)
        (SchedFrame.of_threads (fun _ => rfl) rfl)

theorem thread_tick_threads {s s2 : Kernel} (h : thread_tick s = some s2) :
    s2.threads = s.threads := by
  unfold thread_tick at h
  cases hc : thread_current s with
  | none => simp [hc] at h
  | some t =>
    simp only [hc] at h
    split at h <;> split at h <;>
      (simp only [Option.some.injEq] at h; subst h; rfl)

theorem timer_interrupt_recent_cpu {s s2 : Kernel}
    (h : timer_interrupt thread_awake s = some s2) (t : Tid) :
    (s2.threads t).recent_cpu = (s.threads t).recent_cpu := by
  unfold timer_interrupt at h
  simp only [] at h
  cases ht : thread_tick { s with ticks := to_int64 (s.ticks + 1) } with
  | none => simp [ht] at h
  | some s1 =>
    simp only [ht] at h
    rw [(thread_awake_frame h).recent_cpu t, thread_tick_threads ht]

/-- C21: `timer_interrupt` counts the tick, calls `thread_tick` (statistics and
time slice) and wakes the sleepers that are due; neither touches `recent_cpu`,
and `increase_recent_cpu` is called from nowhere.  So a timer tick leaves the
`recent_cpu` of every thread as it is, whatever `thread_mlfqs` says.  In
`mlfqs_tick_state` the running thread is not the idle thread and has
`recent_cpu` 0 before and after the tick, where a call of
`increase_recent_cpu` would have made it `2^14`. -/
theorem timer_interrupt_leaves_recent_cpu :
    (∀ s s2 : Kernel, timer_interrupt thread_awake s = some s2 →
      ∀ t, (s2.threads t).recent_cpu = (s.threads t).recent_cpu) ∧
    mlfqs_tick_state.thread_mlfqs = true ∧
    some mlfqs_tick_state.current ≠ mlfqs_tick_state.idle_thread ∧
    (mlfqs_tick_state.threads mlfqs_tick_state.current).recent_cpu = 0 ∧
    (∃ s2, timer_interrupt thread_awake mlfqs_tick_state = some s2 ∧
      s2.ticks = mlfqs_tick_state.ticks + 1 ∧ s2.current = mlfqs_tick_state.current ∧
      (s2.threads s2.current).recent_cpu = 0) ∧
    (∃ s3, increase_recent_cpu mlfqs_tick_state = some s3 ∧
      (s3.threads s3.current).recent_cpu = 2 ^ 14) ∧
    (∃ s4, increase_recent_cpu mlfqs_idle_state = some s4 ∧
      (s4.threads s4.current).recent_cpu =
        (mlfqs_idle_state.threads mlfqs_idle_state.current).recent_cpu) := by
  refine ⟨fun s s2 h t => timer_interrupt_recent_cpu h t, by decide, by decide, by decide,
    ⟨_, rfl, by decide, by decide, by decide⟩, ⟨_, rfl, by decide⟩, ⟨_, rfl, by decide⟩⟩

theorem recalculate_priority_ready_list (s : Kernel) :
    (recalculate_priority s).ready_list = s.ready_list := by
  unfold recalculate_priority
  generalize s.all_list = ts
  induction ts generalizing s with
  | nil => rfl
  | cons t rest ih =>
    simp only [List.foldl_cons]
    rw [ih]
    rfl

/-- C23: `recalculate_priority` writes the new priorities and leaves the ready
list as it is.  In `mlfqs_tick_state` the ready list is [4, 3], in order while
both threads have priority 31; the recomputation gives thread 4 (`nice` 5)
priority 53 and thread 3 (`nice` 0) priority 63, the ready list is still
[4, 3], and `next_thread_to_run` picks thread 4. -/
theorem recalculate_priority_leaves_ready_list_unsorted :
    (∀ s : Kernel, (recalculate_priority s).ready_list = s.ready_list) ∧
    mlfqs_tick_state.ready_list.Pairwise
      (fun a b => (mlfqs_tick_state.threads a).priority ≥ (mlfqs_tick_state.threads b).priority) ∧
    (recalculate_priority mlfqs_tick_state).ready_list = [4, 3] ∧
    ((recalculate_priority mlfqs_tick_state).threads 4).priority = 53 ∧
    ((recalculate_priority mlfqs_tick_state).threads 3).priority = 63 ∧
    ¬ (recalculate_priority mlfqs_tick_state).ready_list.Pairwise
      (fun a b => ((recalculate_priority mlfqs_tick_state).threads a).priority ≥
        ((recalculate_priority mlfqs_tick_state).threads b).priority) ∧
    (next_thread_to_run (recalculate_priority mlfqs_tick_state)).1 = some 4 := by
  refine ⟨recalculate_priority_ready_list, by decide, by decide, by decide, by decide, by decide,
    by decide⟩

/-! ### Fixed point: priority, load average, recent_cpu -/

theorem tdiv_four (r : Int) :
    Int.tdiv r 4 = if 0 ≤ r then r / 4 else -((-r) / 4) := by
  split
  · next h => exact Int.tdiv_eq_ediv h (by norm_num)
  · next h =>
    have h1 := Int.neg_tdiv (-r) 4
    rw [neg_neg] at h1
    rw [h1, Int.tdiv_eq_ediv (by omega) (by norm_num)]

theorem to_int64_eq {n : Int} (h1 : -9223372036854775808 ≤ n) (h2 : n < 9223372036854775808) :
    to_int64 n = n := by
  unfold to_int64
  norm_num
  omega

/-- `priority_cal` without the 32-bit wraps. -/
theorem priority_cal_eq (r nice : Int) (hr1 : -2147483648 ≤ r) (hr2 : r < 2147483648)
    (hn1 : -32768 ≤ nice) (hn2 : nice ≤ 32768) :
    priority_cal r nice = fp_to_int_round (1032192 - Int.tdiv r 4 - nice * 32768) := by
  have ht := tdiv_four r
  have e1 : div_mixed r 4 = Int.tdiv r 4 := by
    unfold div_mixed
    apply to_int32_eq <;> (rw [ht]; split <;> omega)
  have e2 : int_to_fp PRI_MAX = 1032192 := by decide
  have e3 : sub_fp 1032192 (Int.tdiv r 4) = 1032192 - Int.tdiv r 4 := by
    unfold sub_fp
    apply to_int32_eq <;> (rw [ht]; split <;> omega)
  have e4 : to_int32 (nice * 2) = nice * 2 := to_int32_eq (by omega) (by omega)
  have e5 : to_int32 (nice * 2 * FRACTIONAL) = nice * 32768 := by
    rw [fractional_eq, to_int32_eq (by omega) (by omega)]
    ring
  have e6 : sub_mixed (1032192 - Int.tdiv r 4) (nice * 2) =
      1032192 - Int.tdiv r 4 - nice * 32768 := by
    unfold sub_mixed
    rw [e5]
    apply to_int32_eq <;> (rw [ht]; split <;> omega)
  unfold priority_cal
  simp only []
  rw [e1, e2, e3, e4, e6]

/-- C22: for `nice` between `-2^15` and `2^15` (the valid values -20..20 among
them) and `recent_cpu` values `r1 ≤ r2` that fit in an `int`, `priority_cal`
gives `r2` at most the priority it gives `r1`; and `priority_cal (0, 0)` is
`PRI_MAX`, 63. -/
theorem priority_cal_antitone_in_recent_cpu (nice r1 r2 : Int)
    (hn1 : -(2 ^ 15) ≤ nice) (hn2 : nice ≤ 2 ^ 15)
    (h1 : -(2 ^ 31) ≤ r1) (h12 : r1 ≤ r2) (h2 : r2 < 2 ^ 31) :
    priority_cal r2 nice ≤ priority_cal r1 nice ∧
    priority_cal 0 0 = PRI_MAX ∧ PRI_MAX = 63 := by
  norm_num at hn1 hn2 h1 h2
  refine ⟨?_, by decide, by decide⟩
  rw [priority_cal_eq r1 nice (by omega) (by omega) hn1 hn2,
    priority_cal_eq r2 nice (by omega) (by omega) hn1 hn2]
  have ht1 := tdiv_four r1
  have ht2 := tdiv_four r2
  have hmono : Int.tdiv r1 4 ≤ Int.tdiv r2 4 := by
    rw [ht1, ht2]
    split <;> split <;> omega
  have hb1 : -536870912 ≤ Int.tdiv r1 4 ∧ Int.tdiv r1 4 ≤ 536870912 := by
    rw [ht1]; split <;> constructor <;> omega
  have hb2 : -536870912 ≤ Int.tdiv r2 4 ∧ Int.tdiv r2 4 ≤ 536870912 := by
    rw [ht2]; split <;> constructor <;> omega
  generalize Int.tdiv r1 4 = q1 at hmono hb1
  generalize Int.tdiv r2 4 = q2 at hmono hb2
  rw [fp_to_int_round_eq _ (by omega) (by omega), fp_to_int_round_eq _ (by omega) (by omega)]
  split <;> split <;> omega

/-- C22 at work: one tick more of `recent_cpu` at `nice` 0. -/
theorem priority_cal_antitone_in_recent_cpu_witness :
    (-(2 ^ 15) ≤ (0 : Int) ∧ (0 : Int) ≤ 2 ^ 15 ∧ -(2 ^ 31) ≤ (0 : Int) ∧
      (0 : Int) ≤ 4 * 2 ^ 14 ∧ (4 * 2 ^ 14 : Int) < 2 ^ 31) ∧
    (priority_cal (4 * 2 ^ 14) 0 ≤ priority_cal 0 0 ∧
      priority_cal 0 0 = PRI_MAX ∧ PRI_MAX = 63) ∧
    priority_cal (4 * 2 ^ 14) 0 = 62 :=
  ⟨by decide,
    priority_cal_antitone_in_recent_cpu 0 0 (4 * 2 ^ 14) (by decide) (by decide) (by decide)
      (by decide) (by decide),
    by decide⟩

/-- `load_avg_cal` without the wraps. -/
theorem load_avg_cal_eq (load n : Int) (h0 : 0 ≤ load) (h1 : load < 2147483648)
    (hn0 : 0 ≤ n) (hn : n < 131072) :
    load_avg_cal load n = 16110 * load / 16384 + 273 * n := by
  have e1 : div_mixed (int_to_fp 59) 60 = 16110 := by decide
  have e2 : div_mixed (int_to_fp 1) 60 = 273 := by decide
  have e3 : mult_fp 16110 load = 16110 * load / 16384 := by
    unfold mult_fp
    rw [fractional_eq, to_int64_eq (by omega) (by omega),
      tdiv_fractional_of_nonneg (by omega)]
    exact to_int32_eq (by omega) (by omega)
  have e4 : mult_mixed 273 n = 273 * n := by
    unfold mult_mixed
    exact to_int32_eq (by omega) (by omega)
  unfold load_avg_cal
  simp only []
  rw [e1, e2, e3, e4]
  unfold add_fp
  exact to_int32_eq (by omega) (by omega)


theorem load_avg_cal_bounds (load n : Int) (h0 : 0 ≤ load) (h1 : load ≤ n * 16384)
    (hn0 : 0 ≤ n) (hn : n < 131072) :
    60 * load_avg_cal load n ≤ 59 * load + n * 16384 ∧
    59 * load + n * 16384 ≤ 60 * (load_avg_cal load n + (n + 1)) := by
  rw [load_avg_cal_eq load n h0 (by omega) hn0 hn]
  constructor <;> omega

theorem ready_threads_count_eq (s : Kernel) (cur : Tid)
    (hlen : (s.ready_list.length : Int) + 1 < 131072) :
    ready_threads_count s cur =
      (s.ready_list.length : Int) + (if some cur = s.idle_thread then 0 else 1) := by
  unfold ready_threads_count
  simp only []
  have e1 : to_int32 (s.ready_list.length : Int) = s.ready_list.length :=
    to_int32_eq (by omega) (by omega)
  rw [e1]
  split
  · simp
  · exact to_int32_eq (by omega) (by omega)

/-- C25: `recalculate_load_avg` stores `load_avg_cal (load_avg, n)`, where `n` is
the length of the ready list, plus one when the running thread is not the idle
thread.  That value is `mult_fp (int_to_fp (59) / 60, load_avg)` plus
`(int_to_fp (1) / 60) * n`, the quotients being 16110 and 273; and for
`0 ≤ load_avg ≤ int_to_fp (n)` it is at most the exact
`(59 * load_avg + n * 2^14) / 60` and at most `n + 1` below it. -/
theorem recalculate_load_avg_moving_average (s : Kernel)
    (hrun : (s.threads s.current).status = .THREAD_RUNNING)
    (hlen : (s.ready_list.length : Int) + 1 < 2 ^ 17)
    (h0 : 0 ≤ s.load_avg)
    (h1 : s.load_avg ≤ int_to_fp (ready_threads_count s s.current)) :
    ready_threads_count s s.current =
      (s.ready_list.length : Int) + (if some s.current = s.idle_thread then 0 else 1) ∧
    ∃ s2, recalculate_load_avg s = some s2 ∧
      s2.threads = s.threads ∧ s2.ready_list = s.ready_list ∧
      s2.load_avg =
        add_fp (mult_fp (div_mixed (int_to_fp 59) 60) s.load_avg)
          (mult_mixed (div_mixed (int_to_fp 1) 60) (ready_threads_count s s.current)) ∧
      div_mixed (int_to_fp 59) 60 = 16110 ∧ div_mixed (int_to_fp 1) 60 = 273 ∧
      s2.load_avg = 16110 * s.load_avg / 16384 + 273 * ready_threads_count s s.current ∧
      60 * s2.load_avg ≤ 59 * s.load_avg + ready_threads_count s s.current * 2 ^ 14 ∧
      59 * s.load_avg + ready_threads_count s s.current * 2 ^ 14 ≤
        60 * (s2.load_avg + (ready_threads_count s s.current + 1)) := by
  norm_num at hlen ⊢
  have hcount := ready_threads_count_eq s s.current (by omega)
  refine ⟨hcount, ?_⟩
  have hn0 : 0 ≤ ready_threads_count s s.current := by
    rw [hcount]; split <;> omega
  have hn : ready_threads_count s s.current < 131072 := by
    rw [hcount]; split <;> omega
  have hrec : recalculate_load_avg s =
      some { s with load_avg := load_avg_cal s.load_avg (ready_threads_count s s.current) } := by
    unfold recalculate_load_avg
    rw [thread_current_eq hrun]
  generalize ready_threads_count s s.current = n at h1 hn0 hn hrec
  have hfp : int_to_fp n = n * 16384 := by
    unfold int_to_fp
    rw [fractional_eq, to_int32_eq (by omega) (by omega)]
  rw [hfp] at h1
  have hb := load_avg_cal_bounds s.load_avg n h0 h1 hn0 hn
  have he := load_avg_cal_eq s.load_avg n h0 (by omega) hn0 hn
  exact ⟨{ s with load_avg := load_avg_cal s.load_avg n }, hrec, rfl, rfl, rfl, by decide,
    by decide, he, hb.1, hb.2⟩

/-- C25 at work: in `mlfqs_tick_state` two threads are ready and `main` runs, so
three threads are counted and `load_avg` goes from 0 to `3 * 273`. -/
theorem recalculate_load_avg_moving_average_witness :
    (mlfqs_tick_state.threads mlfqs_tick_state.current).status = .THREAD_RUNNING ∧
    (mlfqs_tick_state.ready_list.length : Int) + 1 < 2 ^ 17 ∧
    0 ≤ mlfqs_tick_state.load_avg ∧
    mlfqs_tick_state.load_avg ≤
      int_to_fp (ready_threads_count mlfqs_tick_state mlfqs_tick_state.current) ∧
    (ready_threads_count mlfqs_tick_state mlfqs_tick_state.current =
      (mlfqs_tick_state.ready_list.length : Int) +
        (if some mlfqs_tick_state.current = mlfqs_tick_state.idle_thread then 0 else 1) ∧
    ∃ s2, recalculate_load_avg mlfqs_tick_state = some s2 ∧
      s2.threads = mlfqs_tick_state.threads ∧ s2.ready_list = mlfqs_tick_state.ready_list ∧
      s2.load_avg =
        add_fp (mult_fp (div_mixed (int_to_fp 59) 60) mlfqs_tick_state.load_avg)
          (mult_mixed (div_mixed (int_to_fp 1) 60)
            (ready_threads_count mlfqs_tick_state mlfqs_tick_state.current)) ∧
      div_mixed (int_to_fp 59) 60 = 16110 ∧ div_mixed (int_to_fp 1) 60 = 273 ∧
      s2.load_avg = 16110 * mlfqs_tick_state.load_avg / 16384 +
        273 * ready_threads_count mlfqs_tick_state mlfqs_tick_state.current ∧
      60 * s2.load_avg ≤ 59 * mlfqs_tick_state.load_avg +
        ready_threads_count mlfqs_tick_state mlfqs_tick_state.current * 2 ^ 14 ∧
      59 * mlfqs_tick_state.load_avg +
          ready_threads_count mlfqs_tick_state mlfqs_tick_state.current * 2 ^ 14 ≤
        60 * (s2.load_avg + (ready_threads_count mlfqs_tick_state mlfqs_tick_state.current + 1))) ∧
    ready_threads_count mlfqs_tick_state mlfqs_tick_state.current = 3 ∧
    (∃ s2, recalculate_load_avg mlfqs_tick_state = some s2 ∧ s2.load_avg = 819) ∧
    (∃ s2, recalculate_load_avg mlfqs_idle_state = some s2 ∧ s2.load_avg = 0) :=
  ⟨by decide, by decide, by decide, by decide,
    recalculate_load_avg_moving_average mlfqs_tick_state (by decide) (by decide) (by decide)
      (by decide),
    by decide, ⟨_, rfl, by decide⟩, ⟨_, rfl, by decide⟩⟩

/-- The decay coefficient of `recent_cpu_cal` for a load average below
`2^30 - 2^13`. -/
theorem decay_bounds (load : Int) (h0 : 0 ≤ load) (h1 : load < 1073733632) :
    add_mixed (to_int32 (load * 2)) 1 = 2 * load + 16384 ∧
    0 ≤ div_fp (to_int32 (load * 2)) (add_mixed (to_int32 (load * 2)) 1) ∧
    div_fp (to_int32 (load * 2)) (add_mixed (to_int32 (load * 2)) 1) < 16384 := by
  have e1 : to_int32 (load * 2) = 2 * load := by
    rw [to_int32_eq (by omega) (by omega)]; ring
  have e2 : add_mixed (2 * load) 1 = 2 * load + 16384 := by
    unfold add_mixed
    rw [fractional_eq]
    have : to_int32 (1 * 16384) = 16384 := by decide
    rw [this]
    exact to_int32_eq (by omega) (by omega)
  rw [e1, e2]
  have hd : (0 : Int) < 2 * load + 16384 := by omega
  have hq0 : 0 ≤ 2 * load * 16384 / (2 * load + 16384) :=
    Int.ediv_nonneg (by omega) (by omega)
  have hq1 : 2 * load * 16384 / (2 * load + 16384) < 16384 :=
    Int.ediv_lt_of_lt_mul hd (by nlinarith)
  have e3 : div_fp (2 * load) (2 * load + 16384) = 2 * load * 16384 / (2 * load + 16384) := by
    unfold div_fp
    rw [fractional_eq, to_int64_eq (by omega) (by omega),
      Int.tdiv_eq_ediv (by omega) (by omega)]
    exact to_int32_eq (by omega) (by omega)
  rw [e3]
  exact ⟨rfl, hq0, hq1⟩

theorem mult_fp_decay (q rc : Int) (hq0 : 0 ≤ q) (hq1 : q < 16384)
    (hr1 : -2147483648 ≤ rc) (hr2 : rc < 2147483648) :
    |mult_fp q rc| ≤ |rc| := by
  unfold mult_fp
  rw [fractional_eq]
  by_cases hrc : 0 ≤ rc
  · have hp0 : 0 ≤ q * rc := mul_nonneg hq0 hrc
    have hp1 : q * rc ≤ 16384 * rc := by nlinarith
    generalize q * rc = p at hp0 hp1
    rw [to_int64_eq (by omega) (by omega), tdiv_fractional_of_nonneg hp0,
      to_int32_eq (by omega) (by omega), abs_of_nonneg hrc,
      abs_of_nonneg (show 0 ≤ p / 16384 by omega)]
    omega
  · have hp0 : q * rc ≤ 0 := by nlinarith
    have hp1 : 16384 * rc ≤ q * rc := by nlinarith
    generalize q * rc = p at hp0 hp1
    rw [to_int64_eq (by omega) (by omega), tdiv_fractional_of_nonpos hp0,
      to_int32_eq (by omega) (by omega), abs_of_neg (show rc < 0 by omega),
      abs_of_nonpos (show -(-p / 16384) ≤ 0 by omega)]
    omega

/-- C26, counterexample: for `load_avg = 2^30 - 1` the divisor
`add_mixed (load_avg * 2, 1)` has wrapped to a negative `int` and the decay
coefficient is `-2^14`; for `load_avg = 134209536`, `recent_cpu = 2^31 - 1` and
`nice = 20` the sum in `recent_cpu_cal` wraps; and `load_avg_cal (0, n)` is
negative for `n = 7866353`. -/
theorem recent_cpu_cal_wraps_below_two_pow_thirty :
    (0 : Int) ≤ 2 ^ 30 - 1 ∧ (2 ^ 30 - 1 : Int) < 2 ^ 30 ∧
    add_mixed (to_int32 ((2 ^ 30 - 1) * 2)) 1 = -2147467266 ∧
    div_fp (to_int32 ((2 ^ 30 - 1) * 2)) (add_mixed (to_int32 ((2 ^ 30 - 1) * 2)) 1) = -(2 ^ 14) ∧
    recent_cpu_cal (2 ^ 14) (2 ^ 30 - 1) 0 = -(2 ^ 14) ∧
    (134209536 : Int) < 2 ^ 30 ∧
    recent_cpu_cal (2 ^ 31 - 1) 134209536 20 = -2147287041 ∧
    ¬ |recent_cpu_cal (2 ^ 31 - 1) 134209536 20 - 20 * 2 ^ 14| ≤ |(2 ^ 31 - 1 : Int)| ∧
    load_avg_cal 0 7866353 = -2147452927 := by
  decide

/-- C26, amended: `load_avg_cal (load, n)` is not negative for `0 ≤ load < 2^31`
and `0 ≤ n < 2^17`.  For `0 ≤ load_avg < 2^30 - 2^13` the divisor of the decay
division in `recent_cpu_cal` is `2 * load_avg + 2^14`, which is positive, and
the decay coefficient lies in `[0, 2^14)`; then, for `|rc| + |nice| * 2^14`
below `2^31`, `recent_cpu_cal (rc, load_avg, nice)` differs from `nice * 2^14`
by at most `|rc|`.  And `recent_cpu_cal (rc, 0, nice)` is `int_to_fp (nice)`. -/
theorem recent_cpu_cal_decay_in_range (load n rc nice : Int)
    (h0 : 0 ≤ load) (h1 : load < 2 ^ 30 - 2 ^ 13) (hn0 : 0 ≤ n) (hn : n < 2 ^ 17)
    (hrc : |rc| + |nice| * 2 ^ 14 < 2 ^ 31) :
    (∀ load2, 0 ≤ load2 → load2 < 2 ^ 31 → 0 ≤ load_avg_cal load2 n) ∧
    add_mixed (to_int32 (load * 2)) 1 = 2 * load + 2 ^ 14 ∧
    0 < add_mixed (to_int32 (load * 2)) 1 ∧
    0 ≤ div_fp (to_int32 (load * 2)) (add_mixed (to_int32 (load * 2)) 1) ∧
    div_fp (to_int32 (load * 2)) (add_mixed (to_int32 (load * 2)) 1) < 2 ^ 14 ∧
    |recent_cpu_cal rc load nice - nice * 2 ^ 14| ≤ |rc| ∧
    recent_cpu_cal rc 0 nice = int_to_fp nice := by
  norm_num at h1 hn hrc ⊢
  obtain ⟨hd1, hd2, hd3⟩ := decay_bounds load h0 h1
  have ha1 := le_abs_self rc
  have ha2 := neg_abs_le rc
  have ha3 := le_abs_self nice
  have ha4 := neg_abs_le nice
  have ha5 := abs_nonneg rc
  have ha6 := abs_nonneg nice
  refine ⟨?_, hd1, by rw [hd1]; omega, hd2, hd3, ?_, ?_⟩
  · intro load2 hl0 hl1
    rw [load_avg_cal_eq load2 n hl0 hl1 hn0 hn]
    omega
  · unfold recent_cpu_cal
    simp only []
    generalize div_fp (to_int32 (load * 2)) (add_mixed (to_int32 (load * 2)) 1) = q at hd2 hd3
    have hm := mult_fp_decay q rc hd2 hd3 (by omega) (by omega)
    have hm1 := le_abs_self (mult_fp q rc)
    have hm2 := neg_abs_le (mult_fp q rc)
    generalize mult_fp q rc = m at hm hm1 hm2
    unfold add_mixed
    rw [fractional_eq, to_int32_eq (n := nice * 16384) (by omega) (by omega),
      to_int32_eq (by omega) (by omega)]
    have : m + nice * 16384 - nice * 16384 = m := by ring
    rw [this]
    exact hm
  · have e1 : div_fp (to_int32 (0 * 2)) (add_mixed (to_int32 (0 * 2)) 1) = 0 := by decide
    unfold recent_cpu_cal
    simp only []
    rw [e1]
    have e2 : mult_fp 0 rc = 0 := by
      unfold mult_fp
      rw [zero_mul]
      decide
    rw [e2]
    unfold add_mixed int_to_fp
    rw [zero_add]
    unfold to_int32
    omega

/-- C26 at work: a load average of 1 (`2^14`), `recent_cpu` 100 and `nice` 5. -/
theorem recent_cpu_cal_decay_in_range_witness :
    ((0 : Int) ≤ 2 ^ 14 ∧ (2 ^ 14 : Int) < 2 ^ 30 - 2 ^ 13 ∧ (0 : Int) ≤ 3 ∧ (3 : Int) < 2 ^ 17 ∧
      |(100 * 2 ^ 14 : Int)| + |(5 : Int)| * 2 ^ 14 < 2 ^ 31) ∧
    ((∀ load2, 0 ≤ load2 → load2 < 2 ^ 31 → 0 ≤ load_avg_cal load2 3) ∧
      add_mixed (to_int32 (2 ^ 14 * 2)) 1 = 2 * 2 ^ 14 + 2 ^ 14 ∧
      0 < add_mixed (to_int32 (2 ^ 14 * 2)) 1 ∧
      0 ≤ div_fp (to_int32 (2 ^ 14 * 2)) (add_mixed (to_int32 (2 ^ 14 * 2)) 1) ∧
      div_fp (to_int32 (2 ^ 14 * 2)) (add_mixed (to_int32 (2 ^ 14 * 2)) 1) < 2 ^ 14 ∧
      |recent_cpu_cal (100 * 2 ^ 14) (2 ^ 14) 5 - 5 * 2 ^ 14| ≤ |(100 * 2 ^ 14 : Int)| ∧
      recent_cpu_cal (100 * 2 ^ 14) 0 5 = int_to_fp 5) ∧
    div_fp (to_int32 (2 ^ 14 * 2)) (add_mixed (to_int32 (2 ^ 14 * 2)) 1) = 10922 ∧
    recent_cpu_cal (100 * 2 ^ 14) (2 ^ 14) 5 = 1174120 :=
  ⟨by decide,
    recent_cpu_cal_decay_in_range (2 ^ 14) 3 (100 * 2 ^ 14) 5 (by decide) (by decide) (by decide)
      (by decide) (by decide),
    by decide, by decide⟩

/-! ### cond_broadcast -/

theorem schedule_switch_conds (s : Kernel) (next : Tid) :
    (schedule_switch s next).conds = s.conds := by
  unfold schedule_switch
  simp only
  split
  · split <;> rfl
  · rfl

theorem schedule_conds {s s2 : Kernel} (h : schedule s = some s2) : s2.conds = s.conds := by
  cases hr : s.ready_list with
  | nil =>
    rw [schedule_of_nil hr] at h
    split at h
    · simp at h
    · split at h
      · simp at h
      · simp only [Option.some.injEq] at h
        subst h
        exact schedule_switch_conds s _
  | cons t rest =>
    rw [schedule_of_cons hr] at h
    split at h
    · simp at h
    · simp only [Option.some.injEq] at h
      subst h
      exact schedule_switch_conds _ t

/-- What a successful `thread_yield` leaves alone, and who may be in the ready
list after it. -/
theorem thread_yield_rest {s s2 : Kernel} (h : thread_yield s = some s2) :
    s2.conds = s.conds ∧ s2.intr_context = s.intr_context ∧ s2.semas = s.semas ∧
    s2.locks = s.locks ∧ (s2.threads s2.current).status = .THREAD_RUNNING ∧
    (s.threads s.current).status = .THREAD_RUNNING ∧
    (∀ x ∈ s2.ready_list, x = s.current ∨ x ∈ s.ready_list) := by
  unfold thread_yield at h
  cases hc : thread_current s with
  | none => simp [hc] at h
  | some curr =>
    obtain ⟨rfl, hrun⟩ := thread_current_some hc
    simp only [hc] at h
    by_cases hctx : s.intr_context = true
    · simp [hctx] at h
    · rw [if_neg hctx] at h
      generalize hs1 : (if some s.current ≠ s.idle_thread then
          ({ s with ready_list :=
              list_insert_ordered (compare_thread_priority s) s.current s.ready_list } : Kernel)
          else s) = s1 at h
      have hconds1 : s1.conds = s.conds := by rw [← hs1]; split <;> rfl
      have hintr1 : s1.intr_context = s.intr_context := by rw [← hs1]; split <;> rfl
      have hsemas1 : s1.semas = s.semas := by rw [← hs1]; split <;> rfl
      have hlocks1 : s1.locks = s.locks := by rw [← hs1]; split <;> rfl
      have hready1 : ∀ x, x ∈ s1.ready_list → x = s.current ∨ x ∈ s.ready_list := by
        intro x hx
        rw [← hs1] at hx
        split at hx
        · have := (list_insert_ordered_perm (compare_thread_priority s) s.current
            s.ready_list).subset hx
          simpa using this
        · exact Or.inr hx
      obtain ⟨-, h⟩ := do_schedule_some h
      have hc2 := schedule_conds h
      obtain ⟨next, -, hth, hlocks, hsemas, hrl, hnext, -, hintr⟩ := schedule_spec h
      refine ⟨by rw [hc2]; exact hconds1, by rw [hintr]; exact hintr1,
        by rw [hsemas]; exact hsemas1, ?_, ?_, hrun, ?_⟩
      · rw [hlocks]; exact hlocks1
      · rw [hnext, hth, setThread_threads, if_pos rfl]
      · intro x hx
        rw [hrl] at hx
        exact hready1 x (List.mem_of_mem_tail hx)

theorem thread_yield_blocked {s s2 : Kernel} (h : thread_yield s = some s2)
    (hready : ∀ x ∈ s.ready_list, (s.threads x).status ≠ .THREAD_BLOCKED) :
    (∀ x, (s.threads x).status = .THREAD_BLOCKED → (s2.threads x).status = .THREAD_BLOCKED) ∧
    (∀ x ∈ s2.ready_list, (s2.threads x).status ≠ .THREAD_BLOCKED) := by
  obtain ⟨-, h2, h3⟩ := thread_yield_status h
  obtain ⟨-, -, -, -, -, hrun, hrl⟩ := thread_yield_rest h
  constructor
  · intro x hx
    rw [h2 x ?_ ?_]
    · exact hx
    · intro hEq
      rw [hEq, hrun] at hx
      exact absurd hx (by decide)
    · intro hmem
      exact hready x hmem hx
  · intro x hx
    apply h3
    rcases hrl x hx with h1 | h1
    · rw [h1, hrun]; decide
    · exact hready x h1

/-- What `sema_up` on a semaphore of its own does to the rest of the state. -/
theorem sema_up_standalone_effect {s s2 : Kernel} {w : Nat}
    (hrun : (s.threads s.current).status = .THREAD_RUNNING)
    (hready : ∀ x ∈ s.ready_list, (s.threads x).status ≠ .THREAD_BLOCKED)
    (h : sema_up s (.standalone w) = some s2) :
    (s2.threads s2.current).status = .THREAD_RUNNING ∧
    s2.conds = s.conds ∧ s2.intr_context = s.intr_context ∧ s2.locks = s.locks ∧
    (∀ i, i ≠ w → s2.semas i = s.semas i) ∧
    (s2.semas w).value = to_unsigned ((s.semas w).value + 1) ∧
    (∀ x ∈ s2.ready_list, (s2.threads x).status ≠ .THREAD_BLOCKED) ∧
    (∀ x, (s.threads x).status = .THREAD_BLOCKED → x ∉ (s.semas w).waiters →
      (s2.threads x).status = .THREAD_BLOCKED) := by
  unfold sema_up at h
  simp only [] at h
  generalize hs1 : s.setSema (.standalone w)
    (fun sm => { sm with value := to_unsigned (sm.value + 1) }) = s1 at h
  have hc1 : s1.conds = s.conds := by rw [← hs1]; rfl
  have hi1 : s1.intr_context = s.intr_context := by rw [← hs1]; rfl
  have hl1 : s1.locks = s.locks := by rw [← hs1]; rfl
  have ht1 : s1.threads = s.threads := by rw [← hs1]; rfl
  have hr1 : s1.ready_list = s.ready_list := by rw [← hs1]; rfl
  have hs1o : ∀ i, i ≠ w → s1.semas i = s.semas i := by
    intro i hi; rw [← hs1]; simp [Kernel.setSema, hi]
  have hs1v : (s1.semas w).value = to_unsigned ((s.semas w).value + 1) := by
    rw [← hs1]; simp [Kernel.setSema]
  have hs1w : (s1.semas w).waiters = (s.semas w).waiters := by
    rw [← hs1]; simp [Kernel.setSema]
  by_cases hw : (s1.getSema (.standalone w)).waiters = []
  · rw [if_pos hw] at h
    simp only [Option.some.injEq] at h
    subst h
    refine ⟨?_, hc1, hi1, hl1, hs1o, hs1v, ?_, ?_⟩
    · rw [ht1]; rw [← hs1]; exact hrun
    · intro x hx; rw [ht1]; rw [hr1] at hx; exact hready x hx
    · intro x hx _; rw [ht1]; exact hx
  · rw [if_neg hw] at h
    have hperm := list_sort_perm (compare_thread_priority s1) (s1.getSema (.standalone w)).waiters
    cases hsort : list_sort (compare_thread_priority s1) (s1.getSema (.standalone w)).waiters with
    | nil => simp [hsort] at h
    | cons temp rest =>
      simp only [hsort] at h
      have htemp : temp ∈ (s.semas w).waiters := by
        rw [← hs1w]
        apply hperm.subset
        rw [hsort]
        exact List.mem_cons_self _ _
      generalize hs2 : s1.setSema (.standalone w) (fun sm => { sm with waiters := rest }) = sb at h
      have hc2 : sb.conds = s.conds := by rw [← hs2]; exact hc1
      have hi2 : sb.intr_context = s.intr_context := by rw [← hs2]; exact hi1
      have hl2 : sb.locks = s.locks := by rw [← hs2]; exact hl1
      have ht2 : sb.threads = s.threads := by rw [← hs2]; exact ht1
      have hr2 : sb.ready_list = s.ready_list := by rw [← hs2]; exact hr1
      have hs2o : ∀ i, i ≠ w → sb.semas i = s.semas i := by
        intro i hi; rw [← hs2, ← hs1o i hi]; simp [Kernel.setSema, hi]
      have hs2v : (sb.semas w).value = to_unsigned ((s.semas w).value + 1) := by
        rw [← hs2, ← hs1v]; simp [Kernel.setSema]
      cases hu : thread_unblock sb temp with
      | none => simp [hu] at h
      | some s3 =>
        simp only [hu] at h
        have hu2 := hu
        unfold thread_unblock at hu2
        by_cases hb : (sb.threads temp).status ≠ .THREAD_BLOCKED
        · simp [hb] at hu2
        · rw [if_neg hb] at hu2
          simp only [Option.some.injEq] at hu2
          have hc3 : s3.conds = s.conds := by rw [← hu2]; exact hc2
          have hi3 : s3.intr_context = s.intr_context := by rw [← hu2]; exact hi2
          have hl3 : s3.locks = s.locks := by rw [← hu2]; exact hl2
          have hsem3 : s3.semas = sb.semas := by rw [← hu2]; rfl
          have hst3 : ∀ x, (s3.threads x).status =
              if x = temp then .THREAD_READY else (s.threads x).status := by
            intro x
            rw [← hu2, setThread_threads]
            by_cases hx : x = temp
            · simp [hx]
            · simp only [if_neg hx]
              show (sb.threads x).status = _
              rw [ht2]
          have hr3 : ∀ x ∈ s3.ready_list, x = temp ∨ x ∈ s.ready_list := by
            intro x hx
            rw [← hu2] at hx
            have := (list_insert_ordered_perm (compare_thread_priority sb) temp
              sb.ready_list).subset hx
            rw [hr2] at this
            simpa using this
          have hready3 : ∀ x ∈ s3.ready_list, (s3.threads x).status ≠ .THREAD_BLOCKED := by
            intro x hx
            rw [hst3]
            by_cases hxt : x = temp
            · simp [hxt]
            · rw [if_neg hxt]
              rcases hr3 x hx with h1 | h1
              · exact absurd h1 hxt
              · exact hready x h1
          have hblk3 : ∀ x, (s.threads x).status = .THREAD_BLOCKED → x ∉ (s.semas w).waiters →
              (s3.threads x).status = .THREAD_BLOCKED := by
            intro x hx hnw
            have hne : ¬ x = temp := by
              intro hEq
              rw [hEq] at hnw
              exact hnw htemp
            rw [hst3, if_neg hne]
            exact hx
          cases hcur : thread_current s3 with
          | none => simp [hcur] at h
          | some cur =>
            simp only [hcur] at h
            by_cases hgt : (s3.threads temp).priority > (s3.threads cur).priority
            · rw [if_pos hgt] at h
              obtain ⟨y1, y2, y3, y4, y5, -, -⟩ := thread_yield_rest h
              obtain ⟨z1, z2⟩ := thread_yield_blocked h hready3
              refine ⟨y5, by rw [y1, hc3], by rw [y2, hi3], by rw [y4, hl3], ?_, ?_, z2, ?_⟩
              · intro i hi; rw [y3, hsem3]; exact hs2o i hi
              · rw [y3, hsem3]; exact hs2v
              · intro x hx hnw; exact z1 x (hblk3 x hx hnw)
            · rw [if_neg hgt] at h
              simp only [Option.some.injEq] at h
              subst h
              refine ⟨(thread_current_some hcur).2, hc3, hi3, hl3, ?_, ?_, hready3, hblk3⟩
              · intro i hi; rw [hsem3]; exact hs2o i hi
              · rw [hsem3]; exact hs2v

theorem setCond_conds (s : Kernel) (c : Nat) (ws : List Nat) : (s.setCond c ws).conds c = ws := by
  simp [Kernel.setCond]

/-- One `cond_signal` by a thread that may call it, on a condition with waiters:
it returns or ends in a yield, has taken the front `w` of the sorted waiter
list out of the list, has upped the semaphore of `w` once and no other, and
if the caller still has the CPU it may call `cond_signal` again. -/
theorem cond_signal_step {T : Tid} {c : Nat} {l : LockId} {s : Kernel}
    (hready : CondReady T c l s) (hne : s.conds c ≠ []) :
    ∃ w rest s1, list_sort (compare_sema_priority s) (s.conds c) = w :: rest ∧
      cond_signal s c l = some s1 ∧ cond_signal_waiter s c = some w ∧
      s1.conds c = rest ∧ (w :: rest).Perm (s.conds c) ∧
      (∀ i, i ≠ w → s1.semas i = s.semas i) ∧
      (s1.semas w).value = to_unsigned ((s.semas w).value + 1) ∧
      (s1.current = s.current → CondReady T c l s1) := by
  obtain ⟨hctx, hcur, hrun, hheld, hrl, hnodup, hblk, hpair⟩ := hready
  subst hcur
  have hperm := list_sort_perm (compare_sema_priority s) (s.conds c)
  cases hsort : list_sort (compare_sema_priority s) (s.conds c) with
  | nil =>
    rw [hsort] at hperm
    exact absurd hperm.symm.eq_nil hne
  | cons w rest =>
    rw [hsort] at hperm
    have hwmem : w ∈ s.conds c := hperm.subset (List.mem_cons_self _ _)
    have hnd : (w :: rest).Nodup := hperm.nodup_iff.mpr hnodup
    have hsym : ∀ a b : Nat, (∀ x ∈ (s.semas a).waiters, x ∉ (s.semas b).waiters) →
        (∀ x ∈ (s.semas b).waiters, x ∉ (s.semas a).waiters) := by
      intro a b hab x hxb hxa
      exact hab x hxa hxb
    have hpair2 : (w :: rest).Pairwise
        (fun a b => ∀ x ∈ (s.semas a).waiters, x ∉ (s.semas b).waiters) :=
      (hperm.pairwise_iff (fun {a b} h => hsym a b h)).mpr hpair
    have hrun2 : ((s.setCond c rest).threads (s.setCond c rest).current).status
        = .THREAD_RUNNING := hrun
    have hblkw : ∀ x ∈ ((s.setCond c rest).getSema (.standalone w)).waiters,
        ((s.setCond c rest).threads x).status = .THREAD_BLOCKED := hblk w hwmem
    obtain ⟨s1, hup, -⟩ := sema_up_total_frame hrun2 hctx hblkw
    obtain ⟨e0, e1, e2, e3, e4, e5, e6, e7⟩ :=
      sema_up_standalone_effect (s := s.setCond c rest) hrun hrl hup
    have hsig : cond_signal s c l = some s1 := by
      unfold cond_signal
      rw [hctx]
      simp only [Bool.false_eq_true, if_false]
      rw [lock_held_by_current_thread_eq hrun hheld]
      simp only [if_neg hne, hsort]
      exact hup
    refine ⟨w, rest, s1, rfl, hsig, ?_, ?_, hperm, e4, e5, ?_⟩
    · unfold cond_signal_waiter
      rw [hsort]
      rfl
    · rw [e1]; exact setCond_conds s c rest
    · intro hc1
      have hcond1 : s1.conds c = rest := by rw [e1]; exact setCond_conds s c rest
      have hwrest : ∀ b ∈ rest, b ≠ w := by
        intro b hb hEq
        rw [hEq] at hb
        exact (List.nodup_cons.mp hnd).1 hb
      refine ⟨by rw [e2]; exact hctx, hc1, by rw [← hc1]; exact e0, by rw [e3]; exact hheld, e6,
        by rw [hcond1]; exact (List.nodup_cons.mp hnd).2, ?_, ?_⟩
      · intro b hb x hx
        rw [hcond1] at hb
        have hbw := hwrest b hb
        have e4b : s1.semas b = s.semas b := e4 b hbw
        rw [e4b] at hx
        apply e7 x (hblk b (hperm.subset (List.mem_cons_of_mem _ hb)) x hx)
        intro hxw
        exact (List.pairwise_cons.mp hpair2).1 b hb x hxw hx
      · rw [hcond1]
        refine List.Pairwise.imp_of_mem ?_ (List.pairwise_cons.mp hpair2).2
        intro a b ha hb hab x hx
        have e4a : s1.semas a = s.semas a := e4 a (hwrest a ha)
        have e4b : s1.semas b = s.semas b := e4 b (hwrest b hb)
        rw [e4a] at hx
        rw [e4b]
        exact hab x hx

theorem cond_broadcast_succ (fuel : Nat) (resumes : List Kernel) (s : Kernel) (c : Nat)
    (l : LockId) :
    cond_broadcast (fuel + 1) resumes s c l =
      if s.conds c = [] then some (0, [], s)
      else
        match cond_signal s c l with
        | none => none
        | some s1 =>
          if s1.current = s.current then
            match cond_broadcast fuel resumes s1 c l with
            | none => none
            | some (n, log, s2) => some (n + 1, (cond_signal_waiter s c).toList ++ log, s2)
          else
            match resumes with
            | [] => none
            | s2 :: rest =>
              match cond_broadcast fuel rest s2 c l with
              | none => none
              | some (n, log, s3) => some (n + 1, (cond_signal_waiter s c).toList ++ log, s3) :=
  rfl

theorem cond_broadcast_run (T : Tid) (c : Nat) (l : LockId) :
    ∀ (k : Nat) (s : Kernel) (resumes : List Kernel), (s.conds c).length = k →
      CondReady T c l s → resumed_ready T c l (k + 1) resumes s = true →
      ∃ log s2, cond_broadcast (k + 1) resumes s c l = some (k, log, s2) ∧
        log.Perm (s.conds c) ∧ s2.conds c = [] ∧
        (resumes = [] → ∀ i, (s2.semas i).value =
          if i ∈ s.conds c then to_unsigned ((s.semas i).value + 1) else (s.semas i).value) := by
  intro k
  induction k with
  | zero =>
    intro s resumes hk _ _
    have hnil : s.conds c = [] := List.length_eq_zero.mp hk
    refine ⟨[], s, ?_, by rw [hnil], hnil, ?_⟩
    · rw [cond_broadcast_succ, if_pos hnil]
    · intro _ i
      rw [hnil]
      simp
  | succ k ih =>
    intro s resumes hk hready hres
    have hne : s.conds c ≠ [] := by
      intro h0
      rw [h0] at hk
      simp at hk
    obtain ⟨w, rest, s1, -, hsig, hwaiter, hconds1, hperm, hothers, hvalue, hnext⟩ :=
      cond_signal_step hready hne
    have hlen1 : (s1.conds c).length = k := by
      have := hperm.length_eq
      rw [hconds1]
      simp only [List.length_cons] at this
      omega
    have hnd : (w :: rest).Nodup := hperm.nodup_iff.mpr hready.2.2.2.2.2.1
    unfold resumed_ready at hres
    rw [if_neg hne] at hres
    simp only [hsig] at hres
    rw [cond_broadcast_succ, if_neg hne]
    simp only [hsig, hwaiter]
    by_cases hc : s1.current = s.current
    · rw [if_pos hc] at hres ⊢
      obtain ⟨log, s2, hrun, hlog, hempty, hvals⟩ := ih s1 resumes hlen1 (hnext hc) hres
      refine ⟨w :: log, s2, ?_, ?_, hempty, ?_⟩
      · rw [hrun]
        rfl
      · rw [hconds1] at hlog
        exact (List.Perm.cons w hlog).trans hperm
      · intro hr i
        rw [hvals hr i, hconds1]
        have hmem : i ∈ s.conds c ↔ i = w ∨ i ∈ rest := by
          rw [← hperm.mem_iff]
          simp
        by_cases hiw : i = w
        · subst hiw
          have hnot : i ∉ rest := (List.nodup_cons.mp hnd).1
          rw [if_neg hnot, if_pos (hmem.mpr (Or.inl rfl)), hvalue]
        · rw [hothers i hiw]
          by_cases hir : i ∈ rest
          · rw [if_pos hir, if_pos (hmem.mpr (Or.inr hir))]
          · rw [if_neg hir, if_neg (fun h => (hmem.mp h).elim hiw hir)]
    · rw [if_neg hc] at hres ⊢
      cases resumes with
      | nil => simp at hres
      | cons sr more =>
        simp only [Bool.and_eq_true, decide_eq_true_eq] at hres
        obtain ⟨⟨hcr, hrr⟩, hres2⟩ := hres
        have hlen2 : (sr.conds c).length = k := by rw [hcr]; exact hlen1
        obtain ⟨log, s2, hrun, hlog, hempty, -⟩ := ih sr more hlen2 hrr hres2
        refine ⟨w :: log, s2, ?_, ?_, hempty, ?_⟩
        · simp only [hrun]
          rfl
        · rw [hcr, hconds1] at hlog
          exact (List.Perm.cons w hlog).trans hperm
        · intro hr
          cases hr

/-- C24: thread `T`, which may call `cond_signal (c, l)` (it runs outside interrupt
context and holds `l`; the waiters of `c` are distinct and the threads in their
semaphores are blocked, each in one semaphore only), calls `cond_broadcast`.
Whenever a `cond_signal` ends with `T` off the CPU, `T` runs again in a state
with the waiter list as that call left it, in which it may call `cond_signal`
again (`resumes`).  Then `cond_broadcast` returns after as many calls of
`cond_signal` as `c` had waiters; the semaphores upped, one by each call, are
the waiters of `c`, each once; the waiter list is empty; with no waiter the
state is unchanged; and if `T` never lost the CPU, the value of each waiter's
semaphore is one more and every other semaphore of `semas` has its value. -/
theorem cond_broadcast_signals_each_waiter_once (T : Tid) (c : Nat) (l : LockId) (s : Kernel)
    (resumes : List Kernel)
    (hready : CondReady T c l s)
    (hres : resumed_ready T c l ((s.conds c).length + 1) resumes s = true) :
    ∃ log s2, cond_broadcast ((s.conds c).length + 1) resumes s c l
        = some ((s.conds c).length, log, s2) ∧
      log.Perm (s.conds c) ∧ s2.conds c = [] ∧
      (s.conds c = [] → log = [] ∧ s2 = s) ∧
      (resumes = [] → ∀ i, (s2.semas i).value =
        if i ∈ s.conds c then to_unsigned ((s.semas i).value + 1) else (s.semas i).value) := by
  obtain ⟨log, s2, hrun, hlog, hempty, hvals⟩ :=
    cond_broadcast_run T c l (s.conds c).length s resumes rfl hready hres
  refine ⟨log, s2, hrun, hlog, hempty, ?_, hvals⟩
  intro hnil
  have h0 : cond_broadcast ((s.conds c).length + 1) resumes s c l = some (0, [], s) := by
    rw [cond_broadcast_succ, if_pos hnil]
  rw [hrun] at h0
  simp only [Option.some.injEq, Prod.mk.injEq] at h0
  exact ⟨h0.2.1, h0.2.2⟩

/-- C24 at work: `main` broadcasts on condition 0 in `broadcast_state`; its first
`cond_signal` wakes the thread of priority 50 and yields to it, and `main` runs
again in `broadcast_resumed`. -/
theorem cond_broadcast_signals_each_waiter_once_witness :
    CondReady 1 0 1 broadcast_state ∧
    resumed_ready 1 0 1 ((broadcast_state.conds 0).length + 1) [broadcast_resumed]
      broadcast_state = true ∧
    (∃ log s2, cond_broadcast ((broadcast_state.conds 0).length + 1) [broadcast_resumed]
        broadcast_state 0 1 = some ((broadcast_state.conds 0).length, log, s2) ∧
      log.Perm (broadcast_state.conds 0) ∧ s2.conds 0 = [] ∧
      (broadcast_state.conds 0 = [] → log = [] ∧ s2 = broadcast_state) ∧
      ([broadcast_resumed] = [] → ∀ i, (s2.semas i).value =
        if i ∈ broadcast_state.conds 0 then to_unsigned ((broadcast_state.semas i).value + 1)
        else (broadcast_state.semas i).value)) ∧
    broadcast_state.conds 0 = [12, 11, 10] ∧
    (∃ s2, cond_broadcast 4 [broadcast_resumed] broadcast_state 0 1
        = some (3, [12, 11, 10], s2) ∧ s2.conds 0 = [] ∧ s2.ready_list = [4, 3]) :=
  ⟨by decide, by decide,
    cond_broadcast_signals_each_waiter_once 1 0 1 broadcast_state [broadcast_resumed]
      (by decide) (by decide),
    by decide, ⟨_, rfl, by decide, by decide⟩⟩

end Pintos
